import Mathlib

/-!
# mosdns-x: query-processing runtime

A shallow embedding of the upstream racer (`pkg/bundled_upstream`), the forwarder
plugin (`plugin/executable/fast_forward`) and the parallel node
(`pkg/executable_seq`), together with the properties proved about them.

Go pointers that may be nil are `Option`s, Go `error` values are `Option GoError`,
interfaces are records of their methods.  Concurrency is made explicit: the order in
which the drain loop of `ExchangeParallel` observes its `select` cases is an input
(a schedule), and every theorem quantifies over it.
-/

namespace Mosdns

/-! ## Errors -/

/-- Go `error` values, as far as the runtime tells them apart: the two context
errors, leaf errors, and errors wrapping another one (`fmt.Errorf("...: %w", err)`). -/
inductive GoError where
  | canceled
  | deadlineExceeded
  | other (msg : String)
  | wrap (msg : String) (inner : GoError)
  deriving DecidableEq, Repr

/-- The test `errors.Is(err, context.Canceled)`: walks the chain of wrapped errors. -/
def GoError.isCanceled : GoError → Bool
  | .canceled => true
  | .deadlineExceeded => false
  | .other _ => false
  | .wrap _ inner => inner.isCanceled

/-! ## DNS messages (`dns.Msg`) -/

/-- The header shared by all resource records (`dns.Header`). -/
structure Header where
  Name : String := "."
  TTL : Nat := 0
  Class : Nat := 1
  deriving DecidableEq, Repr

/-- A resource record: its header, its type code and its rdata in presentation form. -/
structure RR where
  Hdr : Header := {}
  Rrtype : Nat := 0
  Rdata : List String := []
  deriving DecidableEq, Repr

/-- An EDNS0 option of the pseudo section: option code and payload octets. -/
structure EDNS0 where
  Code : Nat := 0
  Data : List Nat := []
  deriving DecidableEq, Repr

/-- The message `dns.Msg`. -/
structure Msg where
  ID : Nat := 0
  Response : Bool := false
  Opcode : Nat := 0
  Authoritative : Bool := false
  Truncated : Bool := false
  RecursionDesired : Bool := false
  RecursionAvailable : Bool := false
  AuthenticatedData : Bool := false
  CheckingDisabled : Bool := false
  Rcode : Nat := 0
  UDPSize : Nat := 0
  Security : Bool := false
  CompactAnswers : Bool := false
  Delegation : Bool := false
  Question : List RR := []
  Answer : List RR := []
  Ns : List RR := []
  Extra : List RR := []
  Pseudo : List EDNS0 := []
  deriving DecidableEq, Repr

def RcodeSuccess : Nat := 0
def RcodeServerFailure : Nat := 2
def RcodeNameError : Nat := 3
def RcodeRefused : Nat := 5

/-- The deep copy `(*dns.Msg).Copy`: on values, the copy is the message itself. -/
def Msg.Copy (m : Msg) : Msg := m

/-! ## Query context (`query_context.Context`) -/

/-- The status of a query context. -/
inductive ContextStatus where
  | Unhandled
  | Responded
  | ServerFailed
  deriving DecidableEq, Repr

/-- Modelled from the spec: the package `query_context` (the type `Context` and its
accessors `Q`, `R`, `SetResponse`, `SetFrom`, `SetStatus`, `Copy`) is not part of the
sources at hand.  The spec lists the fields: the current query `Q`, the snapshot
`OriginalQuery`, the nullable response `R`, the client metadata, `Status` and the
origin tag `From`. -/
structure Context where
  Q : Msg := {}
  OriginalQuery : Msg := {}
  R : Option Msg := none
  ClientAddr : String := ""
  Protocol : String := ""
  Status : ContextStatus := .Unhandled
  From : String := ""
  deriving DecidableEq, Repr

/-- Modelled from the spec: `SetResponse` stores the response in `R`. -/
def Context.SetResponse (qCtx : Context) (r : Msg) : Context :=
  { qCtx with R := some r }

/-- Modelled from the spec: `SetFrom` stores the origin tag in `From`. -/
def Context.SetFrom (qCtx : Context) (s : String) : Context :=
  { qCtx with From := s }

/-- Modelled from the spec: `SetStatus` records `Responded` on success (a nil error)
and `ServerFailed` on failure. -/
def Context.SetStatus (qCtx : Context) (err : Option GoError) : Context :=
  { qCtx with Status := match err with
      | none => .Responded
      | some _ => .ServerFailed }

/-- Modelled from the spec: `Copy` deep-copies `Q`, `R` and `OriginalQuery`; the other
fields are plain values. -/
def Context.Copy (qCtx : Context) : Context :=
  { qCtx with Q := qCtx.Q.Copy, OriginalQuery := qCtx.OriginalQuery.Copy,
              R := qCtx.R.map Msg.Copy }

/-! ## Upstream racer (`pkg/bundled_upstream/bundled_upstream.go`) -/

/-- The interface `Upstream`.  Within one run of `ExchangeParallel` each upstream is
asked exactly once, so `Exchange` is a function of the query: what the network and
the task context made of it is part of the upstream. -/
structure Upstream where
  Exchange : Msg → Option Msg × Option GoError
  Trusted : Bool
  Address : String
  IPAddress : String := ""

/-- The record `parallelResult` a task publishes on the result channel. -/
structure parallelResult where
  r : Option Msg
  err : Option GoError
  from_ : Upstream

/-- The body of the goroutine spawned for upstream `u`: exchange a copy of the query
and build the record to publish. -/
def task (q : Msg) (u : Upstream) : parallelResult :=
  let qCopy := q.Copy
  let res := u.Exchange qCopy
  { r := res.1, err := res.2, from_ := u }

/-- What one `select` of the drain loop observes. -/
inductive Select where
  /-- The case `res := <-c`, where `res` is the record published by the task of
  `upstreams[i]`. -/
  | recv (i : Nat)
  /-- The case `res := <-c` on the closed and drained channel: `res` is nil. -/
  | closed
  /-- The case `<-taskCtx.Done()`, with `taskCtx.Err() = e`. -/
  | done (e : GoError)
  deriving DecidableEq, Repr

/-- How a call of `ExchangeParallel` ends. -/
inductive Outcome where
  /-- The call returns `(r, err, addr)`. -/
  | ret (r : Option Msg) (err : Option GoError) (addr : String)
  /-- The call dereferences a nil record and panics. -/
  | nilDeref
  /-- No case of the `select` ever becomes ready (the schedule ends, or names a
  task that does not exist). -/
  | blocked
  deriving DecidableEq, Repr

/-- The drain loop `for range upstreams { select { ... } }` (lines 87-115): `n` is the
number of iterations left, `err` the local variable `err`. -/
def drain (q : Msg) (upstreams : List Upstream) :
    Nat → List Select → Option GoError → Outcome
  | 0, _, err => .ret none err ""
  | _ + 1, [], _ => .blocked
  | _ + 1, .done e :: _, _ => .ret none (some e) ""
  | _ + 1, .closed :: _, _ => .nilDeref
  | n + 1, .recv i :: rest, err =>
    match upstreams[i]? with
    | none => .blocked
    | some u =>
      let res := task q u
      match res.err with
      | some resErr =>
        if !resErr.isCanceled then
          drain q upstreams n rest (some resErr)
        else if err.isNone then
          drain q upstreams n rest (some resErr)
        else
          drain q upstreams n rest err
      | none =>
        match res.r with
        | some r =>
          if res.from_.Trusted || r.Rcode == RcodeSuccess then
            .ret (some r) none res.from_.Address
          else
            drain q upstreams n rest err
        | none => drain q upstreams n rest err

/-- The function `ExchangeParallel`: one task per upstream on a copy of `qCtx.Q()`,
then the drain loop, started with `err = nil`.  The logger only receives warnings
and has no part in the result. -/
def ExchangeParallel (qCtx : Context) (upstreams : List Upstream)
    (sched : List Select) : Outcome :=
  let q := qCtx.Q
  drain q upstreams upstreams.length sched none

/-! ## Executable chains (`pkg/executable_seq`) -/

/-- What a stage leaves behind: the query context as mutated in place together with
the returned `error`, or `none` when the call does not return. -/
abbrev ExecResult := Option (Context × Option GoError)

/-- The interface `Executable`: `Exec(ctx, qCtx, next)`, with the remainder of the
chain `next` handed over as the continuation that runs it. -/
def Executable := Context → (Context → ExecResult) → ExecResult

/-- A chain node with its successors; the nil node is the empty chain. -/
abbrev ExecChainNode := List Executable

/-- Modelled from the spec: the function `ExecChain` is not part of the sources at
hand.  If `node == null`, return success; else call `node.Exec(ctx, qc, node.next)`. -/
def ExecChain : ExecChainNode → Context → ExecResult
  | [], qCtx => some (qCtx, none)
  | node :: next, qCtx => node qCtx (ExecChain next)

/-- Modelled from the spec: the function `ExecChainNode` of `executable_seq`, which
`parallel.go` calls and the sources at hand do not hold; it runs a chain as
`ExecChain` does. -/
def ExecChainNode.run (node : ExecChainNode) (qCtx : Context) : ExecResult :=
  ExecChain node qCtx

/-! ## Forwarder plugin (`plugin/executable/fast_forward`) -/

/-- One entry of the `upstream` list of the plugin arguments. -/
structure UpstreamConfig where
  Addr : String := ""
  DialAdders : List String := []
  Trusted : Bool := false
  Socks5 : String := ""
  S5Username : String := ""
  S5Password : String := ""
  SoMark : Int := 0
  BindToDevice : String := ""
  IdleTimeout : Int := 0
  MaxConns : Int := 0
  EnablePipeline : Bool := false
  Bootstrap : String := ""
  Insecure : Bool := false
  KernelTX : Bool := false
  KernelRX : Bool := false
  deriving DecidableEq, Repr

/-- The plugin arguments. -/
structure Args where
  Upstream : List UpstreamConfig := []
  CA : List String := []
  deriving DecidableEq, Repr

/-- A transport client `upstream.Upstream`, given by its method `ExchangeContext`. -/
structure Transport where
  ExchangeContext : Msg → Option Msg × Option GoError

/-- What `newFastForward` needs from outside this package: the certificate loader
`utils.LoadCertPool` (its error, if any), the constructor `upstream.NewUpstream`
(by server address, dial address and configuration), the outcome of the probe race
in `SelectFastestUpstream` (the first index to answer within three seconds, if any),
whether `net.SplitHostPort` accepts an address, and the network exchange of a
`udpme` upstream. -/
structure Env where
  LoadCertPool : List String → Option GoError
  NewUpstream : String → String → UpstreamConfig → Except GoError Transport
  probe : List Transport → Option Nat
  SplitHostPortOk : String → Bool
  udpmeExchange : String → Msg → Option Msg × Option GoError

/-- The library function `net.JoinHostPort`: a host holding a colon is bracketed. -/
def JoinHostPort (host port : String) : String :=
  if host.data.contains ':' then "[" ++ host ++ "]:" ++ port else host ++ ":" ++ port

/-- The library function `strings.HasPrefix`. -/
def HasPrefix (s pre : String) : Bool :=
  pre.data.isPrefixOf s.data

/-- The slice `s[n:]` of a string whose first `n` bytes are ASCII characters. -/
def sliceFrom (s : String) (n : Nat) : String :=
  String.mk (s.data.drop n)

/-- The type `udpmeUpstream`. -/
structure udpmeUpstream where
  addr : String
  trusted : Bool
  deriving DecidableEq, Repr

def newUDPME (env : Env) (addr : String) (trusted : Bool) : udpmeUpstream :=
  let addr := if !env.SplitHostPortOk addr then JoinHostPort addr "53" else addr
  { addr := addr, trusted := trusted }

/-- The methods `Exchange`, `Trusted`, `Address` and `IPAddress` of `udpmeUpstream`. -/
def udpmeUpstream.toUpstream (env : Env) (u : udpmeUpstream) : Upstream :=
  { Exchange := env.udpmeExchange u.addr
    Trusted := u.trusted
    Address := u.addr
    IPAddress := "" }

/-- The type `upstreamWrapper`. -/
structure upstreamWrapper where
  address : String
  ipAddr : String
  trusted : Bool
  u : Transport

/-- The methods `Exchange`, `Trusted`, `Address` and `IPAddress` of `upstreamWrapper`. -/
def upstreamWrapper.toUpstream (w : upstreamWrapper) : Upstream :=
  { Exchange := w.u.ExchangeContext
    Trusted := w.trusted
    Address := w.address
    IPAddress := w.ipAddr }

/-- The function `SelectFastestUpstream`: index 0 for a single upstream, else the
winner of the probe race, or the error `all upstream timeouts`. -/
def SelectFastestUpstream (env : Env) (upstreams : List Transport) : Except GoError Nat :=
  if upstreams.length == 1 then .ok 0
  else
    match env.probe upstreams with
    | some i => .ok i
    | none => .error (.other "all upstream timeouts")

/-- The first loop of `newUpstream`: one transport client per dial address. -/
def newUpstreamClients (env : Env) (c : UpstreamConfig) :
    List String → Except GoError (List Transport)
  | [] => .ok []
  | addr :: rest =>
    match env.NewUpstream c.Addr addr c with
    | .error err => .error (.wrap "failed to init upstream" err)
    | .ok u =>
      match newUpstreamClients env c rest with
      | .error err => .error err
      | .ok us => .ok (u :: us)

/-- The function `newUpstream`: the selected transport client and its dial address;
`none` inside stands for the index panic of `upstreams[k]`. -/
def newUpstream (env : Env) (c : UpstreamConfig) :
    Except GoError (Option (Transport × String)) :=
  let dialAdders := if c.DialAdders.length == 0 then c.DialAdders ++ [""] else c.DialAdders
  match newUpstreamClients env c dialAdders with
  | .error err => .error err
  | .ok upstreams =>
    let k := match SelectFastestUpstream env upstreams with
      | .ok k => k
      | .error _ => 0
    match upstreams[k]?, dialAdders[k]? with
    | some u, some addr => .ok (some (u, addr))
    | _, _ => .ok none

/-- The plugin `fastForward`: its tag (from the embedded `BP`), its arguments, the
racing upstreams and the transport clients to close on shutdown. -/
structure fastForward where
  Tag : String
  args : Args
  upstreamWrappers : List Upstream := []
  upstreamsCloser : List Transport := []

/-- What one iteration of the loop over `args.Upstream` does. -/
inductive Built where
  /-- The iteration appends a wrapper (and, for a transport upstream, its closer). -/
  | wrapper (w : Upstream) (closer : Option Transport)
  /-- The upstream failed to initialise: a warning is logged and the loop continues. -/
  | skipped
  /-- The call `newFastForward` returns this error. -/
  | failed (err : GoError)
  /-- The iteration panics. -/
  | crashed

/-- The body of the loop `for i, c := range args.Upstream` of `newFastForward`
(lines 106-132). -/
def buildUpstream (env : Env) (i : Nat) (c : UpstreamConfig) : Built :=
  if c.Addr.length == 0 then
    .failed (.other "missing server addr")
  else
    let trusted := c.Trusted || i == 0
    if HasPrefix c.Addr "udpme://" then
      let u := newUDPME env (sliceFrom c.Addr 8) trusted
      .wrapper (u.toUpstream env) none
    else
      match newUpstream env c with
      | .error _ => .skipped
      | .ok none => .crashed
      | .ok (some (u, addr)) =>
        let w : upstreamWrapper :=
          { address := c.Addr, ipAddr := addr, trusted := trusted, u := u }
        .wrapper w.toUpstream (some u)

/-- The loop `for i, c := range args.Upstream`, from index `i` on; `none` stands for
a panic. -/
def buildUpstreams (env : Env) :
    Nat → List UpstreamConfig → fastForward → Option (Except GoError fastForward)
  | _, [], f => some (.ok f)
  | i, c :: cs, f =>
    match buildUpstream env i c with
    | .failed err => some (.error err)
    | .crashed => none
    | .skipped => buildUpstreams env (i + 1) cs f
    | .wrapper w closer =>
      buildUpstreams env (i + 1) cs
        { f with upstreamWrappers := f.upstreamWrappers ++ [w]
                 upstreamsCloser := f.upstreamsCloser ++ closer.toList }

/-- The function `newFastForward`. -/
def newFastForward (env : Env) (tag : String) (args : Args) :
    Option (Except GoError fastForward) :=
  if args.Upstream.length == 0 then
    some (.error (.other "no upstream is configured"))
  else
    let f : fastForward := { Tag := tag, args := args }
    let caErr := if args.CA.length != 0 then env.LoadCertPool args.CA else none
    match caErr with
    | some err => some (.error (.wrap "failed to load ca" err))
    | none => buildUpstreams env 0 args.Upstream f

/-- The method `fastForward.exec`: run the racer and, if it returned a response,
store the response and its origin.  The three-second deadline put on `ctx` only
decides when the task context fires, which is part of the schedule. -/
def fastForward.exec (f : fastForward) (sched : List Select) (qCtx : Context) :
    ExecResult :=
  match ExchangeParallel qCtx f.upstreamWrappers sched with
  | .ret r err addr =>
    match r with
    | some r =>
      let qCtx := qCtx.SetResponse r
      let qCtx := qCtx.SetFrom (f.Tag ++ "@" ++ addr)
      some (qCtx, err)
    | none => some (qCtx, err)
  | .nilDeref => none
  | .blocked => none

/-- The method `fastForward.Exec`. -/
def fastForward.Exec (f : fastForward) (sched : List Select) (qCtx : Context)
    (next : ExecChainNode) : ExecResult :=
  match f.exec sched qCtx with
  | none => none
  | some (qCtx, err) =>
    let qCtx := qCtx.SetStatus err
    ExecChain next qCtx

/-! ## Parallel node (`pkg/executable_seq/parallel.go`) -/

/-- The type `ParallelNode` (without its logger). -/
structure ParallelNode where
  s : List ExecChainNode
  timeout : Nat := 0

/-- The record `parallelECSResult` a branch publishes: the context copy it ran on
and its error (`none` when the branch did not return), and the branch index. -/
structure parallelECSResult where
  res : ExecResult
  from_ : Nat

/-- The function `asyncWait` is not part of the sources at hand: it is a parameter,
a function of the parent context and of the records of the branches. -/
abbrev AsyncWait := Context → List parallelECSResult → ExecResult

/-- The loop `for i, node := range p.s` of `ParallelNode.exec`, from index `i` on:
every branch runs its sub-chain on its own copy of the context. -/
def spawnBranches (qCtx : Context) : Nat → List ExecChainNode → List parallelECSResult
  | _, [] => []
  | i, node :: rest =>
    let qCtxCopy := qCtx.Copy
    { res := ExecChainNode.run node qCtxCopy, from_ := i } :: spawnBranches qCtx (i + 1) rest

/-- The method `ParallelNode.exec`.  The deadline put on the task context is real
time; when it fires is part of what `asyncWait` observes. -/
def ParallelNode.exec (asyncWait : AsyncWait) (p : ParallelNode) (qCtx : Context) :
    ExecResult :=
  if p.s.length == 0 then
    some (qCtx, none)
  else
    let c := spawnBranches qCtx 0 p.s
    asyncWait qCtx c

/-- The method `ParallelNode.Exec`. -/
def ParallelNode.Exec (asyncWait : AsyncWait) (p : ParallelNode) (qCtx : Context)
    (next : ExecChainNode) : ExecResult :=
  match p.exec asyncWait qCtx with
  | none => none
  | some (qCtx, some err) => some (qCtx, some err)
  | some (qCtx, none) => ExecChainNode.run next qCtx

/-! ## Example configuration -/

/-- An environment in which every transport upstream initialises and echoes the
query, and the first probe wins. -/
def exampleEnv : Env :=
  { LoadCertPool := fun _ => none
    NewUpstream := fun _ _ _ => .ok { ExchangeContext := fun q => (some q, none) }
    probe := fun _ => some 0
    SplitHostPortOk := fun _ => true
    udpmeExchange := fun _ q => (some q, none) }

/-- Two upstream specs, neither marked trusted, then one marked trusted. -/
def exampleArgs : Args :=
  { Upstream := [{ Addr := "udp://1.1.1.1" }, { Addr := "udpme://8.8.8.8:53" },
      { Addr := "tls://9.9.9.9", Trusted := true }] }

/-- The forwarder `newFastForward` builds from `exampleArgs` in `exampleEnv`. -/
def exampleForwarder : fastForward :=
  { Tag := "forward"
    args := exampleArgs
    upstreamWrappers :=
      [{ Exchange := fun q => (some q, none), Trusted := true, Address := "udp://1.1.1.1" },
       { Exchange := fun q => (some q, none), Trusted := false, Address := "8.8.8.8:53" },
       { Exchange := fun q => (some q, none), Trusted := true, Address := "tls://9.9.9.9" }]
    upstreamsCloser :=
      [{ ExchangeContext := fun q => (some q, none) },
       { ExchangeContext := fun q => (some q, none) }] }

/-- A stage that answers the query with `NoError` and does not call `next`. -/
def answerStage : Executable :=
  fun qCtx _ => some ({ qCtx with R := some { qCtx.Q with Response := true } }, none)

/-- A stage that marks the origin tag and continues with `next`. -/
def markStage : Executable :=
  fun qCtx next => next { qCtx with From := qCtx.From ++ "+next" }

/-- A race that takes the first record without error, keeps the parent context, and
otherwise fails. -/
def firstWins : AsyncWait :=
  fun qCtx c =>
    match c.find? (fun res => match res.res with
        | some (_, none) => true
        | _ => false) with
    | some _ => some (qCtx, none)
    | none => some (qCtx, some (.other "no response"))

/-! ## Example upstreams -/

/-- A record is acceptable when it carries no error, a response, and the upstream is
trusted or the response has rcode `NoError`. -/
def Acceptable (q : Msg) (u : Upstream) (r : Msg) : Prop :=
  u.Exchange q.Copy = (some r, none) ∧ (u.Trusted = true ∨ r.Rcode = RcodeSuccess)

/-- An upstream at `addr` that answers every query with a response of rcode `rcode`. -/
def answering (addr : String) (trusted : Bool) (rcode : Nat) : Upstream :=
  { Exchange := fun q => (some { q with Response := true, Rcode := rcode }, none)
    Trusted := trusted
    Address := addr }

/-- An upstream at `addr` whose exchange fails with the error `e`. -/
def failing (addr : String) (trusted : Bool) (e : GoError) : Upstream :=
  { Exchange := fun _ => (none, some e)
    Trusted := trusted
    Address := addr }

/-! ## The DNS library (`codeberg.org/miekg/dns`) -/

def ClassINET : Nat := 1
def TypeA : Nat := 1
def TypeCNAME : Nat := 5
def TypeHINFO : Nat := 13
def TypeAAAA : Nat := 28
def TypeANY : Nat := 255
def CodeSUBNET : Nat := 8
def CodePADDING : Nat := 12

/-- The library function `dns.RRToType`: the type code of a record. -/
def RRToType (rr : RR) : Nat := rr.Rrtype

/-- The library function `dns.RRToCode`: the option code of an EDNS0 option. -/
def RRToCode (o : EDNS0) : Nat := o.Code

/-- The functions of the DNS library the sources call.  The library is not part of
the sources, so it is a parameter: `IsEdns0` is `(*Msg).IsEdns0`, `Len` is
`(*Msg).Len`, `Pack` is the length of `m.Data` after a successful `(*Msg).Pack`
(`none` when packing fails), `Pad` is `(*Msg).Pad`, `SetReply` is `dnsutil.SetReply`,
`MakePadding` is `dnsutil.MakePadding` and `OptLen` is the method `Len` of an
option. -/
structure DnsLib where
  IsEdns0 : Msg → Bool
  Len : Msg → Nat
  Pack : Msg → Option Nat
  Pad : Msg → Nat → Msg
  SetReply : Msg → Msg → Msg
  MakePadding : Nat → EDNS0
  OptLen : EDNS0 → Nat

/-! ## Message helpers (`pkg/dnsutils`) -/

/-- The function `UpgradeEDNS0`. -/
def UpgradeEDNS0 (m : Msg) : Msg :=
  { m with UDPSize := 1232 }

/-- The function `RemoveEDNS0`. -/
def RemoveEDNS0 (m : Msg) : Msg :=
  { m with UDPSize := 0, Security := false, CompactAnswers := false, Delegation := false,
           Pseudo := [] }

/-- The loop of `RemoveEDNS0Option` and of `RemoveECS`: drop the first option whose
code is `opt` and stop. -/
def removeOption (opt : Nat) : List EDNS0 → List EDNS0
  | [] => []
  | o :: ps => if RRToCode o == opt then ps else o :: removeOption opt ps

/-- The function `RemoveEDNS0Option`. -/
def RemoveEDNS0Option (m : Msg) (opt : Nat) : Msg :=
  { m with Pseudo := removeOption opt m.Pseudo }

/-- The function `GetEDNS0Option`: the first option whose code is `opt`, or nil. -/
def GetEDNS0Option (m : Msg) (opt : Nat) : Option EDNS0 :=
  m.Pseudo.find? (fun o => RRToCode o == opt)

/-- The function `PadToMinimum`: the message as it leaves the call, `upgraded` and
`newPadding`.  The lengths are Go `int`s and may go negative. -/
def PadToMinimum (lib : DnsLib) (m : Msg) (minLen : Int) : Msg × Bool × Bool :=
  match lib.Pack m with
  | none => (m, false, false)
  | some l =>
    if (l : Int) ≥ minLen then
      (m, false, false)
    else
      let edns0 := lib.IsEdns0 m
      if edns0 then
        match GetEDNS0Option m CodePADDING with
        | some pad =>
          let paddingLen : Int := minLen - ((l : Int) - (lib.OptLen pad : Int) + 4)
          let m := RemoveEDNS0Option m CodePADDING
          if paddingLen < 0 then
            (m, false, false)
          else
            ({ m with Pseudo := m.Pseudo ++ [lib.MakePadding paddingLen.toNat] }, false, false)
        | none =>
          let paddingLen : Int := minLen - (l : Int) - 4
          if paddingLen < 0 then
            (m, false, false)
          else
            ({ m with Pseudo := m.Pseudo ++ [lib.MakePadding paddingLen.toNat] }, false, true)
      else
        let paddingLen : Int := minLen - (l : Int) - 15
        if paddingLen < 0 then
          (m, false, false)
        else
          ({ m with Pseudo := m.Pseudo ++ [lib.MakePadding paddingLen.toNat] }, true, true)

/-! ## A reference DNS library -/

/-- The wire length of a domain name in presentation form: one octet for the root,
else one length octet per label, the label octets and the root octet. -/
def wireNameLen (name : String) : Nat :=
  if name.data == ['.'] then 1 else name.data.length + 1

/-- The wire length of a question: name, type and class. -/
def questionWireLen (rr : RR) : Nat :=
  wireNameLen rr.Hdr.Name + 4

/-- The wire length of a record: name, type, class, TTL, rdata length and rdata. -/
def rrWireLen (rr : RR) : Nat :=
  wireNameLen rr.Hdr.Name + 10 + (rr.Rdata.map fun s => s.data.length + 1).sum

/-- The wire length of an EDNS0 option: a header of 4 octets and the payload. -/
def optWireLen (o : EDNS0) : Nat :=
  4 + o.Data.length

/-- A message carries an OPT record when any of its EDNS0 fields is set. -/
def refIsEdns0 (m : Msg) : Bool :=
  decide (0 < m.UDPSize) || m.Security || m.CompactAnswers || m.Delegation ||
    !m.Pseudo.isEmpty

/-- The wire length without name compression: 12 octets of header, the questions, the
records, and for an EDNS0 message the OPT record (11 octets) with its options. -/
def refLen (m : Msg) : Nat :=
  12 + (m.Question.map questionWireLen).sum +
    ((m.Answer ++ m.Ns ++ m.Extra).map rrWireLen).sum +
    (if refIsEdns0 m then 11 + (m.Pseudo.map optWireLen).sum else 0)

/-- A PADDING option of `n` zero octets. -/
def refMakePadding (n : Nat) : EDNS0 :=
  { Code := CodePADDING, Data := List.replicate n 0 }

/-- Block-length padding (RFC 8467): append a PADDING option that brings the wire
length to the next multiple of `n`. -/
def refPad (m : Msg) (n : Nat) : Msg :=
  if n == 0 then m
  else
    let base := refLen { m with Pseudo := m.Pseudo ++ [refMakePadding 0] }
    let target := ((base + n - 1) / n) * n
    { m with Pseudo := m.Pseudo ++ [refMakePadding (target - base)] }

/-- A reply header for `q`: same id, opcode and question, response bit set. -/
def refSetReply (r q : Msg) : Msg :=
  { r with ID := q.ID, Response := true, Opcode := q.Opcode,
           RecursionDesired := q.RecursionDesired,
           CheckingDisabled := q.CheckingDisabled, Rcode := RcodeSuccess,
           Question := q.Question }

/-- A reference library: uncompressed wire lengths (`. A` packs to 17 octets,
`example.com. A` to 29, a 200-character name to 217, as in `TestPadToMinimum`),
packing never fails, and padding is block-length padding. -/
def refLib : DnsLib :=
  { IsEdns0 := refIsEdns0
    Len := refLen
    Pack := fun m => some (refLen m)
    Pad := refPad
    SetReply := refSetReply
    MakePadding := refMakePadding
    OptLen := optWireLen }

/-! ## Padding plugins (`plugin/executable/padding/padding.go`) -/

def queryLen : Nat := 128
def responseLen : Nat := 468
def maxPadLen : Nat := 1232

/-- The query `PadQuery.Exec` hands to `next`: lines 64-70. -/
def PadQuery.padQuery (lib : DnsLib) (q : Msg) : Msg :=
  if lib.Len q ≤ 1152 then
    let q := RemoveEDNS0Option q CodePADDING
    lib.Pad q queryLen
  else
    (PadToMinimum lib q maxPadLen).1

/-- The method `PadQuery.Exec`. -/
def PadQuery.Exec (lib : DnsLib) (qCtx : Context) (next : ExecChainNode) : ExecResult :=
  let q := qCtx.Q
  let qCtx := { qCtx with Q := PadQuery.padQuery lib q }
  match ExecChain next qCtx with
  | none => none
  | some (qCtx, some err) => some (qCtx, some err)
  | some (qCtx, none) =>
    match qCtx.R with
    | some r =>
      let oq := qCtx.OriginalQuery
      if !lib.IsEdns0 oq then
        some ({ qCtx with R := some (RemoveEDNS0 r) }, none)
      else
        some ({ qCtx with R := some (RemoveEDNS0Option r CodePADDING) }, none)
    | none => some (qCtx, none)

/-- The type `ResponsePaddingHandler`. -/
structure ResponsePaddingHandler where
  Always : Bool := false
  deriving DecidableEq, Repr

/-- The response `ResponsePaddingHandler.Exec` leaves once it has decided to pad:
lines 105-110. -/
def ResponsePaddingHandler.padResponse (lib : DnsLib) (r : Msg) : Msg :=
  if lib.Len r ≤ 936 then
    let r := RemoveEDNS0Option r CodePADDING
    lib.Pad r responseLen
  else
    (PadToMinimum lib r maxPadLen).1

/-- The method `ResponsePaddingHandler.Exec`. -/
def ResponsePaddingHandler.Exec (lib : DnsLib) (h : ResponsePaddingHandler)
    (qCtx : Context) (next : ExecChainNode) : ExecResult :=
  match ExecChain next qCtx with
  | none => none
  | some (qCtx, some err) => some (qCtx, some err)
  | some (qCtx, none) =>
    let oq := qCtx.OriginalQuery
    match qCtx.R with
    | some r =>
      if lib.IsEdns0 oq then
        if h.Always || (GetEDNS0Option oq CodePADDING).isSome then
          some ({ qCtx with R := some (ResponsePaddingHandler.padResponse lib r) }, none)
        else some (qCtx, none)
      else some (qCtx, none)
    | none => some (qCtx, none)

/-! ## Preset stages (`reject_any`, `sequence`, `bufsize`) -/

/-- The method `rejectAny.Exec`; `none` also stands for the index panic of
`q.Question[0]` on a query without question. -/
def rejectAny.Exec (lib : DnsLib) (qCtx : Context) (next : ExecChainNode) : ExecResult :=
  let q := qCtx.Q
  match q.Question[0]? with
  | none => none
  | some q0 =>
    if RRToType q0 != TypeANY then
      ExecChain next qCtx
    else
      let r : Msg := {}
      let r := lib.SetReply r q
      let r := { r with Answer := [{ Hdr := { Name := q0.Hdr.Name, TTL := 8482, Class := ClassINET }
                                     Rrtype := TypeHINFO
                                     Rdata := ["ANY obsoleted", "See RFC 8482"] }] }
      some (qCtx.SetResponse r, none)

/-- The method `_return.Exec`. -/
def _return.Exec (qCtx : Context) (_next : ExecChainNode) : ExecResult :=
  some (qCtx, none)

/-- The type `bufSize`; `size` is a `uint16`. -/
structure bufSize where
  size : Nat := 0
  deriving DecidableEq, Repr

/-- The method `bufSize.getSize`. -/
def bufSize.getSize (b : bufSize) : Nat :=
  if b.size ≤ 512 then 0
  else if b.size > 4096 then 4096
  else b.size

/-- The method `bufSize.Exec`. -/
def bufSize.Exec (lib : DnsLib) (b : bufSize) (qCtx : Context) (next : ExecChainNode) :
    ExecResult :=
  let q := qCtx.Q
  let q :=
    if lib.IsEdns0 q then
      let maxSize := b.getSize
      if maxSize > 0 && q.UDPSize > maxSize then { q with UDPSize := maxSize } else q
    else q
  ExecChain next { qCtx with Q := q }

/-! ## EDNS0 filter (`plugin/executable/edns0_filter/filter.go`) -/

/-- The arguments of `edns0_filter`. -/
structure edns0_filter.Args where
  NoEDNS : Bool := false
  Keep : List Nat := []
  Discard : List Nat := []
  deriving DecidableEq, Repr

/-- A Go `map[uint16]struct{}`: nil, or the keys inserted. -/
abbrev CodeSet := Option (List Nat)

/-- The length `len(m)` of a map: the number of distinct keys, 0 for nil. -/
def CodeSet.len : CodeSet → Nat
  | none => 0
  | some ks => ks.dedup.length

/-- The lookup `_, ok := m[k]`. -/
def CodeSet.has : CodeSet → Nat → Bool
  | none, _ => false
  | some ks, k => ks.contains k

/-- The type `Filter`. -/
structure Filter where
  args : edns0_filter.Args
  keep : CodeSet
  discard : CodeSet
  deriving DecidableEq, Repr

/-- The function `NewFilter`.  The closure `newMapOrNil(opts)` tests `len(opts)` and
then ranges over `args.Keep`, for both maps. -/
def NewFilter (args : edns0_filter.Args) : Filter :=
  let newMapOrNil : List Nat → CodeSet := fun opts =>
    if opts.length == 0 then none
    else some (args.Keep.foldl (fun m option => m ++ [option]) [])
  { args := args
    keep := newMapOrNil args.Keep
    discard := newMapOrNil args.Discard }

/-- The loops of `applyFilter`: `edns0 := ps[:0]`, then every record of `ps` that
passes the test is appended to `edns0`. -/
def filterLoop (test : EDNS0 → Bool) : List EDNS0 → List EDNS0 → List EDNS0
  | edns0, [] => edns0
  | edns0, rr :: ps =>
    if test rr then filterLoop test (edns0 ++ [rr]) ps else filterLoop test edns0 ps

/-- The method `Filter.applyFilter`. -/
def Filter.applyFilter (lib : DnsLib) (s : Filter) (q : Msg) : Msg :=
  if s.args.NoEDNS then
    RemoveEDNS0 q
  else if s.keep.len > 0 then
    if !lib.IsEdns0 q then q
    else
      let ps := q.Pseudo
      { q with Pseudo := filterLoop (fun rr => s.keep.has (RRToCode rr)) [] ps }
  else if s.discard.len > 0 then
    if !lib.IsEdns0 q then q
    else
      let ps := q.Pseudo
      { q with Pseudo := filterLoop (fun rr => !s.discard.has (RRToCode rr)) [] ps }
  else
    if !lib.IsEdns0 q then q
    else RemoveEDNS0 q

/-- The method `Filter.Exec`. -/
def Filter.Exec (lib : DnsLib) (s : Filter) (qCtx : Context) (next : ExecChainNode) :
    ExecResult :=
  let q := qCtx.Q
  ExecChainNode.run next { qCtx with Q := s.applyFilter lib q }

/-! ## Redirect (`plugin/executable/redirect/redirect.go`) -/

/-- The type `redirectPlugin`: `m` is the lookup `r.m.Match` of the compiled rules,
the redirect target of a name if a rule matches it. -/
structure redirectPlugin where
  m : String → Option String

/-- The CNAME record `redirectPlugin.Exec` inserts. -/
def redirectCNAME (orgQName redirectTarget : String) : RR :=
  { Hdr := { Name := orgQName, Class := ClassINET, TTL := 1 }
    Rrtype := TypeCNAME
    Rdata := [redirectTarget] }

/-- The loop `for i := range r.Question` of `redirectPlugin.Exec`: restore the
original query name. -/
def restoreQuestion (orgQName redirectTarget : String) (question : List RR) : List RR :=
  question.map fun rr =>
    if rr.Hdr.Name == redirectTarget then { rr with Hdr := { rr.Hdr with Name := orgQName } }
    else rr

/-- Which question records of the response are question records of the query.  A
question record is held by pointer and `redirectPlugin.Exec` assigns names through
these pointers, so an assignment to a record of `R` is an assignment to `Q` when the
record is also in `Q.Question`.  The value of a context does not tell which records
are shared: that is decided by how the response was built (a response that took over
the question records of the query shares them, a response unpacked from the wire has
records of its own), so it is given here.  The snapshot `OriginalQuery` is taken to
share no record with `Q`. -/
structure QuestionSharing where
  /-- When `Exec` is entered, `R.Question[i]` is the record `Q.Question[0]`. -/
  atEntry : Nat → Bool
  /-- When `next` has returned, `R.Question[i]` is the record `Q.Question[j]`. -/
  afterNext : Nat → Nat → Bool

/-- The assignment `rr.Header().Name = name`. -/
def setName (name : String) (rr : RR) : RR :=
  { rr with Hdr := { rr.Hdr with Name := name } }

/-- A list of records after the assignment `f` has gone through the records whose
index `hit` names; `i` is the index of the head. -/
def writeThrough (hit : Nat → Bool) (f : RR → RR) : Nat → List RR → List RR
  | _, [] => []
  | i, rr :: rest => (if hit i then f rr else rr) :: writeThrough hit f (i + 1) rest

/-- Whether the loop `for i := range r.Question` assigns to a record that `shared`
names: some `r.Question[i]` has the name `redirectTarget` and `shared i` holds; `i` is
the index of the head. -/
def restoresShared (redirectTarget : String) (shared : Nat → Bool) : Nat → List RR → Bool
  | _, [] => false
  | i, rr :: rest =>
    (rr.Hdr.Name == redirectTarget && shared i)
      || restoresShared redirectTarget shared (i + 1) rest

/-- Line 106, `q.Question[0].Header().Name = redirectTarget`, on a query with the one
question `q0`: the context handed to `next`.  The assignment goes through the record,
so it also shows in the question records of a response that are this record. -/
def redirectPlugin.rename (sh : QuestionSharing) (qCtx : Context) (q0 : RR)
    (redirectTarget : String) : Context :=
  { qCtx with
    Q := { qCtx.Q with Question := [{ q0 with Hdr := { q0.Hdr with Name := redirectTarget } }] }
    R := qCtx.R.map fun r =>
      { r with Question := writeThrough sh.atEntry (setName redirectTarget) 0 r.Question } }

/-- The loop `for i := range r.Question` as it shows in the query `q`: a question
record of `q` gets the original name when it is a question record of `r` that the loop
assigns to. -/
def redirectPlugin.restoreShared (sh : QuestionSharing) (orgQName redirectTarget : String)
    (q r : Msg) : Msg :=
  let assigned := fun j =>
    restoresShared redirectTarget (fun i => sh.afterNext i j) 0 r.Question
  { q with Question := writeThrough assigned (setName orgQName) 0 q.Question }

/-- The method `redirectPlugin.Exec`; `sh` tells which question records of the response
are question records of the query. -/
def redirectPlugin.Exec (r : redirectPlugin) (sh : QuestionSharing) (qCtx : Context)
    (next : ExecChainNode) : ExecResult :=
  let q := qCtx.Q
  match q.Question with
  | [q0] =>
    if q0.Hdr.Class != ClassINET then
      ExecChain next qCtx
    else
      let orgQName := q0.Hdr.Name
      match r.m orgQName with
      | none => ExecChain next qCtx
      | some redirectTarget =>
        match ExecChain next (redirectPlugin.rename sh qCtx q0 redirectTarget) with
        | none => none
        | some (qCtx, err) =>
          match qCtx.R with
          | some r =>
            let q := redirectPlugin.restoreShared sh orgQName redirectTarget qCtx.Q r
            let r := { r with Question := restoreQuestion orgQName redirectTarget r.Question }
            let newAns := [redirectCNAME orgQName redirectTarget] ++ r.Answer
            some ({ qCtx with Q := q, R := some { r with Answer := newAns } }, err)
          | none => some (qCtx, err)
  | _ => ExecChain next qCtx

/-! ## Properties of stages and example inputs -/

/-- The stage `_return`, as a stage of a chain. -/
def returnStage : Executable :=
  fun qCtx _ => _return.Exec qCtx []

/-- The query `example.com. A`, recursion desired, without EDNS0. -/
def exampleQuery : Msg :=
  { ID := 7, RecursionDesired := true
    Question := [{ Hdr := { Name := "example.com." }, Rrtype := TypeA }] }

/-- The query `example.com. A` with EDNS0 and a PADDING option of 8 octets. -/
def examplePaddedQuery : Msg :=
  { exampleQuery with UDPSize := 1232, Pseudo := [refMakePadding 8] }

/-- The query `example.com. A` with EDNS0 and one option of 1300 octets. -/
def exampleLargeQuery : Msg :=
  { exampleQuery with UDPSize := 4096
                      Pseudo := [{ Code := 65001, Data := List.replicate 1300 0 }] }

/-- The query `example.com. ANY`. -/
def exampleAnyQuery : Msg :=
  { ID := 9, Question := [{ Hdr := { Name := "example.com." }, Rrtype := TypeANY }] }

/-- The redirect rule `foo.test. → bar.test.`. -/
def exampleRedirect : redirectPlugin :=
  { m := fun s => if s = "foo.test." then some "bar.test." else none }

/-- The query `foo.test. A`. -/
def exampleFooQuery : Msg :=
  { Question := [{ Hdr := { Name := "foo.test." }, Rrtype := TypeA }] }

/-- The response of the upstream to the redirected query: `bar.test. A 10.0.0.1`. -/
def exampleBarResponse : Msg :=
  { Response := true
    Question := [{ Hdr := { Name := "bar.test." }, Rrtype := TypeA }]
    Answer := [{ Hdr := { Name := "bar.test.", TTL := 60 }, Rrtype := TypeA
                 Rdata := ["10.0.0.1"] }] }

/-- A stage that answers with `exampleBarResponse`. -/
def barStage : Executable :=
  fun qCtx _ => some ({ qCtx with R := some exampleBarResponse }, none)

/-- What the padding code takes for granted of the wire format: `MakePadding` makes a
PADDING option; a message with a pseudo record is EDNS0; appending a PADDING option of
`n` octets to a packed message adds 15 + `n` octets when the message was not EDNS0
(11 for the OPT record, 4 for the option header) and 4 + `n` when it was; replacing
the first PADDING option accounts for the length `Len` of the option replaced; and
`Pad` fills a message that fits into one block up to the block length. -/
structure DnsLib.WireLaws (lib : DnsLib) : Prop where
  makePadding_code : ∀ n, RRToCode (lib.MakePadding n) = CodePADDING
  isEdns0_append : ∀ (m : Msg) (o : EDNS0),
    lib.IsEdns0 { m with Pseudo := m.Pseudo ++ [o] } = true
  pack_upgrade : ∀ (m : Msg) (n l : Nat), lib.Pack m = some l → lib.IsEdns0 m = false →
    lib.Pack { m with Pseudo := m.Pseudo ++ [lib.MakePadding n] } = some (l + 15 + n)
  pack_append : ∀ (m : Msg) (n l : Nat), lib.Pack m = some l → lib.IsEdns0 m = true →
    lib.Pack { m with Pseudo := m.Pseudo ++ [lib.MakePadding n] } = some (l + 4 + n)
  pack_replace : ∀ (m : Msg) (pad : EDNS0) (n l : Nat), lib.Pack m = some l →
    lib.IsEdns0 m = true → GetEDNS0Option m CodePADDING = some pad →
    4 ≤ lib.OptLen pad ∧ lib.OptLen pad ≤ l ∧
    lib.Pack { m with Pseudo := removeOption CodePADDING m.Pseudo ++ [lib.MakePadding n] }
      = some (l - lib.OptLen pad + 4 + n)
  pad_block : ∀ (m : Msg) (n : Nat), GetEDNS0Option m CodePADDING = none →
    lib.Len m + (if lib.IsEdns0 m then 4 else 15) ≤ n →
    lib.Len (lib.Pad m n) = n ∧ lib.IsEdns0 (lib.Pad m n) = true ∧
      (GetEDNS0Option (lib.Pad m n) CodePADDING).isSome = true

/-- The padding `PadToMinimum` is about to add fits: an OPT record and an option
header for a message without EDNS0, an option header for an EDNS0 message without
PADDING option; a PADDING option that is already there is replaced. -/
def PaddingFits (lib : DnsLib) (m : Msg) (l minLen : Nat) : Prop :=
  (lib.IsEdns0 m = false → l + 15 ≤ minLen) ∧
  (lib.IsEdns0 m = true → GetEDNS0Option m CodePADDING = none → l + 4 ≤ minLen)

/-- The response `exampleLargeQuery` echoed. -/
def exampleLargeResponse : Msg :=
  { exampleLargeQuery with Response := true }

/-! ## Response matchers (`plugin/matcher/response_matcher/response_matcher.go`) -/

/-- The type `hasValidAnswer`: `_valid_answer` has `strict` false, `_valid_ip_answer`
has `strict` true. -/
structure hasValidAnswer where
  strict : Bool := false
  deriving DecidableEq, Repr

/-- The loop `for _, rr := range r.Answer` of `hasValidAnswer.match`: true at the
first record whose (type, class) is a key of the map `m`. -/
def hasValidAnswer.answerLoop (m : List (Nat × Nat)) : List RR → Bool
  | [] => false
  | rr :: rest =>
    if m.contains (RRToType rr, rr.Hdr.Class) then true
    else hasValidAnswer.answerLoop m rest

/-- The method `hasValidAnswer.match`; `none` stands for the index panic of
`q.Question[0]`.  The map `m` is the list of its keys. -/
def hasValidAnswer.match_ (e : hasValidAnswer) (qCtx : Context) : Option Bool :=
  match qCtx.R with
  | none => some false
  | some r =>
    let q := qCtx.Q
    if !e.strict then
      some ([0, 1, 3].contains r.Rcode)
    else
      match q.Question[0]? with
      | none => none
      | some q0 =>
        if RRToType q0 == TypeA || RRToType q0 == TypeAAAA then
          let m := q.Question.map fun quest => (RRToType quest, quest.Hdr.Class)
          some (hasValidAnswer.answerLoop m r.Answer)
        else
          some false

/-- The method `hasValidAnswer.Match`. -/
def hasValidAnswer.Match (e : hasValidAnswer) (qCtx : Context) :
    Option (Bool × Option GoError) :=
  (e.match_ qCtx).map fun matched => (matched, none)

/-- The loop `for _, rr := range r.Answer` of `hasEmptyIPAnswer.match`: false at the
first record of type A or AAAA, true when the loop ends. -/
def hasEmptyIPAnswer.answerLoop : List RR → Bool
  | [] => true
  | rr :: rest =>
    if RRToType rr == TypeA || RRToType rr == TypeAAAA then false
    else hasEmptyIPAnswer.answerLoop rest

/-- The method `hasEmptyIPAnswer.match`; `none` stands for the index panic of
`q.Question[0]`. -/
def hasEmptyIPAnswer.match_ (qCtx : Context) : Option Bool :=
  match qCtx.R with
  | none => some false
  | some r =>
    let q := qCtx.Q
    match q.Question[0]? with
    | none => none
    | some q0 =>
      if RRToType q0 == TypeA || RRToType q0 == TypeAAAA then
        some (hasEmptyIPAnswer.answerLoop r.Answer)
      else
        some true

/-- The method `hasEmptyIPAnswer.Match`. -/
def hasEmptyIPAnswer.Match (qCtx : Context) : Option (Bool × Option GoError) :=
  (hasEmptyIPAnswer.match_ qCtx).map fun matched => (matched, none)

/-! ## DoH responses (`constant/version.go`) -/

def DnsContentType : String := "application/dns-message"

/-- A response `*http.Response` (of either HTTP package): status code, status line
and the lookup `Header.Get`, which gives the empty string for a missing header. -/
structure HttpResponse where
  StatusCode : Int := 200
  Status : String := "200 OK"
  Header : String → String := fun _ => ""

/-- The digits loop of `strconv.Atoi`: the value of a non-empty string of decimal
digits. -/
def parseDigits : List Char → Option Nat
  | [] => none
  | cs => cs.foldl (fun acc ch =>
      match acc with
      | none => none
      | some n => if ch.isDigit then some (n * 10 + (ch.toNat - '0'.toNat)) else none)
      (some 0)

/-- The library function `strconv.Atoi` on a 64-bit platform: an optional sign and
decimal digits, within the range of `int`; `none` is a non-nil error. -/
def Atoi (s : String) : Option Int :=
  match s.data with
  | [] => none
  | c :: rest =>
    let neg := c == '-'
    let digits := if c == '-' || c == '+' then rest else c :: rest
    match parseDigits digits with
    | none => none
    | some n =>
      if neg then (if n ≤ 2 ^ 63 then some (-(n : Int)) else none)
      else (if n < 2 ^ 63 then some (n : Int) else none)

/-- The function `DealResponse`: `none` is the nil error. -/
def DealResponse (res : HttpResponse) : Option GoError :=
  let h := res.Header
  let code := res.StatusCode
  let status := res.Status
  if code != 200 then
    some (.other ("unexpected status " ++ toString code ++ ": " ++ status))
  else
    let contentType := h "Content-Type"
    if contentType != DnsContentType then
      some (.other ("unexpected content type: " ++ contentType))
    else
      let contentLength := h "Content-Length"
      if contentLength != "" then
        match Atoi contentLength with
        | some length => if length == 0 then some (.other "empty response") else none
        | none => none
      else none

/-! ## Chain nodes (`pkg/executable_seq/iface.go`) -/

/-- A value of interface type `Executable`, told apart by its dynamic type: nil, a
value of a type that is no chain node, a pointer to an `ExecutableNodeWrapper` (by
its address), or a value of another type that implements `ExecChainNode`. -/
inductive ExecValue where
  | nil
  | plain (id : Nat)
  | wrapper (addr : Nat)
  | node (id : Nat)
  deriving DecidableEq, Repr

/-- The type assertion `e.(ExecChainNode)`. -/
def ExecValue.isChainNode : ExecValue → Bool
  | .nil => false
  | .plain _ => false
  | .wrapper _ => true
  | .node _ => true

/-- The type `NodeLinker`; a nil `next` is `ExecValue.nil`. -/
structure NodeLinker where
  next : ExecValue := .nil
  deriving DecidableEq, Repr

/-- The method `NodeLinker.Next`. -/
def NodeLinker.Next (l : NodeLinker) : ExecValue := l.next

/-- The method `NodeLinker.LinkNext`. -/
def NodeLinker.LinkNext (_l : NodeLinker) (n : ExecValue) : NodeLinker := { next := n }

/-- The type `ExecutableNodeWrapper`. -/
structure ExecutableNodeWrapper where
  Executable : ExecValue
  NodeLinker : NodeLinker := {}
  deriving DecidableEq, Repr

/-- The wrappers allocated so far; the address of a wrapper is its index. -/
abbrev Heap := List ExecutableNodeWrapper

/-- The function `WrapExecutable`: the heap after the call and the node returned. -/
def WrapExecutable (heap : Heap) (e : ExecValue) : Heap × ExecValue :=
  if e.isChainNode then
    (heap, e)
  else
    (heap ++ [{ Executable := e }], .wrapper heap.length)

/-- The call `w.Next()` on the wrapper at `addr`; `none` for a dangling address. -/
def Heap.Next (heap : Heap) (addr : Nat) : Option ExecValue :=
  (heap[addr]?).map fun w => w.NodeLinker.Next

/-- The call `w.LinkNext(n)` on the wrapper at `addr`. -/
def Heap.LinkNext (heap : Heap) (addr : Nat) (n : ExecValue) : Heap :=
  match heap[addr]? with
  | none => heap
  | some w => heap.set addr { w with NodeLinker := w.NodeLinker.LinkNext n }

/-! ## TTL helpers (`pkg/dnsutils/msg.go`) -/

/-- The largest `uint32`, the value of `^uint32(0)`. -/
def maxUint32 : Nat := 2 ^ 32 - 1

/-- The body of the inner loop of `GetMinimalTTL`, on the pair of the local variables
`minTTL` and `hasRecord`. -/
def minTTLStep (st : Nat × Bool) (rr : RR) : Nat × Bool :=
  let ttl := rr.Hdr.TTL
  (if ttl < st.1 then ttl else st.1, true)

/-- The function `GetMinimalTTL`. -/
def GetMinimalTTL (m : Msg) : Nat :=
  let st := [m.Answer, m.Ns, m.Extra].foldl
    (fun st sec => sec.foldl minTTLStep st) (maxUint32, false)
  if !st.2 then 0 else st.1

/-- The query of `TestPadToMinimum` with 100 labels: `strings.Repeat("a.", 100)`. -/
def exampleLongNameQuery : Msg :=
  { Question := [{ Hdr := { Name := String.mk (List.replicate 100 ['a', '.']).flatten }
                   Rrtype := TypeA }] }

/-- The query `. A` of `TestPadToMinimum`. -/
def exampleRootQuery : Msg :=
  { Question := [{ Hdr := { Name := "." }, Rrtype := TypeA }] }

/-- The query `. A` with EDNS0 and two PADDING options of 16 octets. -/
def exampleTwicePaddedQuery : Msg :=
  { exampleRootQuery with UDPSize := 1232
                          Pseudo := [refMakePadding 16, refMakePadding 16] }

def RcodeFormatError : Nat := 1
def TypeMX : Nat := 15

/-- A response to `example.com. A` with the given rcode and one A record. -/
def exampleAResponse (rcode : Nat) : Msg :=
  { exampleQuery with
    Response := true
    Rcode := rcode
    Answer := [{ Hdr := { Name := "example.com.", TTL := 60 }, Rrtype := TypeA
                 Rdata := ["192.0.2.1"] }] }

/-- The query `example.com. MX`. -/
def exampleMXQuery : Msg :=
  { Question := [{ Hdr := { Name := "example.com." }, Rrtype := TypeMX }] }

/-- A `NoError` response to `example.com. MX` with one MX record. -/
def exampleMXResponse : Msg :=
  { exampleMXQuery with
    Response := true
    Answer := [{ Hdr := { Name := "example.com.", TTL := 60 }, Rrtype := TypeMX
                 Rdata := ["10", "mail.example.com."] }] }

/-- The headers of a DoH response with the DNS content type and the given
`Content-Length` header (the empty string when the header is missing). -/
def dohHeader (contentLength : String) : String → String :=
  fun key =>
    if key = "Content-Type" then DnsContentType
    else if key = "Content-Length" then contentLength
    else ""

/-- A context for `example.com. A` holding a `SERVFAIL` response with an A record. -/
def exampleServfailContext : Context :=
  { Q := exampleQuery, R := some (exampleAResponse RcodeServerFailure) }

/-- A context for `example.com. A` holding a response with a CNAME record only. -/
def exampleCnameOnlyContext : Context :=
  { Q := exampleQuery
    R := some { exampleQuery with
                Response := true
                Answer := [{ Hdr := { Name := "example.com." }, Rrtype := TypeCNAME
                             Rdata := ["www.example.com."] }] } }

/-- The question `example.com. A`. -/
def exampleQuestion : RR :=
  { Hdr := { Name := "example.com." }, Rrtype := TypeA }

/-! ## ECS helpers (`pkg/dnsutils/edns0_ecs.go`) -/

/-- The function `RemoveECS`: drop the first SUBNET option. -/
def RemoveECS (m : Msg) : Msg :=
  { m with Pseudo := removeOption CodeSUBNET m.Pseudo }

/-- The function `GetECS`: the first SUBNET option, or nil. -/
def GetECS (m : Msg) : Option EDNS0 :=
  m.Pseudo.find? (fun opt => RRToCode opt == CodeSUBNET)

/-- The loop of `AddECS`: at the first SUBNET option the loop returns, after writing
`ecs` in its place when `overwrite` is set; the result is the pseudo section as it is
left, and `none` when the loop ends without a SUBNET option. -/
def addECSLoop (ecs : EDNS0) (overwrite : Bool) : List EDNS0 → Option (List EDNS0)
  | [] => none
  | opt :: rest =>
    if RRToCode opt == CodeSUBNET then
      if overwrite then some (ecs :: rest) else some (opt :: rest)
    else
      (addECSLoop ecs overwrite rest).map fun ps => opt :: ps

/-- The function `AddECS`: the message as it is left, and `newECS`. -/
def AddECS (m : Msg) (ecs : EDNS0) (overwrite : Bool) : Msg × Bool :=
  let ps := m.Pseudo
  match addECSLoop ecs overwrite ps with
  | some ps1 => ({ m with Pseudo := ps1 }, false)
  | none => ({ m with Pseudo := ps ++ [ecs] }, true)

/-! ## More message helpers (`pkg/dnsutils/msg.go`) -/

def TypeSOA : Nat := 6

/-- The body of the inner loop of `ApplyTTL`, on one record. -/
def applyTTLRecord (max min : Nat) (rr : RR) : RR :=
  if max > 0 && rr.Hdr.TTL > max then
    { rr with Hdr := { rr.Hdr with TTL := max } }
  else if min > 0 && rr.Hdr.TTL < min then
    { rr with Hdr := { rr.Hdr with TTL := min } }
  else rr

/-- The function `ApplyTTL`. -/
def ApplyTTL (m : Msg) (max min : Nat) : Msg :=
  { m with Answer := m.Answer.map (applyTTLRecord max min)
           Ns := m.Ns.map (applyTTLRecord max min)
           Extra := m.Extra.map (applyTTLRecord max min) }

/-- The function `FakeSOA`. -/
def FakeSOA (name : String) : RR :=
  { Hdr := { Name := name, Class := ClassINET, TTL := 300 }
    Rrtype := TypeSOA
    Rdata := ["fake-ns.mosdns.fake.root.", "fake-mbox.mosdns.fake.root.", "2021110400",
              "1800", "900", "604800", "86400"] }

/-- The function `GenEmptyReply`; `none` stands for an index panic of
`q.Question[0]`. -/
def GenEmptyReply (lib : DnsLib) (q : Msg) (rcode : Nat) : Option Msg :=
  let r : Msg := {}
  let r := lib.SetReply r q
  let r := { r with Rcode := rcode, RecursionAvailable := true }
  if q.Question.length > 1 then
    match q.Question[0]? with
    | none => none
    | some q0 => some { r with Ns := [FakeSOA q0.Hdr.Name] }
  else
    some { r with Ns := [FakeSOA "."] }

/-! ## Sequence plugin (`plugin/executable/sequence/sequence.go`) -/

/-- The type `sequence`: its inner chain. -/
structure sequence where
  ecs : ExecChainNode

/-- The method `sequence.Exec`. -/
def sequence.Exec (s : sequence) (qCtx : Context) (next : ExecChainNode) : ExecResult :=
  match ExecChain s.ecs qCtx with
  | none => none
  | some (qCtx, some err) => some (qCtx, some err)
  | some (qCtx, none) => ExecChain next qCtx

/-! ## More example inputs -/

/-- A chain leaves the question section of `Q` unchanged whenever it returns. -/
def KeepsQuestion (next : ExecChainNode) : Prop :=
  ∀ c0 c1 e1, ExecChain next c0 = some (c1, e1) → c1.Q.Question = c0.Q.Question

/-- The messages `m` and `m1` differ at most in their answer, authority and additional
sections, whose records are related one by one by `P`. -/
def SectionsRel (P : RR → RR → Prop) (m m1 : Msg) : Prop :=
  List.Forall₂ P m.Answer m1.Answer ∧ List.Forall₂ P m.Ns m1.Ns ∧
  List.Forall₂ P m.Extra m1.Extra ∧
  m1 = { m with Answer := m1.Answer, Ns := m1.Ns, Extra := m1.Extra }

/-- The record `new` is the record `old` with the TTL `ttl`. -/
def HasTTL (ttl : Nat) (old new : RR) : Prop :=
  new = { old with Hdr := { old.Hdr with TTL := ttl } }

/-- A response whose records have the TTLs 5, 500 and 50 (answer), 86400 (authority)
and 0 (additional). -/
def exampleTTLResponse : Msg :=
  { ID := 7, Response := true
    Answer := [{ Hdr := { Name := "a.test.", TTL := 5 }, Rrtype := TypeA },
               { Hdr := { Name := "a.test.", TTL := 500 }, Rrtype := TypeA },
               { Hdr := { Name := "a.test.", TTL := 50 }, Rrtype := TypeA }]
    Ns := [{ Hdr := { Name := "test.", TTL := 86400 }, Rrtype := TypeSOA }]
    Extra := [{ Hdr := { Name := "ns.test.", TTL := 0 }, Rrtype := TypeA }] }

/-- A query with the two questions `first.test. A` and `second.test. AAAA`. -/
def exampleTwoQuestionQuery : Msg :=
  { ID := 11
    Question := [{ Hdr := { Name := "first.test." }, Rrtype := TypeA },
                 { Hdr := { Name := "second.test." }, Rrtype := TypeAAAA }] }

/-- A stage that sets `exampleBarResponse` as the response and fails. -/
def failingBarStage : Executable :=
  fun qCtx _ => some ({ qCtx with R := some exampleBarResponse }, some (.other "i/o timeout"))

/-- A stage that fails without touching the context. -/
def failStage : Executable :=
  fun qCtx _ => some (qCtx, some (.other "stage failed"))

/-- A SUBNET option for `1.2.3.0/24`. -/
def exampleSubnet : EDNS0 :=
  { Code := CodeSUBNET, Data := [0, 1, 24, 0, 1, 2, 3] }

/-- A SUBNET option for `10.0.0.0/24`. -/
def exampleSubnet2 : EDNS0 :=
  { Code := CodeSUBNET, Data := [0, 1, 24, 0, 10, 0, 0] }

/-- A cookie option. -/
def exampleCookie : EDNS0 :=
  { Code := 10, Data := [1, 2, 3, 4, 5, 6, 7, 8] }

/-- The number of SUBNET options a message carries. -/
def subnetCount (m : Msg) : Nat :=
  m.Pseudo.countP fun opt => RRToCode opt == CodeSUBNET

/-- The query `example.com. A` with a cookie and one SUBNET option. -/
def exampleSubnetQuery : Msg :=
  { exampleQuery with UDPSize := 1232, Pseudo := [exampleCookie, exampleSubnet] }

/-- The query `example.com. A` with two SUBNET options around a cookie. -/
def exampleTwoSubnetQuery : Msg :=
  { exampleQuery with UDPSize := 1232
                      Pseudo := [exampleSubnet, exampleCookie, exampleSubnet2] }

/-- Four upstreams: two fail with different errors, one reports `context.Canceled`,
and an untrusted one answers with rcode `ServerFailure`. -/
def exampleErrUpstreams : List Upstream :=
  [failing "udp://1.1.1.1" false (.other "connection refused"),
   failing "udp://8.8.8.8" false (.other "i/o timeout"),
   failing "udp://9.9.9.9" false .canceled,
   answering "udp://4.4.4.4" false RcodeServerFailure]

/-- No question record of the response is a question record of the query, as for a
response unpacked from the wire. -/
def noSharing : QuestionSharing :=
  { atEntry := fun _ => false, afterNext := fun _ _ => false }

/-- The question records of the response are those of the query, index by index, as
for a response that took over the question records of the query. -/
def replySharing : QuestionSharing :=
  { atEntry := fun i => i == 0, afterNext := fun i j => i == j }

/-- A stage that answers the query with the empty reply `GenEmptyReply` builds from it
(rcode `NameError`) and does not call `next`. -/
def emptyReplyStage : Executable :=
  fun qCtx _ =>
    match GenEmptyReply refLib qCtx.Q RcodeNameError with
    | some r => some (qCtx.SetResponse r, none)
    | none => none

/-- A response to `example.com. A` with EDNS0, a SUBNET option and two PADDING options,
of 16 and 24 octets. -/
def exampleTwicePaddedResponse : Msg :=
  { exampleQuery with Response := true, UDPSize := 1232
                      Pseudo := [exampleSubnet, refMakePadding 16, refMakePadding 24] }

/-- A stage that answers with `exampleTwicePaddedResponse`. -/
def twicePaddedStage : Executable :=
  fun qCtx _ => some ({ qCtx with R := some exampleTwicePaddedResponse }, none)

/-! ## The drain loop -/

theorem drain_zero (q : Msg) (upstreams : List Upstream) (sched : List Select)
    (err : Option GoError) : drain q upstreams 0 sched err = .ret none err "" := by
  cases sched <;> rfl

/-- A response returned by the drain loop is the acceptable record of a task whose
record was received. -/
theorem drain_ret_some (q : Msg) (upstreams : List Upstream) :
    ∀ (n : Nat) (sched : List Select) (err0 : Option GoError) (r : Msg)
      (err : Option GoError) (addr : String),
      drain q upstreams n sched err0 = .ret (some r) err addr →
      ∃ i u, Select.recv i ∈ sched ∧ upstreams[i]? = some u ∧ Acceptable q u r ∧
        err = none ∧ u.Address = addr := by
  intro n
  induction n with
  | zero =>
    intro sched err0 r err addr h
    rw [drain_zero] at h
    cases h
  | succ n ih =>
    intro sched err0 r err addr h
    match sched with
    | [] => simp [drain] at h
    | .done e :: rest => simp [drain] at h
    | .closed :: rest => simp [drain] at h
    | .recv i :: rest =>
      have lift : ∀ err1, drain q upstreams n rest err1 = .ret (some r) err addr →
          ∃ i0 u, Select.recv i0 ∈ Select.recv i :: rest ∧ upstreams[i0]? = some u ∧
            Acceptable q u r ∧ err = none ∧ u.Address = addr := by
        intro err1 h1
        obtain ⟨i0, u, hm, hu, hrest⟩ := ih rest err1 r err addr h1
        exact ⟨i0, u, List.mem_cons_of_mem _ hm, hu, hrest⟩
      cases hu : upstreams[i]? with
      | none => simp [drain, hu] at h
      | some u =>
        cases hex : u.Exchange q.Copy with
        | mk mr me =>
          cases me with
          | some resErr =>
            simp only [drain, hu, task, hex] at h
            split at h
            · exact lift _ h
            · split at h
              · exact lift _ h
              · exact lift _ h
          | none =>
            cases mr with
            | none =>
              simp only [drain, hu, task, hex] at h
              exact lift _ h
            | some r0 =>
              simp only [drain, hu, task, hex] at h
              split at h
              · rename_i hw
                simp only [Outcome.ret.injEq, Option.some.injEq] at h
                obtain ⟨hr, he, ha⟩ := h
                subst hr
                refine ⟨i, u, List.mem_cons_self _ _, hu, ⟨hex, ?_⟩, he.symm, ha⟩
                simpa using hw
              · exact lift _ h

/-- The drain loop skips the records that are not acceptable and returns at the first
acceptable one, whatever it has retained as error so far. -/
theorem drain_first_acceptable (q : Msg) (upstreams : List Upstream) (i : Nat)
    (u : Upstream) (r : Msg) (post : List Select) (hi : upstreams[i]? = some u)
    (hacc : Acceptable q u r) :
    ∀ (pre : List Nat) (n : Nat) (err0 : Option GoError), pre.length < n →
      (∀ j ∈ pre, ∃ uj, upstreams[j]? = some uj ∧ ∀ rj, ¬ Acceptable q uj rj) →
      drain q upstreams n (pre.map Select.recv ++ Select.recv i :: post) err0
        = .ret (some r) none u.Address := by
  intro pre
  induction pre with
  | nil =>
    intro n err0 hn _
    obtain ⟨m, rfl⟩ : ∃ m, n = m + 1 := ⟨n - 1, by simp at hn; omega⟩
    obtain ⟨hex, hw⟩ := hacc
    have hw2 : (u.Trusted || r.Rcode == RcodeSuccess) = true := by
      rcases hw with h | h
      · simp [h]
      · simp [h]
    simp [drain, hi, task, hex, hw2]
  | cons j pre ih =>
    intro n err0 hn hpre
    obtain ⟨m, rfl⟩ : ∃ m, n = m + 1 := ⟨n - 1, by simp at hn; omega⟩
    have hm : pre.length < m := by simp at hn; omega
    obtain ⟨uj, huj, hnot⟩ := hpre j (List.mem_cons_self _ _)
    have hrest : ∀ j0 ∈ pre, ∃ uj, upstreams[j0]? = some uj ∧ ∀ rj, ¬ Acceptable q uj rj :=
      fun j0 hj0 => hpre j0 (List.mem_cons_of_mem _ hj0)
    cases hex : uj.Exchange q.Copy with
    | mk mr me =>
      cases me with
      | some resErr =>
        simp only [List.map_cons, List.cons_append, drain, huj, task, hex]
        split
        · exact ih m _ hm hrest
        · split
          · exact ih m _ hm hrest
          · exact ih m _ hm hrest
      | none =>
        cases mr with
        | none =>
          simp only [List.map_cons, List.cons_append, drain, huj, task, hex]
          exact ih m _ hm hrest
        | some r0 =>
          simp only [List.map_cons, List.cons_append, drain, huj, task, hex]
          split
          · rename_i hw
            exfalso
            apply hnot r0
            refine ⟨hex, ?_⟩
            simpa using hw
          · exact ih m _ hm hrest

/-- A list of distinct task indices is no longer than the upstream list. -/
theorem nodup_length_le (l : List Nat) (n : Nat) (hnd : l.Nodup) (hlt : ∀ j ∈ l, j < n) :
    l.length ≤ n := by
  have hsub : l ⊆ List.range n := fun j hj => List.mem_range.mpr (hlt j hj)
  have := (List.subperm_of_subset hnd hsub).length_le
  simpa using this

/-- When every received record carries an error, the drain loop runs to its end and
returns no response; the error it returns is non-nil as soon as one record has been
received or an error was retained before. -/
theorem drain_all_err (q : Msg) (upstreams : List Upstream) :
    ∀ (n : Nat) (order : List Nat) (err0 : Option GoError), n ≤ order.length →
      (∀ j ∈ order, ∃ uj, upstreams[j]? = some uj ∧ (uj.Exchange q.Copy).2 ≠ none) →
      ∃ err, drain q upstreams n (order.map Select.recv) err0 = .ret none err "" ∧
        ((0 < n ∨ err0 ≠ none) → err ≠ none) := by
  intro n
  induction n with
  | zero =>
    intro order err0 _ _
    refine ⟨err0, drain_zero _ _ _ _, ?_⟩
    intro h
    rcases h with h | h
    · omega
    · exact h
  | succ n ih =>
    intro order err0 hn herr
    match order with
    | [] => simp at hn
    | j :: rest =>
      have hlen : n ≤ rest.length := by simp at hn; omega
      have hrest : ∀ j0 ∈ rest, ∃ uj, upstreams[j0]? = some uj ∧
          (uj.Exchange q.Copy).2 ≠ none :=
        fun j0 hj0 => herr j0 (List.mem_cons_of_mem _ hj0)
      obtain ⟨uj, huj, hne⟩ := herr j (List.mem_cons_self _ _)
      cases hex : uj.Exchange q.Copy with
      | mk mr me =>
        cases me with
        | none => simp [hex] at hne
        | some resErr =>
          have step : ∀ err1 : Option GoError, err1 ≠ none →
              ∃ err, drain q upstreams n (rest.map Select.recv) err1 = .ret none err "" ∧
                ((0 < n + 1 ∨ err0 ≠ none) → err ≠ none) := by
            intro err1 h1
            obtain ⟨err, hd, hnn⟩ := ih rest err1 hlen hrest
            exact ⟨err, hd, fun _ => hnn (Or.inr h1)⟩
          simp only [List.map_cons, drain, huj, task, hex]
          split
          · exact step _ (by simp)
          · split
            · exact step _ (by simp)
            · rename_i h0
              exact step _ (by
                intro hnone
                apply h0
                simp [hnone])

/-- When the drain loop, fed with records only, returns a Cancelled error without a
response, then the error retained before it started and the errors of all the
records it consumed were Cancelled errors. -/
theorem drain_canceled_only (q : Msg) (upstreams : List Upstream) :
    ∀ (n : Nat) (order : List Nat) (err0 : Option GoError) (e : GoError) (addr : String),
      drain q upstreams n (order.map Select.recv) err0 = .ret none (some e) addr →
      e.isCanceled = true →
      (∀ e0, err0 = some e0 → e0.isCanceled = true) ∧
      ∀ j ∈ order.take n, ∀ uj, upstreams[j]? = some uj →
        ∀ ej, (uj.Exchange q.Copy).2 = some ej → ej.isCanceled = true := by
  intro n
  induction n with
  | zero =>
    intro order err0 e addr h hc
    rw [drain_zero] at h
    simp only [Outcome.ret.injEq] at h
    obtain ⟨_, he, _⟩ := h
    refine ⟨?_, ?_⟩
    · intro e0 h0
      rw [h0] at he
      cases he
      exact hc
    · intro j hj
      simp at hj
  | succ n ih =>
    intro order err0 e addr h hc
    match order with
    | [] => simp [drain] at h
    | i :: rest =>
      cases hu : upstreams[i]? with
      | none => simp [drain, hu] at h
      | some u =>
        cases hex : u.Exchange q.Copy with
        | mk mr me =>
          have key : ∀ err1 : Option GoError,
              drain q upstreams n (rest.map Select.recv) err1 = .ret none (some e) addr →
              ((∀ e1, err1 = some e1 → e1.isCanceled = true) →
                (∀ e0, err0 = some e0 → e0.isCanceled = true) ∧
                ∀ ej, me = some ej → ej.isCanceled = true) →
              (∀ e0, err0 = some e0 → e0.isCanceled = true) ∧
              ∀ j ∈ (i :: rest).take (n + 1), ∀ uj, upstreams[j]? = some uj →
                ∀ ej, (uj.Exchange q.Copy).2 = some ej → ej.isCanceled = true := by
            intro err1 h1 hstep
            obtain ⟨hc1, hrest⟩ := ih rest err1 e addr h1 hc
            obtain ⟨hc0, hme⟩ := hstep hc1
            refine ⟨hc0, ?_⟩
            intro j hj uj huj ej hej
            simp only [List.take_succ_cons, List.mem_cons] at hj
            rcases hj with rfl | hj
            · rw [hu] at huj
              cases huj
              rw [hex] at hej
              exact hme ej hej
            · exact hrest j hj uj huj ej hej
          cases me with
          | some resErr =>
            simp only [List.map_cons, drain, hu, task, hex] at h
            split at h
            · rename_i hnc
              refine key _ h ?_
              intro h1
              have := h1 resErr rfl
              simp [this] at hnc
            · rename_i hcan
              have hcan2 : resErr.isCanceled = true := by simpa using hcan
              split at h
              · rename_i hnone
                refine key _ h ?_
                intro _
                refine ⟨?_, ?_⟩
                · intro e0 h0
                  simp [h0] at hnone
                · intro ej hej
                  cases hej
                  exact hcan2
              · refine key _ h ?_
                intro h1
                refine ⟨h1, ?_⟩
                intro ej hej
                cases hej
                exact hcan2
          | none =>
            cases mr with
            | none =>
              simp only [List.map_cons, drain, hu, task, hex] at h
              refine key _ h ?_
              intro h1
              exact ⟨h1, fun ej hej => by cases hej⟩
            | some r0 =>
              simp only [List.map_cons, drain, hu, task, hex] at h
              split at h
              · simp at h
              · refine key _ h ?_
                intro h1
                exact ⟨h1, fun ej hej => by cases hej⟩

/-- An untrusted upstream answering with an rcode other than `NoError` never delivers
an acceptable record. -/
theorem answering_untrusted_not_acceptable (q : Msg) (addr : String) (rcode : Nat)
    (h : rcode ≠ RcodeSuccess) : ∀ rj, ¬ Acceptable q (answering addr false rcode) rj := by
  intro rj hacc
  obtain ⟨hex, hw⟩ := hacc
  simp only [answering, Prod.mk.injEq, Option.some.injEq, and_true] at hex
  subst hex
  rcases hw with hw | hw
  · cases hw
  · exact h hw

/-! ## Claims on the upstream racer -/

/-- C1: whenever `ExchangeParallel` returns a non-null response `r` with an address
`addr`, whatever the upstream list and the order of arrival, some upstream `u` of the
list (whose record was received) returned `r` with a nil error, has address `addr`,
and is trusted or `r` has rcode `NoError`. -/
theorem ExchangeParallel_winner_sound (qCtx : Context) (upstreams : List Upstream)
    (sched : List Select) (r : Msg) (err : Option GoError) (addr : String)
    (h : ExchangeParallel qCtx upstreams sched = .ret (some r) err addr) :
    ∃ i u, Select.recv i ∈ sched ∧ upstreams[i]? = some u ∧ u ∈ upstreams ∧
      u.Exchange qCtx.Q.Copy = (some r, none) ∧ u.Address = addr ∧
      (u.Trusted = true ∨ r.Rcode = RcodeSuccess) := by
  obtain ⟨i, u, hm, hu, hacc, _, ha⟩ :=
    drain_ret_some qCtx.Q upstreams upstreams.length sched none r err addr h
  exact ⟨i, u, hm, hu, List.getElem?_mem hu, hacc.1, ha, hacc.2⟩

/-- Witness of C1: an untrusted upstream refuses first, then the trusted upstream
answers `NXDOMAIN`, which is returned. -/
theorem ExchangeParallel_winner_sound_witness :
    ExchangeParallel {} [answering "udp://1.1.1.1" true RcodeNameError,
        answering "udp://8.8.8.8" false RcodeRefused] [.recv 1, .recv 0]
      = .ret (some { Response := true, Rcode := RcodeNameError }) none "udp://1.1.1.1" ∧
    ∃ i u, Select.recv i ∈ [Select.recv 1, Select.recv 0] ∧
      [answering "udp://1.1.1.1" true RcodeNameError,
        answering "udp://8.8.8.8" false RcodeRefused][i]? = some u ∧
      u ∈ [answering "udp://1.1.1.1" true RcodeNameError,
        answering "udp://8.8.8.8" false RcodeRefused] ∧
      u.Exchange (Msg.Copy (Context.Q {})) = (some { Response := true, Rcode := RcodeNameError }, none) ∧
      u.Address = "udp://1.1.1.1" ∧
      (u.Trusted = true ∨ Msg.Rcode { Response := true, Rcode := RcodeNameError } = RcodeSuccess) :=
  ⟨rfl, ExchangeParallel_winner_sound {} _ _ _ _ _ rfl⟩

/-- C2: the result of `ExchangeParallel` is decided by the first acceptable record in
arrival order.  When the records of the distinct tasks `pre` arrive first and none of
them is acceptable, and the record of task `i` arrives next and is acceptable (no
error, a response `r`, upstream trusted or rcode `NoError`), the call returns `r`, a
nil error and that upstream's address, whatever was received before and whatever
would come after. -/
theorem ExchangeParallel_first_acceptable (qCtx : Context) (upstreams : List Upstream)
    (pre : List Nat) (i : Nat) (u : Upstream) (r : Msg) (post : List Select)
    (hnodup : (pre ++ [i]).Nodup)
    (hpre : ∀ j ∈ pre, ∃ uj, upstreams[j]? = some uj ∧ ∀ rj, ¬ Acceptable qCtx.Q uj rj)
    (hi : upstreams[i]? = some u)
    (hacc : Acceptable qCtx.Q u r) :
    ExchangeParallel qCtx upstreams (pre.map Select.recv ++ Select.recv i :: post)
      = .ret (some r) none u.Address := by
  have hlt : ∀ j ∈ pre ++ [i], j < upstreams.length := by
    intro j hj
    rcases List.mem_append.mp hj with hj | hj
    · obtain ⟨uj, huj, _⟩ := hpre j hj
      exact (List.getElem?_eq_some.mp huj).1
    · simp only [List.mem_singleton] at hj
      subst hj
      exact (List.getElem?_eq_some.mp hi).1
  have hlen := nodup_length_le (pre ++ [i]) upstreams.length hnodup hlt
  have hlen2 : pre.length < upstreams.length := by
    simp only [List.length_append, List.length_singleton] at hlen
    omega
  exact drain_first_acceptable qCtx.Q upstreams i u r post hi hacc pre upstreams.length
    none hlen2 hpre

/-- Witness of C2: `NXDOMAIN`, `SERVFAIL` and `REFUSED` arrive first from untrusted
upstreams and are passed over; the `NXDOMAIN` of the trusted upstream wins. -/
theorem ExchangeParallel_first_acceptable_witness :
    ([1, 2, 3] ++ [0]).Nodup ∧
    Acceptable (Context.Q {}) (answering "udp://1.1.1.1" true RcodeNameError)
      { Response := true, Rcode := RcodeNameError } ∧
    ExchangeParallel {}
      [answering "udp://1.1.1.1" true RcodeNameError,
        answering "udp://8.8.8.8" false RcodeNameError,
        answering "udp://9.9.9.9" false RcodeServerFailure,
        answering "udp://4.4.4.4" false RcodeRefused]
      ([1, 2, 3].map Select.recv ++ Select.recv 0 :: [])
      = .ret (some { Response := true, Rcode := RcodeNameError }) none
          (answering "udp://1.1.1.1" true RcodeNameError).Address :=
  ⟨by decide, ⟨rfl, Or.inl rfl⟩,
    ExchangeParallel_first_acceptable {}
      [answering "udp://1.1.1.1" true RcodeNameError,
        answering "udp://8.8.8.8" false RcodeNameError,
        answering "udp://9.9.9.9" false RcodeServerFailure,
        answering "udp://4.4.4.4" false RcodeRefused]
      [1, 2, 3] 0 (answering "udp://1.1.1.1" true RcodeNameError)
      { Response := true, Rcode := RcodeNameError } [] (by decide)
      (by
        intro j hj
        simp only [List.mem_cons, List.mem_singleton, List.not_mem_nil, or_false] at hj
        rcases hj with rfl | rfl | rfl
        · exact ⟨answering "udp://8.8.8.8" false RcodeNameError, rfl,
            answering_untrusted_not_acceptable _ _ _ (by decide)⟩
        · exact ⟨answering "udp://9.9.9.9" false RcodeServerFailure, rfl,
            answering_untrusted_not_acceptable _ _ _ (by decide)⟩
        · exact ⟨answering "udp://4.4.4.4" false RcodeRefused, rfl,
            answering_untrusted_not_acceptable _ _ _ (by decide)⟩)
      rfl ⟨rfl, Or.inl rfl⟩⟩

/-- C3: two untrusted upstreams answer `SERVFAIL` and `REFUSED` (responses, with a nil
error).  In either arrival order `ExchangeParallel` returns a null response, an empty
address and a nil error; with an empty upstream list it returns the same at once. -/
theorem ExchangeParallel_rejected_returns_nil_error :
    ExchangeParallel {}
        [answering "udp://8.8.8.8" false RcodeServerFailure,
          answering "udp://9.9.9.9" false RcodeRefused] [.recv 0, .recv 1]
      = .ret none none "" ∧
    ExchangeParallel {}
        [answering "udp://8.8.8.8" false RcodeServerFailure,
          answering "udp://9.9.9.9" false RcodeRefused] [.recv 1, .recv 0]
      = .ret none none "" ∧
    ExchangeParallel {} [] [] = .ret none none "" :=
  ⟨rfl, rfl, rfl⟩

/-- C4: for a non-empty upstream list, when every upstream's `Exchange` returns an
error and the task context does not fire (all records arrive, in some order),
`ExchangeParallel` returns a null response, an empty address and a non-nil error. -/
theorem ExchangeParallel_all_err (qCtx : Context) (upstreams : List Upstream)
    (order : List Nat) (hne : upstreams ≠ [])
    (horder : order.Perm (List.range upstreams.length))
    (herr : ∀ u ∈ upstreams, (u.Exchange qCtx.Q.Copy).2 ≠ none) :
    ∃ e, ExchangeParallel qCtx upstreams (order.map Select.recv) = .ret none (some e) "" := by
  have hlen : upstreams.length ≤ order.length := by
    have := horder.length_eq
    simp only [List.length_range] at this
    omega
  have hall : ∀ j ∈ order, ∃ uj, upstreams[j]? = some uj ∧
      (uj.Exchange qCtx.Q.Copy).2 ≠ none := by
    intro j hj
    have hj2 : j < upstreams.length := List.mem_range.mp (horder.subset hj)
    exact ⟨upstreams[j], List.getElem?_eq_getElem hj2, herr _ (List.getElem_mem hj2)⟩
  obtain ⟨err, hd, hnn⟩ := drain_all_err qCtx.Q upstreams upstreams.length order none hlen hall
  have hpos : 0 < upstreams.length := List.length_pos.mpr hne
  cases err with
  | none => exact absurd rfl (hnn (Or.inl hpos))
  | some e => exact ⟨e, hd⟩

/-- Witness of C4: two upstreams fail, the second record arrives first. -/
theorem ExchangeParallel_all_err_witness :
    [failing "udp://1.1.1.1" true (.other "i/o timeout"),
      failing "udp://8.8.8.8" false .deadlineExceeded] ≠ [] ∧
    [1, 0].Perm (List.range [failing "udp://1.1.1.1" true (.other "i/o timeout"),
      failing "udp://8.8.8.8" false .deadlineExceeded].length) ∧
    ∃ e, ExchangeParallel {}
      [failing "udp://1.1.1.1" true (.other "i/o timeout"),
        failing "udp://8.8.8.8" false .deadlineExceeded]
      ([1, 0].map Select.recv) = .ret none (some e) "" :=
  ⟨by simp, by decide,
    ExchangeParallel_all_err {}
      [failing "udp://1.1.1.1" true (.other "i/o timeout"),
        failing "udp://8.8.8.8" false .deadlineExceeded]
      [1, 0] (by simp) (by decide)
      (by
        intro u hu
        simp only [List.mem_cons, List.mem_singleton, List.not_mem_nil, or_false] at hu
        rcases hu with rfl | rfl
        · simp [failing]
        · simp [failing])⟩

/-- C5, as stated, fails: the only upstream reports `context.Canceled`, the drain loop
exhausts without a winner and returns that Cancelled error. -/
theorem ExchangeParallel_returns_canceled :
    ExchangeParallel {} [failing "udp://1.1.1.1" true .canceled] [.recv 0]
      = .ret none (some .canceled) "" ∧
    GoError.isCanceled .canceled = true :=
  ⟨rfl, rfl⟩

/-- C5, amended: a Cancelled error never stands in for another error.  When no task
context fires (records only, at most one per upstream), the drain loop exhausts
without a winner, and some received record carries a non-Cancelled error, then the
error returned is not a Cancelled error. -/
theorem ExchangeParallel_canceled_not_over_error (qCtx : Context)
    (upstreams : List Upstream) (order : List Nat) (e : GoError) (addr : String)
    (i : Nat) (u : Upstream) (ei : GoError)
    (hlen : order.length ≤ upstreams.length)
    (h : ExchangeParallel qCtx upstreams (order.map Select.recv) = .ret none (some e) addr)
    (hi : i ∈ order) (hu : upstreams[i]? = some u)
    (hei : (u.Exchange qCtx.Q.Copy).2 = some ei) (hnc : ei.isCanceled = false) :
    e.isCanceled = false := by
  cases hc : e.isCanceled with
  | false => rfl
  | true =>
    have hall := (drain_canceled_only qCtx.Q upstreams upstreams.length order none e addr
      h hc).2
    have hmem : i ∈ order.take upstreams.length := by
      rw [List.take_of_length_le hlen]
      exact hi
    have := hall i hmem u hu ei hei
    rw [hnc] at this
    cases this

/-- Witness of C5 amended: a Cancelled error arrives before and after a timeout; the
timeout is returned. -/
theorem ExchangeParallel_canceled_not_over_error_witness :
    [0, 1, 2].length ≤ [failing "udp://1.1.1.1" true .canceled,
      failing "udp://8.8.8.8" false (.other "i/o timeout"),
      failing "udp://9.9.9.9" false .canceled].length ∧
    ExchangeParallel {} [failing "udp://1.1.1.1" true .canceled,
      failing "udp://8.8.8.8" false (.other "i/o timeout"),
      failing "udp://9.9.9.9" false .canceled] ([0, 1, 2].map Select.recv)
      = .ret none (some (.other "i/o timeout")) "" ∧
    GoError.isCanceled (.other "i/o timeout") = false :=
  ⟨by decide, rfl,
    ExchangeParallel_canceled_not_over_error {}
      [failing "udp://1.1.1.1" true .canceled,
        failing "udp://8.8.8.8" false (.other "i/o timeout"),
        failing "udp://9.9.9.9" false .canceled]
      [0, 1, 2] (.other "i/o timeout") "" 1
      (failing "udp://8.8.8.8" false (.other "i/o timeout")) (.other "i/o timeout")
      (by decide) rfl (by decide) rfl rfl rfl⟩

/-! ## Claims on the forwarder plugin -/

/-- The wrapper an iteration of the loop builds is trusted exactly when its spec is
marked trusted or its index is 0. -/
theorem buildUpstream_trusted (env : Env) (i : Nat) (c : UpstreamConfig) (w : Upstream)
    (closer : Option Transport) (h : buildUpstream env i c = .wrapper w closer) :
    w.Trusted = (c.Trusted || i == 0) := by
  unfold buildUpstream at h
  split at h
  · cases h
  · split at h
    · simp only [Built.wrapper.injEq] at h
      rw [← h.1]
      rfl
    · split at h
      · cases h
      · cases h
      · simp only [Built.wrapper.injEq] at h
        rw [← h.1]
        rfl

/-- The loop over the upstream specs keeps the wrappers it started with and appends
exactly the wrappers its iterations build. -/
theorem buildUpstreams_wrappers (env : Env) :
    ∀ (cs : List UpstreamConfig) (i : Nat) (f f1 : fastForward),
      buildUpstreams env i cs f = some (.ok f1) →
      (∀ w ∈ f1.upstreamWrappers, w ∈ f.upstreamWrappers ∨
        ∃ k c closer, cs[k]? = some c ∧ buildUpstream env (i + k) c = .wrapper w closer) ∧
      (∀ w ∈ f.upstreamWrappers, w ∈ f1.upstreamWrappers) ∧
      (∀ k c w closer, cs[k]? = some c → buildUpstream env (i + k) c = .wrapper w closer →
        w ∈ f1.upstreamWrappers) := by
  intro cs
  induction cs with
  | nil =>
    intro i f f1 h
    simp only [buildUpstreams, Option.some.injEq, Except.ok.injEq] at h
    subst h
    refine ⟨fun w hw => Or.inl hw, fun w hw => hw, ?_⟩
    intro k c w closer hk
    simp at hk
  | cons c0 cs ih =>
    intro i f f1 h
    cases hb : buildUpstream env i c0 with
    | failed err => simp [buildUpstreams, hb] at h
    | crashed => simp [buildUpstreams, hb] at h
    | skipped =>
      simp only [buildUpstreams, hb] at h
      obtain ⟨h1, h2, h3⟩ := ih (i + 1) f f1 h
      refine ⟨?_, h2, ?_⟩
      · intro w hw
        rcases h1 w hw with hin | ⟨k, c, closer, hk, hbk⟩
        · exact Or.inl hin
        · refine Or.inr ⟨k + 1, c, closer, by simpa using hk, ?_⟩
          rw [← hbk]
          congr 1
          omega
      · intro k c w closer hk hbk
        cases k with
        | zero =>
          simp only [List.getElem?_cons_zero, Option.some.injEq] at hk
          subst hk
          rw [Nat.add_zero, hb] at hbk
          cases hbk
        | succ k =>
          refine h3 k c w closer (by simpa using hk) ?_
          rw [← hbk]
          congr 1
          omega
    | wrapper w0 closer0 =>
      simp only [buildUpstreams, hb] at h
      obtain ⟨h1, h2, h3⟩ := ih (i + 1) _ f1 h
      refine ⟨?_, ?_, ?_⟩
      · intro w hw
        rcases h1 w hw with hin | ⟨k, c, closer, hk, hbk⟩
        · simp only [List.mem_append, List.mem_singleton] at hin
          rcases hin with hin | rfl
          · exact Or.inl hin
          · exact Or.inr ⟨0, c0, closer0, by simp, by simpa using hb⟩
        · refine Or.inr ⟨k + 1, c, closer, by simpa using hk, ?_⟩
          rw [← hbk]
          congr 1
          omega
      · intro w hw
        exact h2 w (by simp [hw])
      · intro k c w closer hk hbk
        cases k with
        | zero =>
          simp only [List.getElem?_cons_zero, Option.some.injEq] at hk
          subst hk
          rw [Nat.add_zero, hb] at hbk
          simp only [Built.wrapper.injEq] at hbk
          exact h2 w (by simp [hbk.1])
        | succ k =>
          refine h3 k c w closer (by simpa using hk) ?_
          rw [← hbk]
          congr 1
          omega

/-- C6: for every configuration `newFastForward` accepts, the racing upstreams are
exactly those the loop builds from the specs, the upstream built from the spec at
index 0 reports `Trusted() = true` whatever its `trusted` setting, and the upstream
built from a spec at an index `i > 0` reports that spec's `trusted` setting. -/
theorem newFastForward_trusted (env : Env) (tag : String) (args : Args) (f : fastForward)
    (h : newFastForward env tag args = some (.ok f)) :
    (∀ w ∈ f.upstreamWrappers, ∃ i c closer, args.Upstream[i]? = some c ∧
      buildUpstream env i c = .wrapper w closer) ∧
    ∀ i c w closer, args.Upstream[i]? = some c →
      buildUpstream env i c = .wrapper w closer →
      w ∈ f.upstreamWrappers ∧ (i = 0 → w.Trusted = true) ∧
        (0 < i → w.Trusted = c.Trusted) := by
  unfold newFastForward at h
  split at h
  · cases h
  · simp only at h
    split at h
    · cases h
    · obtain ⟨h1, _, h3⟩ := buildUpstreams_wrappers env args.Upstream 0 _ f h
      refine ⟨?_, ?_⟩
      · intro w hw
        rcases h1 w hw with hin | ⟨k, c, closer, hk, hbk⟩
        · simp at hin
        · exact ⟨k, c, closer, hk, by simpa using hbk⟩
      · intro i c w closer hi hb
        have ht := buildUpstream_trusted env i c w closer hb
        refine ⟨h3 i c w closer hi (by simpa using hb), ?_, ?_⟩
        · intro h0
          subst h0
          simp [ht]
        · intro hpos
          have hne : (i == 0) = false := by
            simp only [beq_eq_false_iff_ne, ne_eq]
            omega
          simp [ht, hne]

/-- Witness of C6: three specs, of which only the third is marked trusted. -/
theorem newFastForward_trusted_witness :
    newFastForward exampleEnv "forward" exampleArgs = some (.ok exampleForwarder) ∧
    (∀ w ∈ exampleForwarder.upstreamWrappers, ∃ i c closer,
      exampleArgs.Upstream[i]? = some c ∧ buildUpstream exampleEnv i c = .wrapper w closer) ∧
    ∀ i c w closer, exampleArgs.Upstream[i]? = some c →
      buildUpstream exampleEnv i c = .wrapper w closer →
      w ∈ exampleForwarder.upstreamWrappers ∧ (i = 0 → w.Trusted = true) ∧
        (0 < i → w.Trusted = c.Trusted) :=
  ⟨rfl, newFastForward_trusted exampleEnv "forward" exampleArgs exampleForwarder rfl⟩

/-- What `exec` returns when the racer returns `(r, err, addr)`. -/
theorem fastForward_exec_ret (f : fastForward) (sched : List Select) (qCtx : Context)
    (r : Option Msg) (err : Option GoError) (addr : String)
    (h : ExchangeParallel qCtx f.upstreamWrappers sched = .ret r err addr) :
    f.exec sched qCtx = some (match r with
      | some r0 => (qCtx.SetResponse r0).SetFrom (f.Tag ++ "@" ++ addr)
      | none => qCtx, err) := by
  cases r with
  | none => simp [fastForward.exec, h]
  | some r0 => simp [fastForward.exec, h]

/-- C7: when the racer returns `(r, err, addr)`, the step `exec` returns `err`; if `r`
is a response, then afterwards `qc.R` is `r` and `qc.From` is the plugin tag followed
by `@` and `addr`, the other fields being untouched; if `r` is null, the query
context, `qc.R` and `qc.From` included, is exactly what it was before the call. -/
theorem fastForward_exec_response (f : fastForward) (sched : List Select) (qCtx : Context)
    (r : Option Msg) (err : Option GoError) (addr : String)
    (h : ExchangeParallel qCtx f.upstreamWrappers sched = .ret r err addr) :
    ∃ qc, f.exec sched qCtx = some (qc, err) ∧
      (∀ r0, r = some r0 → qc.R = some r0 ∧ qc.From = f.Tag ++ "@" ++ addr ∧
        qc = { qCtx with R := some r0, From := f.Tag ++ "@" ++ addr }) ∧
      (r = none → qc.R = qCtx.R ∧ qc.From = qCtx.From ∧ qc = qCtx) := by
  have hexec := fastForward_exec_ret f sched qCtx r err addr h
  cases r with
  | none =>
    refine ⟨qCtx, hexec, ?_, ?_⟩
    · intro r0 h0
      cases h0
    · intro _
      exact ⟨rfl, rfl, rfl⟩
  | some r1 =>
    refine ⟨(qCtx.SetResponse r1).SetFrom (f.Tag ++ "@" ++ addr), hexec, ?_, ?_⟩
    · intro r0 h0
      cases h0
      exact ⟨rfl, rfl, rfl⟩
    · intro h0
      cases h0

/-- Witness of C7: first the forwarder receives the echo of its first upstream, then
(on a context that already holds a response) the task context fires. -/
theorem fastForward_exec_response_witness :
    (ExchangeParallel {} exampleForwarder.upstreamWrappers [.recv 0]
        = .ret (some {}) none "udp://1.1.1.1" ∧
      ∃ qc, exampleForwarder.exec [.recv 0] {} = some (qc, none) ∧
        (∀ r0, some ({} : Msg) = some r0 → qc.R = some r0 ∧
          qc.From = exampleForwarder.Tag ++ "@" ++ "udp://1.1.1.1" ∧
          qc = { ({} : Context) with
                 R := some r0
                 From := exampleForwarder.Tag ++ "@" ++ "udp://1.1.1.1" }) ∧
        ((some ({} : Msg) = none) → qc.R = Context.R {} ∧ qc.From = Context.From {} ∧
          qc = {})) ∧
    (ExchangeParallel { R := some { Rcode := RcodeNameError }, From := "cache" }
        exampleForwarder.upstreamWrappers [.done .deadlineExceeded]
        = .ret none (some .deadlineExceeded) "" ∧
      ∃ qc, exampleForwarder.exec [.done .deadlineExceeded]
          { R := some { Rcode := RcodeNameError }, From := "cache" }
          = some (qc, some .deadlineExceeded) ∧
        (∀ r0, (none : Option Msg) = some r0 → qc.R = some r0 ∧
          qc.From = exampleForwarder.Tag ++ "@" ++ "" ∧
          qc = { ({ R := some { Rcode := RcodeNameError }, From := "cache" } : Context) with
                 R := some r0
                 From := exampleForwarder.Tag ++ "@" ++ "" }) ∧
        ((none : Option Msg) = none →
          qc.R = Context.R { R := some { Rcode := RcodeNameError }, From := "cache" } ∧
          qc.From = Context.From { R := some { Rcode := RcodeNameError }, From := "cache" } ∧
          qc = { R := some { Rcode := RcodeNameError }, From := "cache" })) :=
  ⟨⟨rfl, fastForward_exec_response exampleForwarder [.recv 0] {} (some {}) none
      "udp://1.1.1.1" rfl⟩,
   ⟨rfl, fastForward_exec_response exampleForwarder [.done .deadlineExceeded]
      { R := some { Rcode := RcodeNameError }, From := "cache" } none
      (some .deadlineExceeded) "" rfl⟩⟩

/-- Whenever the racer returns, with or without an error, `Exec` is one run of the
chain `next` on the context `exec` left, with the status set from the racer's error:
it returns exactly what `next` returns.  The racer's error only reaches `SetStatus`:
with the empty chain as `next`, `Exec` returns a nil error even when every upstream
failed. -/
theorem fastForward_Exec_runs_next (f : fastForward) (sched : List Select)
    (qCtx : Context) (next : ExecChainNode) (r : Option Msg) (err : Option GoError)
    (addr : String)
    (h : ExchangeParallel qCtx f.upstreamWrappers sched = .ret r err addr) :
    ∃ qc, f.exec sched qCtx = some (qc, err) ∧
      f.Exec sched qCtx next = ExecChain next (qc.SetStatus err) ∧
      f.Exec sched qCtx [] = some (qc.SetStatus err, none) := by
  have hexec := fastForward_exec_ret f sched qCtx r err addr h
  refine ⟨_, hexec, ?_, ?_⟩
  · simp [fastForward.Exec, hexec]
  · simp [fastForward.Exec, hexec, ExecChain]

/-- Every upstream of the forwarder fails; `next` still runs, once, and its result is
the result of `Exec`. -/
theorem fastForward_Exec_runs_next_witness :
    ExchangeParallel {}
        ({ exampleForwarder with
           upstreamWrappers := [failing "udp://1.1.1.1" true (.other "i/o timeout")] }
          : fastForward).upstreamWrappers [.recv 0]
      = .ret none (some (.other "i/o timeout")) "" ∧
    ∃ qc, ({ exampleForwarder with
           upstreamWrappers := [failing "udp://1.1.1.1" true (.other "i/o timeout")] }
          : fastForward).exec [.recv 0] {} = some (qc, some (.other "i/o timeout")) ∧
      ({ exampleForwarder with
           upstreamWrappers := [failing "udp://1.1.1.1" true (.other "i/o timeout")] }
          : fastForward).Exec [.recv 0] {} [markStage]
        = ExecChain [markStage] (qc.SetStatus (some (.other "i/o timeout"))) ∧
      ({ exampleForwarder with
           upstreamWrappers := [failing "udp://1.1.1.1" true (.other "i/o timeout")] }
          : fastForward).Exec [.recv 0] {} []
        = some (qc.SetStatus (some (.other "i/o timeout")), none) :=
  ⟨rfl, fastForward_Exec_runs_next
    { exampleForwarder with
      upstreamWrappers := [failing "udp://1.1.1.1" true (.other "i/o timeout")] }
    [.recv 0] {} [markStage] none (some (.other "i/o timeout")) "" rfl⟩

/-- The run in which every upstream fails, evaluated: the mark of `next` appears once,
the status is `ServerFailed`, no response is set and the error returned is nil. -/
theorem fastForward_Exec_all_failed_example :
    ({ exampleForwarder with
         upstreamWrappers := [failing "udp://1.1.1.1" true (.other "i/o timeout")] }
        : fastForward).Exec [.recv 0] {} [markStage]
      = some ({ Status := .ServerFailed, From := "+next" }, none) :=
  rfl

/-- C8: `Exec` does not always run `next`.  When the drain loop of the racer takes the
receive on the closed result channel, the racer reads a field of a nil record and the
call panics inside `exec`, before `SetStatus` and before `next`: so for the example
forwarder, and for every forwarder with an upstream, although `next` would return. -/
theorem fastForward_Exec_nil_record :
    ExchangeParallel {} exampleForwarder.upstreamWrappers [.closed] = .nilDeref ∧
    ExecChain [markStage] {} = some ({ From := "+next" }, none) ∧
    exampleForwarder.Exec [.closed] {} [markStage] = none ∧
    (∀ (f : fastForward) (qCtx : Context) (next : ExecChainNode) (rest : List Select),
      f.upstreamWrappers ≠ [] → f.Exec (.closed :: rest) qCtx next = none) := by
  refine ⟨rfl, rfl, rfl, ?_⟩
  intro f qCtx next rest hne
  cases hu : f.upstreamWrappers with
  | nil => exact absurd hu hne
  | cons u us =>
    simp [fastForward.Exec, fastForward.exec, ExchangeParallel, hu, drain]

/-! ## Claims on the parallel node -/

/-- C9: `ParallelNode.Exec` runs `next`, and returns its result, when the race of the
sub-chains returned a nil error; when the race returned an error, `Exec` returns that
error whatever `next` is, so without running it; and with an empty list of sub-chains
the race succeeds at once and leaves the query context unchanged, so that `Exec` is
the run of `next` on the unchanged context. -/
theorem ParallelNode_Exec_next (asyncWait : AsyncWait) (p : ParallelNode)
    (qCtx : Context) (next : ExecChainNode) :
    (∀ qc, p.exec asyncWait qCtx = some (qc, none) →
      p.Exec asyncWait qCtx next = ExecChainNode.run next qc) ∧
    (∀ qc err, p.exec asyncWait qCtx = some (qc, some err) →
      ∀ next0, p.Exec asyncWait qCtx next0 = some (qc, some err)) ∧
    (p.s = [] → p.exec asyncWait qCtx = some (qCtx, none) ∧
      p.Exec asyncWait qCtx next = ExecChainNode.run next qCtx) := by
  refine ⟨?_, ?_, ?_⟩
  · intro qc h
    simp [ParallelNode.Exec, h]
  · intro qc err h next0
    simp [ParallelNode.Exec, h]
  · intro hs
    have hexec : p.exec asyncWait qCtx = some (qCtx, none) := by
      simp [ParallelNode.exec, hs]
    exact ⟨hexec, by simp [ParallelNode.Exec, hexec]⟩

/-- Witness of C9: a race won by an answering branch, a race lost by a failing
branch, and a node without sub-chains. -/
theorem ParallelNode_Exec_next_witness :
    (ParallelNode.exec firstWins { s := [[answerStage]] } {} = some ({}, none) ∧
      ParallelNode.Exec firstWins { s := [[answerStage]] } {} [markStage]
        = ExecChainNode.run [markStage] {}) ∧
    (ParallelNode.exec firstWins { s := [[fun qCtx _ => some (qCtx, some .canceled)]] } {}
        = some ({}, some (.other "no response")) ∧
      ∀ next0, ParallelNode.Exec firstWins
          { s := [[fun qCtx _ => some (qCtx, some .canceled)]] } {} next0
        = some ({}, some (.other "no response"))) ∧
    (ParallelNode.exec firstWins { s := [] } { From := "cache" }
        = some ({ From := "cache" }, none) ∧
      ParallelNode.Exec firstWins { s := [] } { From := "cache" } [markStage]
        = ExecChainNode.run [markStage] { From := "cache" }) :=
  ⟨⟨rfl, (ParallelNode_Exec_next firstWins { s := [[answerStage]] } {} [markStage]).1
      {} rfl⟩,
   ⟨rfl, (ParallelNode_Exec_next firstWins
      { s := [[fun qCtx _ => some (qCtx, some .canceled)]] } {} []).2.1
      {} (.other "no response") rfl⟩,
   (ParallelNode_Exec_next firstWins { s := [] } { From := "cache" } [markStage]).2.2 rfl⟩

/-! ## Claims on the rewriting stages -/

/-- C12: for every query whose first question has type `ANY`, whatever `next` is,
`_reject_any` returns success without running `next`, and leaves a context that
differs only in `R`: the reply `SetReply` makes for the query, with an answer section
of exactly one HINFO record: owner the first question's name, class IN, TTL 8482,
Cpu `ANY obsoleted`, Os `See RFC 8482`. -/
theorem rejectAny_Exec_any (lib : DnsLib) (qCtx : Context) (q0 : RR) (rest : List RR)
    (hq : qCtx.Q.Question = q0 :: rest) (hany : RRToType q0 = TypeANY) :
    ∀ next, ∃ r, rejectAny.Exec lib qCtx next = some ({ qCtx with R := some r }, none) ∧
      r.Answer = [{ Hdr := { Name := q0.Hdr.Name, TTL := 8482, Class := ClassINET }
                    Rrtype := TypeHINFO
                    Rdata := ["ANY obsoleted", "See RFC 8482"] }] ∧
      r = { lib.SetReply {} qCtx.Q with Answer := r.Answer } := by
  intro next
  refine ⟨{ lib.SetReply {} qCtx.Q with
            Answer := [{ Hdr := { Name := q0.Hdr.Name, TTL := 8482, Class := ClassINET }
                         Rrtype := TypeHINFO
                         Rdata := ["ANY obsoleted", "See RFC 8482"] }] }, ?_, rfl, rfl⟩
  simp [rejectAny.Exec, hq, hany, Context.SetResponse]

/-- Witness of C12: the query `example.com. ANY`, with a `next` that would answer. -/
theorem rejectAny_Exec_any_witness :
    (Context.Q { Q := exampleAnyQuery }).Question
      = { Hdr := { Name := "example.com." }, Rrtype := TypeANY } :: [] ∧
    RRToType { Hdr := { Name := "example.com." }, Rrtype := TypeANY } = TypeANY ∧
    ∀ next, ∃ r, rejectAny.Exec refLib { Q := exampleAnyQuery } next
        = some ({ ({ Q := exampleAnyQuery } : Context) with R := some r }, none) ∧
      r.Answer = [{ Hdr := { Name := (RR.Hdr { Hdr := { Name := "example.com." },
                                               Rrtype := TypeANY }).Name
                             TTL := 8482, Class := ClassINET }
                    Rrtype := TypeHINFO
                    Rdata := ["ANY obsoleted", "See RFC 8482"] }] ∧
      r = { refLib.SetReply {} (Context.Q { Q := exampleAnyQuery }) with Answer := r.Answer } :=
  ⟨rfl, rfl, rejectAny_Exec_any refLib { Q := exampleAnyQuery }
    { Hdr := { Name := "example.com." }, Rrtype := TypeANY } [] rfl rfl⟩

/-- The run of the witness of C12, evaluated. -/
theorem rejectAny_Exec_example :
    rejectAny.Exec refLib { Q := exampleAnyQuery } [answerStage]
      = some ({ Q := exampleAnyQuery
                R := some { ID := 9, Response := true
                            Question := [{ Hdr := { Name := "example.com." }, Rrtype := TypeANY }]
                            Answer := [{ Hdr := { Name := "example.com.", TTL := 8482, Class := 1 }
                                         Rrtype := 13
                                         Rdata := ["ANY obsoleted", "See RFC 8482"] }] } },
              none) :=
  rfl

/-- C13: for every context and every `next`, `_return` returns success and leaves the
query context unchanged, and a chain that reaches the stage `_return` stops there:
the stages after it are not run. -/
theorem return_Exec_stops (qCtx : Context) (next : ExecChainNode) :
    _return.Exec qCtx next = some (qCtx, none) ∧
    ExecChain (returnStage :: next) qCtx = some (qCtx, none) :=
  ⟨rfl, rfl⟩

theorem writeThrough_getElem (hit : Nat → Bool) (f : RR → RR) :
    ∀ (l : List RR) (k j : Nat),
      (writeThrough hit f k l)[j]? = l[j]?.map fun rr => if hit (k + j) then f rr else rr := by
  intro l
  induction l with
  | nil => intro k j; simp [writeThrough]
  | cons a l ih =>
    intro k j
    cases j with
    | zero => simp [writeThrough]
    | succ j =>
      simp only [writeThrough, List.getElem?_cons_succ]
      rw [ih (k + 1) j]
      have : k + 1 + j = k + (j + 1) := by omega
      rw [this]

theorem writeThrough_length (hit : Nat → Bool) (f : RR → RR) :
    ∀ (l : List RR) (k : Nat), (writeThrough hit f k l).length = l.length := by
  intro l
  induction l with
  | nil => intro k; rfl
  | cons a l ih => intro k; simp [writeThrough, ih]

theorem writeThrough_none (hit : Nat → Bool) (f : RR → RR) (h : ∀ i, hit i = false) :
    ∀ (l : List RR) (k : Nat), writeThrough hit f k l = l := by
  intro l
  induction l with
  | nil => intro k; rfl
  | cons a l ih => intro k; simp [writeThrough, h, ih]

theorem restoresShared_iff (t : String) (shared : Nat → Bool) :
    ∀ (l : List RR) (k : Nat),
      restoresShared t shared k l = true ↔
        ∃ i ri, l[i]? = some ri ∧ ri.Hdr.Name = t ∧ shared (k + i) = true := by
  intro l
  induction l with
  | nil => intro k; simp [restoresShared]
  | cons a l ih =>
    intro k
    simp only [restoresShared, Bool.or_eq_true, Bool.and_eq_true, beq_iff_eq, ih]
    constructor
    · rintro (⟨hn, hs⟩ | ⟨i, ri, hi, hn, hs⟩)
      · exact ⟨0, a, by simp, hn, by simpa using hs⟩
      · refine ⟨i + 1, ri, by simpa using hi, hn, ?_⟩
        have : k + (i + 1) = k + 1 + i := by omega
        rw [this]
        exact hs
    · rintro ⟨i, ri, hi, hn, hs⟩
      cases i with
      | zero =>
        left
        simp only [List.getElem?_cons_zero, Option.some.injEq] at hi
        subst hi
        exact ⟨hn, by simpa using hs⟩
      | succ i =>
        right
        refine ⟨i, ri, by simpa using hi, hn, ?_⟩
        have : k + 1 + i = k + (i + 1) := by omega
        rw [this]
        exact hs

theorem restoresShared_none (t : String) (shared : Nat → Bool) (h : ∀ i, shared i = false) :
    ∀ (l : List RR) (k : Nat), restoresShared t shared k l = false := by
  intro l
  induction l with
  | nil => intro k; rfl
  | cons a l ih => intro k; simp [restoresShared, h, ih]

/-- When no question record of the response is a question record of the query, the
loop over the questions of the response leaves the query as it is. -/
theorem restoreShared_noSharing (sh : QuestionSharing) (o t : String) (q r : Msg)
    (h : ∀ i j, sh.afterNext i j = false) : redirectPlugin.restoreShared sh o t q r = q := by
  simp only [redirectPlugin.restoreShared]
  rw [writeThrough_none _ _ (fun j => restoresShared_none t _ (fun i => h i j) _ _)]

/-- What `redirectPlugin.Exec` does on a match, from what `next` returns. -/
theorem redirectPlugin_Exec_match (r : redirectPlugin) (sh : QuestionSharing)
    (qCtx : Context) (next : ExecChainNode) (q0 : RR) (t : String)
    (hq : qCtx.Q.Question = [q0]) (hclass : q0.Hdr.Class = ClassINET)
    (hm : r.m q0.Hdr.Name = some t) :
    r.Exec sh qCtx next =
      match ExecChain next (redirectPlugin.rename sh qCtx q0 t) with
      | none => none
      | some (c, err) =>
        match c.R with
        | some resp =>
          some ({ c with
            Q := redirectPlugin.restoreShared sh q0.Hdr.Name t c.Q resp
            R := some { resp with
              Question := restoreQuestion q0.Hdr.Name t resp.Question
              Answer := redirectCNAME q0.Hdr.Name t :: resp.Answer } }, err)
        | none => some (c, err) := by
  simp only [redirectPlugin.Exec, hq, hclass, hm, bne_self_eq_false, Bool.false_eq_true,
    if_false, List.singleton_append]

/-- C14: for a single-question class-IN query whose name `o` matches a rule with
target `t`, `next` is run on the context whose question name is `t` (the response
present at that moment is touched only in question records it shares with the query);
whatever error `next` returns is returned; if no response is present afterwards the
context is what `next` left, and if a response is present, every question of the
response named `t` is renamed to `o`, the others are kept, and its answer section
becomes the CNAME record (owner `o`, class IN, TTL 1, target `t`) followed by the
answers `next` left; besides the response only question records of `Q` that are
question records of the response change.  A query with a question count other than 1, a
class other than IN or no matching rule is passed to `next` unchanged. -/
theorem redirectPlugin_Exec_spec (r : redirectPlugin) (sh : QuestionSharing)
    (qCtx : Context) (next : ExecChainNode) :
    (∀ q0 t, qCtx.Q.Question = [q0] → q0.Hdr.Class = ClassINET →
      r.m q0.Hdr.Name = some t →
      redirectPlugin.rename sh qCtx q0 t = { qCtx with
        Q := { qCtx.Q with Question := [{ q0 with Hdr := { q0.Hdr with Name := t } }] }
        R := qCtx.R.map fun r0 =>
          { r0 with Question := writeThrough sh.atEntry (setName t) 0 r0.Question } } ∧
      ((∀ i, sh.atEntry i = false) → (redirectPlugin.rename sh qCtx q0 t).R = qCtx.R) ∧
      (ExecChain next (redirectPlugin.rename sh qCtx q0 t) = none →
        r.Exec sh qCtx next = none) ∧
      ∀ c err, ExecChain next (redirectPlugin.rename sh qCtx q0 t) = some (c, err) →
        (c.R = none → r.Exec sh qCtx next = some (c, err)) ∧
        ∀ resp, c.R = some resp →
          r.Exec sh qCtx next = some ({ c with
            Q := redirectPlugin.restoreShared sh q0.Hdr.Name t c.Q resp
            R := some { resp with
              Question := resp.Question.map fun rr =>
                if rr.Hdr.Name = t then { rr with Hdr := { rr.Hdr with Name := q0.Hdr.Name } }
                else rr
              Answer := { Hdr := { Name := q0.Hdr.Name, Class := ClassINET, TTL := 1 }
                          Rrtype := TypeCNAME
                          Rdata := [t] } :: resp.Answer } }, err) ∧
          ((∀ i j, sh.afterNext i j = false) →
            redirectPlugin.restoreShared sh q0.Hdr.Name t c.Q resp = c.Q)) ∧
    ((qCtx.Q.Question.length ≠ 1 ∨
        (∃ q0, qCtx.Q.Question = [q0] ∧
          (q0.Hdr.Class ≠ ClassINET ∨ r.m q0.Hdr.Name = none))) →
      r.Exec sh qCtx next = ExecChain next qCtx) := by
  refine ⟨?_, ?_⟩
  · intro q0 t hq hclass hm
    have hexec := redirectPlugin_Exec_match r sh qCtx next q0 t hq hclass hm
    refine ⟨rfl, ?_, ?_, ?_⟩
    · intro hno
      simp only [redirectPlugin.rename]
      cases qCtx.R with
      | none => rfl
      | some r0 =>
        simp only [Option.map_some']
        rw [writeThrough_none _ _ hno]
    · intro hn
      rw [hexec, hn]
    · intro c err hn
      refine ⟨?_, ?_⟩
      · intro hr
        rw [hexec, hn]
        simp only [hr]
      · intro resp hr
        refine ⟨?_, restoreShared_noSharing sh _ _ _ _⟩
        rw [hexec, hn]
        simp [hr, restoreQuestion, redirectCNAME]
  · intro h
    rcases h with hlen | ⟨q0, hq, hcase⟩
    · unfold redirectPlugin.Exec
      simp only
      split
      · rename_i q0 hq
        rw [hq] at hlen
        simp at hlen
      · rfl
    · rcases hcase with hclass | hm
      · simp [redirectPlugin.Exec, hq, hclass]
      · simp only [redirectPlugin.Exec, hq, hm]
        split <;> rfl

/-- Witness of C14: the rule `foo.test. → bar.test.`; `next` answers
`bar.test. A 10.0.0.1` with records of its own; the response left has question
`foo.test.`, the CNAME `foo.test. → bar.test.` with TTL 1 first and the A record
second. -/
theorem redirectPlugin_Exec_spec_witness :
    redirectPlugin.Exec exampleRedirect noSharing { Q := exampleFooQuery } [barStage]
      = some ({ Q := { Question := [{ Hdr := { Name := "bar.test." }, Rrtype := TypeA }] }
                R := some { Response := true
                            Question := [{ Hdr := { Name := "foo.test." }, Rrtype := TypeA }]
                            Answer := [{ Hdr := { Name := "foo.test.", TTL := 1, Class := 1 }
                                         Rrtype := 5, Rdata := ["bar.test."] },
                                       { Hdr := { Name := "bar.test.", TTL := 60 }, Rrtype := TypeA
                                         Rdata := ["10.0.0.1"] }] } }, none) :=
  ((((redirectPlugin_Exec_spec exampleRedirect noSharing { Q := exampleFooQuery } [barStage]).1
      { Hdr := { Name := "foo.test." }, Rrtype := TypeA } "bar.test." rfl rfl rfl).2.2.2
    { Q := { Question := [{ Hdr := { Name := "bar.test." }, Rrtype := TypeA }] }
      R := some exampleBarResponse } none rfl).2 exampleBarResponse rfl).1

/-! ## Claims on the padding plugins -/

theorem removeOption_filter (opt : Nat) (ps : List EDNS0) :
    (removeOption opt ps).filter (fun o => RRToCode o != opt)
      = ps.filter (fun o => RRToCode o != opt) := by
  induction ps with
  | nil => rfl
  | cons o ps ih =>
    by_cases h : RRToCode o = opt
    · simp [removeOption, h]
    · simp [removeOption, h, ih]

theorem removeOption_of_find_none (opt : Nat) (ps : List EDNS0)
    (h : ps.find? (fun o => RRToCode o == opt) = none) : removeOption opt ps = ps := by
  induction ps with
  | nil => rfl
  | cons o ps ih =>
    by_cases ho : RRToCode o = opt
    · simp [List.find?, ho] at h
    · have hb : (RRToCode o == opt) = false := by simpa using ho
      have hrest : ps.find? (fun o => RRToCode o == opt) = none := by
        rw [List.find?_cons, hb] at h
        exact h
      simp [removeOption, ho, ih hrest]

theorem removeOption_of_find_some (opt : Nat) (ps : List EDNS0) (o : EDNS0)
    (h : ps.find? (fun o => RRToCode o == opt) = some o) :
    ∃ pre post, ps = pre ++ o :: post ∧ (∀ x ∈ pre, RRToCode x ≠ opt) ∧
      RRToCode o = opt ∧ removeOption opt ps = pre ++ post := by
  induction ps with
  | nil => simp at h
  | cons a ps ih =>
    by_cases ha : RRToCode a = opt
    · have hao : a = o := by simpa [List.find?, ha] using h
      subst hao
      exact ⟨[], ps, rfl, by simp, ha, by simp [removeOption, ha]⟩
    · have hb : (RRToCode a == opt) = false := by simpa using ha
      have hrest : ps.find? (fun o => RRToCode o == opt) = some o := by
        rw [List.find?_cons, hb] at h
        exact h
      obtain ⟨pre, post, hps, hpre, hcode, hrem⟩ := ih hrest
      refine ⟨a :: pre, post, by simp [hps], ?_, hcode, by simp [removeOption, ha, hrem]⟩
      intro x hx
      rcases List.mem_cons.mp hx with rfl | hx
      · exact ha
      · exact hpre x hx

/-- On a list with at most one option of code `opt`, the loop removes every option of
that code: none is found afterwards and the list is the old one filtered. -/
theorem removeOption_single (opt : Nat) (ps : List EDNS0)
    (h : ps.countP (fun o => RRToCode o == opt) ≤ 1) :
    (removeOption opt ps).find? (fun o => RRToCode o == opt) = none ∧
    removeOption opt ps = ps.filter (fun o => RRToCode o != opt) := by
  induction ps with
  | nil => exact ⟨rfl, rfl⟩
  | cons a ps ih =>
    by_cases ha : RRToCode a = opt
    · have hz : ps.countP (fun o => RRToCode o == opt) = 0 := by
        simp [List.countP_cons, ha] at h
        rw [List.countP_eq_zero]
        intro x hx
        simpa using h x hx
      have hall : ∀ x ∈ ps, ¬ (RRToCode x == opt) = true := List.countP_eq_zero.mp hz
      refine ⟨?_, ?_⟩
      · simp only [removeOption, ha, beq_self_eq_true, if_true]
        rw [List.find?_eq_none]
        exact hall
      · simp only [removeOption, ha, beq_self_eq_true, if_true]
        rw [List.filter_cons]
        simp only [ha, bne_self_eq_false, Bool.false_eq_true, if_false]
        symm
        rw [List.filter_eq_self]
        intro x hx
        simpa using hall x hx
    · have hb : (RRToCode a == opt) = false := by simpa using ha
      have hrest : ps.countP (fun o => RRToCode o == opt) ≤ 1 := by
        simpa [List.countP_cons, hb] using h
      obtain ⟨h1, h2⟩ := ih hrest
      refine ⟨?_, ?_⟩
      · simp only [removeOption, hb, Bool.false_eq_true, if_false]
        rw [List.find?_cons, hb]
        exact h1
      · simp only [removeOption, hb, Bool.false_eq_true, if_false]
        rw [List.filter_cons]
        have hn : (RRToCode a != opt) = true := by simpa using ha
        rw [hn, if_pos rfl, h2]

/-- C15: the original query `example.com. A` has EDNS0 and a PADDING option; `next`
echoes the padded query as the response.  The response `_pad_query` leaves has EDNS0
and no PADDING option. -/
theorem PadQuery_roundtrip_drops_padding :
    refLib.IsEdns0 examplePaddedQuery = true ∧
    GetEDNS0Option examplePaddedQuery CodePADDING = some (refMakePadding 8) ∧
    (PadQuery.Exec refLib { Q := examplePaddedQuery, OriginalQuery := examplePaddedQuery }
        [answerStage]).map (fun res => (res.2, res.1.R.map fun r =>
          (refLib.IsEdns0 r, GetEDNS0Option r CodePADDING, r.Pseudo)))
      = some (none, some (true, none, [])) :=
  ⟨rfl, rfl, rfl⟩

/-- C16, as stated, fails: the original query has EDNS0 and no PADDING option, `next`
leaves a response with a SUBNET option and two PADDING options; the response
`_pad_query` leaves still carries the second PADDING option. -/
theorem PadQuery_Exec_keeps_second_padding :
    refLib.IsEdns0 exampleSubnetQuery = true ∧
    GetEDNS0Option exampleSubnetQuery CodePADDING = none ∧
    (PadQuery.Exec refLib { Q := exampleSubnetQuery, OriginalQuery := exampleSubnetQuery }
        [twicePaddedStage]).map (fun res => (res.2, res.1.R.map fun r =>
          (r.Pseudo, GetEDNS0Option r CodePADDING)))
      = some (none, some ([exampleSubnet, refMakePadding 24], some (refMakePadding 24))) :=
  ⟨rfl, rfl, rfl⟩

/-- C16, amended: after `next` returns successfully with a response `r`, `_pad_query`
changes only the response.  If the original query has no EDNS0 the response ends with
no EDNS0 at all: UDP size 0, flags cleared, no pseudo records.  If the original query
has EDNS0 (with or without a PADDING option) only the pseudo section changes: the first
PADDING option, if there is one, is removed and every other option is kept in order, so
that a response with at most one PADDING option ends with none.  If `next` returns an
error that error is returned and the response is not touched, and without a response
the context is what `next` left. -/
theorem PadQuery_Exec_strips (lib : DnsLib) (qCtx : Context) (next : ExecChainNode) :
    (∀ c r, ExecChain next { qCtx with Q := PadQuery.padQuery lib qCtx.Q } = some (c, none) →
      c.R = some r →
      (lib.IsEdns0 c.OriginalQuery = false →
        PadQuery.Exec lib qCtx next = some ({ c with R := some { r with
          UDPSize := 0, Security := false, CompactAnswers := false, Delegation := false
          Pseudo := [] } }, none)) ∧
      (lib.IsEdns0 c.OriginalQuery = true →
        ∃ ps, PadQuery.Exec lib qCtx next = some ({ c with R := some { r with Pseudo := ps } }, none) ∧
          ps.filter (fun o => RRToCode o != CodePADDING)
            = r.Pseudo.filter (fun o => RRToCode o != CodePADDING) ∧
          (GetEDNS0Option r CodePADDING = none → ps = r.Pseudo) ∧
          (∀ o, GetEDNS0Option r CodePADDING = some o →
            ∃ pre post, r.Pseudo = pre ++ o :: post ∧
              (∀ x ∈ pre, RRToCode x ≠ CodePADDING) ∧ ps = pre ++ post) ∧
          (r.Pseudo.countP (fun o => RRToCode o == CodePADDING) ≤ 1 →
            GetEDNS0Option { r with Pseudo := ps } CodePADDING = none ∧
            ps = r.Pseudo.filter (fun o => RRToCode o != CodePADDING)))) ∧
    (∀ c err, ExecChain next { qCtx with Q := PadQuery.padQuery lib qCtx.Q }
        = some (c, some err) →
      PadQuery.Exec lib qCtx next = some (c, some err)) ∧
    (∀ c, ExecChain next { qCtx with Q := PadQuery.padQuery lib qCtx.Q } = some (c, none) →
      c.R = none → PadQuery.Exec lib qCtx next = some (c, none)) := by
  refine ⟨?_, ?_, ?_⟩
  · intro c r hn hr
    refine ⟨?_, ?_⟩
    · intro hoq
      simp [PadQuery.Exec, hn, hr, hoq, RemoveEDNS0]
    · intro hoq
      refine ⟨removeOption CodePADDING r.Pseudo, ?_, removeOption_filter _ _, ?_, ?_, ?_⟩
      · simp [PadQuery.Exec, hn, hr, hoq, RemoveEDNS0Option]
      · intro hnone
        exact removeOption_of_find_none _ _ hnone
      · intro o ho
        obtain ⟨pre, post, hps, hpre, _, hrem⟩ := removeOption_of_find_some _ _ o ho
        exact ⟨pre, post, hps, hpre, hrem⟩
      · intro hone
        exact removeOption_single CodePADDING r.Pseudo hone
  · intro c err hn
    simp [PadQuery.Exec, hn]
  · intro c hn hr
    simp [PadQuery.Exec, hn, hr]

/-- Witness of C16 amended: the original query has EDNS0 and no PADDING option; the
echoed response loses the PADDING option `_pad_query` added and keeps its other
option. -/
theorem PadQuery_Exec_strips_witness :
    (PadQuery.Exec refLib
        { Q := { exampleQuery with UDPSize := 1232, Pseudo := [{ Code := CodeSUBNET, Data := [0, 1, 24, 0, 192, 0, 2] }] }
          OriginalQuery := { exampleQuery with UDPSize := 1232, Pseudo := [{ Code := CodeSUBNET, Data := [0, 1, 24, 0, 192, 0, 2] }] } }
        [answerStage]).map (fun res => (res.2, res.1.R.map fun r => r.Pseudo))
      = some (none, some [{ Code := CodeSUBNET, Data := [0, 1, 24, 0, 192, 0, 2] }]) ∧
    ∃ ps, PadQuery.Exec refLib
        { Q := { exampleQuery with UDPSize := 1232, Pseudo := [{ Code := CodeSUBNET, Data := [0, 1, 24, 0, 192, 0, 2] }] }
          OriginalQuery := { exampleQuery with UDPSize := 1232, Pseudo := [{ Code := CodeSUBNET, Data := [0, 1, 24, 0, 192, 0, 2] }] } }
        [answerStage]
      = some ({ Q := PadQuery.padQuery refLib { exampleQuery with UDPSize := 1232, Pseudo := [{ Code := CodeSUBNET, Data := [0, 1, 24, 0, 192, 0, 2] }] }
                OriginalQuery := { exampleQuery with UDPSize := 1232, Pseudo := [{ Code := CodeSUBNET, Data := [0, 1, 24, 0, 192, 0, 2] }] }
                R := some { PadQuery.padQuery refLib { exampleQuery with UDPSize := 1232, Pseudo := [{ Code := CodeSUBNET, Data := [0, 1, 24, 0, 192, 0, 2] }] } with
                            Response := true
                            Pseudo := ps } }, none) :=
  ⟨rfl, by
    obtain ⟨ps, h, _⟩ := ((PadQuery_Exec_strips refLib
      { Q := { exampleQuery with UDPSize := 1232, Pseudo := [{ Code := CodeSUBNET, Data := [0, 1, 24, 0, 192, 0, 2] }] }
        OriginalQuery := { exampleQuery with UDPSize := 1232, Pseudo := [{ Code := CodeSUBNET, Data := [0, 1, 24, 0, 192, 0, 2] }] } }
      [answerStage]).1 _ _ rfl rfl).2 rfl
    exact ⟨ps, h⟩⟩

/-- A message that packs to `minLen` octets or more leaves `PadToMinimum` as it is. -/
theorem PadToMinimum_long (lib : DnsLib) (m : Msg) (minLen l : Nat)
    (hpack : lib.Pack m = some l) (hge : minLen ≤ l) :
    PadToMinimum lib m minLen = (m, false, false) := by
  have h : ((l : Int) ≥ (minLen : Int)) := by omega
  simp [PadToMinimum, hpack, h]

theorem find_append_padding (ps : List EDNS0) (o : EDNS0) (ho : RRToCode o = CodePADDING) :
    ((ps ++ [o]).find? (fun x => RRToCode x == CodePADDING)).isSome = true := by
  rw [List.find?_isSome]
  exact ⟨o, by simp, by simp [ho]⟩

/-- A shorter message for which the padding fits leaves `PadToMinimum` packing to
exactly `minLen` octets, as an EDNS0 message with a PADDING option. -/
theorem PadToMinimum_pads (lib : DnsLib) (hl : lib.WireLaws) (m : Msg) (minLen l : Nat)
    (hpack : lib.Pack m = some l) (hlt : l < minLen) (hfit : PaddingFits lib m l minLen) :
    lib.Pack (PadToMinimum lib m minLen).1 = some minLen ∧
    lib.IsEdns0 (PadToMinimum lib m minLen).1 = true ∧
    (GetEDNS0Option (PadToMinimum lib m minLen).1 CodePADDING).isSome = true := by
  have hnge : ¬ ((l : Int) ≥ (minLen : Int)) := by omega
  cases he : lib.IsEdns0 m with
  | false =>
    have h15 := hfit.1 he
    have hpos : ¬ ((minLen : Int) - (l : Int) - 15 < 0) := by omega
    have hn : ((minLen : Int) - (l : Int) - 15).toNat = minLen - l - 15 := by omega
    have hres : (PadToMinimum lib m minLen).1
        = { m with Pseudo := m.Pseudo ++ [lib.MakePadding (minLen - l - 15)] } := by
      simp [PadToMinimum, hpack, hnge, he, hpos, hn]
    rw [hres]
    refine ⟨?_, hl.isEdns0_append m _, ?_⟩
    · rw [hl.pack_upgrade m _ l hpack he]
      congr 1
      omega
    · exact find_append_padding _ _ (hl.makePadding_code _)
  | true =>
    cases hp : GetEDNS0Option m CodePADDING with
    | none =>
      have h4 := hfit.2 he hp
      have hpos : ¬ ((minLen : Int) - (l : Int) - 4 < 0) := by omega
      have hn : ((minLen : Int) - (l : Int) - 4).toNat = minLen - l - 4 := by omega
      have hres : (PadToMinimum lib m minLen).1
          = { m with Pseudo := m.Pseudo ++ [lib.MakePadding (minLen - l - 4)] } := by
        simp [PadToMinimum, hpack, hnge, he, hp, hpos, hn]
      rw [hres]
      refine ⟨?_, hl.isEdns0_append m _, ?_⟩
      · rw [hl.pack_append m _ l hpack he]
        congr 1
        omega
      · exact find_append_padding _ _ (hl.makePadding_code _)
    | some pad =>
      obtain ⟨h4, hle, hrep⟩ := hl.pack_replace m pad (minLen - (l - lib.OptLen pad + 4)) l
        hpack he hp
      have hpos : ¬ ((minLen : Int) - ((l : Int) - (lib.OptLen pad : Int) + 4) < 0) := by
        omega
      have hn : ((minLen : Int) - ((l : Int) - (lib.OptLen pad : Int) + 4)).toNat
          = minLen - (l - lib.OptLen pad + 4) := by omega
      have hres : (PadToMinimum lib m minLen).1
          = { m with Pseudo := removeOption CodePADDING m.Pseudo ++
                [lib.MakePadding (minLen - (l - lib.OptLen pad + 4))] } := by
        simp [PadToMinimum, hpack, hnge, he, hp, hpos, hn, RemoveEDNS0Option]
      rw [hres]
      refine ⟨?_, ?_, ?_⟩
      · rw [hrep]
        congr 1
        omega
      · exact hl.isEdns0_append { m with Pseudo := removeOption CodePADDING m.Pseudo } _
      · exact find_append_padding _ _ (hl.makePadding_code _)

theorem optWireLen_refMakePadding (n : Nat) : optWireLen (refMakePadding n) = 4 + n := by
  simp [optWireLen, refMakePadding]

theorem refIsEdns0_append (m : Msg) (ps : List EDNS0) (o : EDNS0) :
    refIsEdns0 { m with Pseudo := ps ++ [o] } = true := by
  simp [refIsEdns0]

theorem pseudo_nil_of_not_refIsEdns0 (m : Msg) (h : refIsEdns0 m = false) : m.Pseudo = [] := by
  simp only [refIsEdns0, Bool.or_eq_false_iff] at h
  have := h.2
  simpa using this

theorem refLen_edns0 (m : Msg) (h : refIsEdns0 m = true) :
    refLen m = 12 + (m.Question.map questionWireLen).sum +
      ((m.Answer ++ m.Ns ++ m.Extra).map rrWireLen).sum + 11 + (m.Pseudo.map optWireLen).sum := by
  simp only [refLen, h, if_true]
  omega

theorem refLen_not_edns0 (m : Msg) (h : refIsEdns0 m = false) :
    refLen m = 12 + (m.Question.map questionWireLen).sum +
      ((m.Answer ++ m.Ns ++ m.Extra).map rrWireLen).sum := by
  simp [refLen, h]

theorem refLen_append (m : Msg) (ps : List EDNS0) (o : EDNS0) :
    refLen { m with Pseudo := ps ++ [o] } = 12 + (m.Question.map questionWireLen).sum +
      ((m.Answer ++ m.Ns ++ m.Extra).map rrWireLen).sum + 11 + (ps.map optWireLen).sum +
      optWireLen o := by
  rw [refLen_edns0 _ (refIsEdns0_append m ps o)]
  simp only [List.map_append, List.sum_append, List.map_cons, List.map_nil, List.sum_cons,
    List.sum_nil]
  omega

theorem sum_removeOption (ps : List EDNS0) (pad : EDNS0)
    (h : ps.find? (fun o => RRToCode o == CodePADDING) = some pad) :
    ((removeOption CodePADDING ps).map optWireLen).sum + optWireLen pad
      = (ps.map optWireLen).sum := by
  obtain ⟨pre, post, hps, _, _, hrem⟩ := removeOption_of_find_some _ _ _ h
  rw [hrem, hps]
  simp only [List.map_append, List.sum_append, List.map_cons, List.sum_cons]
  omega

/-- The reference library satisfies the wire laws. -/
theorem refLib_wireLaws : refLib.WireLaws := by
  refine ⟨?_, ?_, ?_, ?_, ?_, ?_⟩
  · intro n
    rfl
  · intro m o
    exact refIsEdns0_append m m.Pseudo o
  · intro m n l hpack he
    have hl : l = refLen m := by
      simp only [refLib, Option.some.injEq] at hpack
      exact hpack.symm
    have he2 : refIsEdns0 m = false := he
    have hps := pseudo_nil_of_not_refIsEdns0 m he2
    show some (refLen { m with Pseudo := m.Pseudo ++ [refMakePadding n] }) = some (l + 15 + n)
    rw [refLen_append, hl, refLen_not_edns0 m he2, hps, optWireLen_refMakePadding]
    simp only [List.map_nil, List.sum_nil]
    congr 1
    omega
  · intro m n l hpack he
    have hl : l = refLen m := by
      simp only [refLib, Option.some.injEq] at hpack
      exact hpack.symm
    have he2 : refIsEdns0 m = true := he
    show some (refLen { m with Pseudo := m.Pseudo ++ [refMakePadding n] }) = some (l + 4 + n)
    rw [refLen_append, hl, refLen_edns0 m he2, optWireLen_refMakePadding]
    congr 1
    omega
  · intro m pad n l hpack he hp
    have hl : l = refLen m := by
      simp only [refLib, Option.some.injEq] at hpack
      exact hpack.symm
    have he2 : refIsEdns0 m = true := he
    have hsum := sum_removeOption m.Pseudo pad hp
    have hlen := refLen_edns0 m he2
    have hopt : refLib.OptLen pad = optWireLen pad := rfl
    have h4 : 4 ≤ optWireLen pad := by
      simp [optWireLen]
    refine ⟨by rw [hopt]; exact h4, by rw [hopt]; omega, ?_⟩
    show some (refLen { m with Pseudo := removeOption CodePADDING m.Pseudo ++ [refMakePadding n] })
      = some (l - refLib.OptLen pad + 4 + n)
    rw [refLen_append, optWireLen_refMakePadding, hopt]
    congr 1
    omega
  · intro m n hp hfit
    have hbase : refLen { m with Pseudo := m.Pseudo ++ [refMakePadding 0] }
        = refLib.Len m + (if refLib.IsEdns0 m then 4 else 15) := by
      rw [refLen_append, optWireLen_refMakePadding]
      show _ = refLen m + (if refIsEdns0 m then 4 else 15)
      cases he : refIsEdns0 m with
      | true =>
        rw [refLen_edns0 m he]
        simp
      | false =>
        rw [refLen_not_edns0 m he, pseudo_nil_of_not_refIsEdns0 m he]
        simp
    have hlen12 : 12 ≤ refLib.Len m := by
      show 12 ≤ refLen m
      unfold refLen
      omega
    have hn : n ≠ 0 := by
      intro h0
      subst h0
      split at hfit <;> omega
    have hpad : refLib.Pad m n = { m with Pseudo := m.Pseudo ++
        [refMakePadding (n - (refLib.Len m + (if refLib.IsEdns0 m then 4 else 15)))] } := by
      show refPad m n = _
      unfold refPad
      have hb : (n == 0) = false := by simpa using hn
      simp only [hb, Bool.false_eq_true, if_false]
      rw [hbase]
      have hdiv : (refLib.Len m + (if refLib.IsEdns0 m then 4 else 15) + n - 1) / n = 1 := by
        apply Nat.div_eq_of_lt_le
        · split at hfit <;> split <;> omega
        · split at hfit <;> split <;> omega
      rw [hdiv, Nat.one_mul]
    rw [hpad]
    refine ⟨?_, refIsEdns0_append m m.Pseudo _, find_append_padding _ _ rfl⟩
    show refLen _ = n
    rw [refLen_append, optWireLen_refMakePadding]
    have hb2 := hbase
    rw [refLen_append, optWireLen_refMakePadding] at hb2
    omega

set_option maxRecDepth 100000

/-- What `ResponsePaddingHandler.Exec` returns after `next` returned successfully with
a response `r`. -/
theorem ResponsePaddingHandler_Exec_ok (lib : DnsLib) (h : ResponsePaddingHandler)
    (qCtx : Context) (next : ExecChainNode) (c : Context) (r : Msg)
    (hn : ExecChain next qCtx = some (c, none)) (hr : c.R = some r) :
    ResponsePaddingHandler.Exec lib h qCtx next =
      if lib.IsEdns0 c.OriginalQuery = true ∧
          (h.Always = true ∨ (GetEDNS0Option c.OriginalQuery CodePADDING).isSome = true) then
        some ({ c with R := some (ResponsePaddingHandler.padResponse lib r) }, none)
      else some (c, none) := by
  simp only [ResponsePaddingHandler.Exec, hn, hr]
  cases he : lib.IsEdns0 c.OriginalQuery <;> cases ha : h.Always <;>
    cases hp : (GetEDNS0Option c.OriginalQuery CodePADDING).isSome <;> simp

/-- C18, as stated, fails: the original query has EDNS0, the handler is the always
variant, `next` leaves a response of 1344 octets, and the response is not padded to
1232 octets: it is what `next` left.  And in the reference library, whose `Pad` is
block-length padding, a response of 494 octets ends with 936 octets, not 468. -/
theorem ResponsePaddingHandler_leaves_long_response :
    refLib.IsEdns0 exampleLargeQuery = true ∧
    ResponsePaddingHandler.Exec refLib { Always := true }
        { Q := exampleLargeQuery, OriginalQuery := exampleLargeQuery } [answerStage]
      = some ({ Q := exampleLargeQuery, OriginalQuery := exampleLargeQuery
                R := some exampleLargeResponse }, none) ∧
    refLib.Len exampleLargeResponse = 1344 ∧
    (ResponsePaddingHandler.Exec refLib { Always := true }
        { Q := { exampleQuery with
                 UDPSize := 1232
                 Pseudo := [{ Code := 65001, Data := List.replicate 450 0 }] }
          OriginalQuery := exampleLargeQuery } [answerStage]).map
      (fun res => (res.2, res.1.R.map refLib.Len)) = some (none, some 936) :=
  ⟨rfl, rfl, rfl, rfl⟩

/-- C18, amended: an error from `next` is returned unchanged; without a response, or
when the original query has no EDNS0, or when the handler is not the always variant
and the original query carries no PADDING option, the context is exactly what `next`
left.  Otherwise only `R` changes: a response of at most 936 octets loses its PADDING
option and goes to the library's `Pad` with block length 468, so that it has exactly
468 octets, EDNS0 and a PADDING option afterwards when, without its PADDING option, it
fits into one block; a longer one is left as it is when it packs to 1232 octets or
more, and packs to exactly 1232 octets afterwards when it is shorter and the padding
fits. -/
theorem ResponsePaddingHandler_Exec_spec (lib : DnsLib) (hl : lib.WireLaws)
    (h : ResponsePaddingHandler) (qCtx : Context) (next : ExecChainNode) :
    (ExecChain next qCtx = none → h.Exec lib qCtx next = none) ∧
    (∀ c err, ExecChain next qCtx = some (c, some err) →
      h.Exec lib qCtx next = some (c, some err)) ∧
    (∀ c, ExecChain next qCtx = some (c, none) →
      (c.R = none → h.Exec lib qCtx next = some (c, none)) ∧
      ∀ r, c.R = some r →
        (¬ (lib.IsEdns0 c.OriginalQuery = true ∧
            (h.Always = true ∨ (GetEDNS0Option c.OriginalQuery CodePADDING).isSome = true)) →
          h.Exec lib qCtx next = some (c, none)) ∧
        (lib.IsEdns0 c.OriginalQuery = true ∧
            (h.Always = true ∨ (GetEDNS0Option c.OriginalQuery CodePADDING).isSome = true) →
          ∃ r1, h.Exec lib qCtx next = some ({ c with R := some r1 }, none) ∧
            (lib.Len r ≤ 936 →
              r1 = lib.Pad (RemoveEDNS0Option r CodePADDING) 468 ∧
              (GetEDNS0Option (RemoveEDNS0Option r CodePADDING) CodePADDING = none →
                lib.Len (RemoveEDNS0Option r CodePADDING)
                    + (if lib.IsEdns0 (RemoveEDNS0Option r CodePADDING) then 4 else 15)
                  ≤ 468 →
                lib.Len r1 = 468 ∧ lib.IsEdns0 r1 = true ∧
                (GetEDNS0Option r1 CodePADDING).isSome = true) ∧
              (GetEDNS0Option r CodePADDING = none →
                lib.Len r + (if lib.IsEdns0 r then 4 else 15) ≤ 468 →
                lib.Len r1 = 468 ∧ lib.IsEdns0 r1 = true ∧
                (GetEDNS0Option r1 CodePADDING).isSome = true)) ∧
            (936 < lib.Len r → ∀ l, lib.Pack r = some l →
              (1232 ≤ l → r1 = r) ∧
              (l < 1232 → PaddingFits lib r l 1232 → lib.Pack r1 = some 1232)))) := by
  refine ⟨?_, ?_, ?_⟩
  · intro hn
    simp [ResponsePaddingHandler.Exec, hn]
  · intro c err hn
    simp [ResponsePaddingHandler.Exec, hn]
  · intro c hn
    refine ⟨?_, ?_⟩
    · intro hr
      simp [ResponsePaddingHandler.Exec, hn, hr]
    · intro r hr
      have hexec := ResponsePaddingHandler_Exec_ok lib h qCtx next c r hn hr
      refine ⟨?_, ?_⟩
      · intro hnot
        rw [hexec, if_neg hnot]
      · intro hpad
        refine ⟨ResponsePaddingHandler.padResponse lib r, ?_, ?_, ?_⟩
        · rw [hexec, if_pos hpad]
        · intro hlen
          have hq : ResponsePaddingHandler.padResponse lib r
              = lib.Pad (RemoveEDNS0Option r CodePADDING) 468 := by
            simp [ResponsePaddingHandler.padResponse, hlen, responseLen]
          refine ⟨hq, ?_, ?_⟩
          · intro hnone hfit
            rw [hq]
            exact hl.pad_block (RemoveEDNS0Option r CodePADDING) 468 hnone hfit
          · intro hnone hfit
            have hrem : RemoveEDNS0Option r CodePADDING = r := by
              simp only [RemoveEDNS0Option]
              rw [removeOption_of_find_none _ _ hnone]
            rw [hq, hrem]
            exact hl.pad_block r 468 hnone hfit
        · intro hlen l hpack
          have hq : ResponsePaddingHandler.padResponse lib r
              = (PadToMinimum lib r (1232 : Nat)).1 := by
            have : ¬ lib.Len r ≤ 936 := by omega
            simp [ResponsePaddingHandler.padResponse, this, maxPadLen]
          refine ⟨?_, ?_⟩
          · intro hge
            rw [hq, PadToMinimum_long lib r 1232 l hpack hge]
          · intro hlt hfit
            rw [hq]
            exact (PadToMinimum_pads lib hl r 1232 l hpack hlt hfit).1

/-- Witness of C18 amended: the always variant around the echo stage, on the padded
query `example.com. A`; the response of 52 octets, 40 without its PADDING option, is
padded to 468 octets. -/
theorem ResponsePaddingHandler_Exec_spec_witness :
    refLib.WireLaws ∧
    refLib.Len { examplePaddedQuery with Response := true } = 52 ∧
    (ResponsePaddingHandler.Exec refLib { Always := true }
        { Q := examplePaddedQuery, OriginalQuery := examplePaddedQuery } [answerStage]).map
      (fun res => (res.2, res.1.R.map refLib.Len)) = some (none, some 468) ∧
    ∃ r1, ResponsePaddingHandler.Exec refLib { Always := true }
        { Q := examplePaddedQuery, OriginalQuery := examplePaddedQuery } [answerStage]
      = some ({ Q := examplePaddedQuery, OriginalQuery := examplePaddedQuery
                R := some r1 }, none) ∧
      refLib.Len r1 = 468 ∧ refLib.IsEdns0 r1 = true ∧
      (GetEDNS0Option r1 CodePADDING).isSome = true :=
  ⟨refLib_wireLaws, rfl, rfl, by
    obtain ⟨r1, h1, h2, _⟩ :=
      (((ResponsePaddingHandler_Exec_spec refLib refLib_wireLaws { Always := true }
        { Q := examplePaddedQuery, OriginalQuery := examplePaddedQuery } [answerStage]).2.2
        { Q := examplePaddedQuery, OriginalQuery := examplePaddedQuery
          R := some { examplePaddedQuery with Response := true } } rfl).2
        { examplePaddedQuery with Response := true } rfl).2 ⟨rfl, Or.inl rfl⟩
    exact ⟨r1, h1, (h2 (by decide)).2.1 rfl (by decide)⟩⟩

/-! ## Claims on `bufsize` and `edns0_filter` -/

/-- C19: `bufsize` runs `next` on the context whose query differs at most in its UDP
payload size, which is never increased.  For an EDNS0 query and a configured size `s`
with 512 < `s` ≤ 4096 the new payload size is the minimum of the previous one and `s`;
when `s` ≤ 512, or when the query has no EDNS0, the query is left unchanged. -/
theorem bufSize_Exec_clamps (lib : DnsLib) (b : bufSize) (qCtx : Context)
    (next : ExecChainNode) :
    ∃ size, b.Exec lib qCtx next
        = ExecChain next { qCtx with Q := { qCtx.Q with UDPSize := size } } ∧
      size ≤ qCtx.Q.UDPSize ∧
      (lib.IsEdns0 qCtx.Q = true → 512 < b.size → b.size ≤ 4096 →
        size = min qCtx.Q.UDPSize b.size) ∧
      (b.size ≤ 512 ∨ lib.IsEdns0 qCtx.Q = false → size = qCtx.Q.UDPSize) := by
  by_cases hch : lib.IsEdns0 qCtx.Q = true ∧ 0 < b.getSize ∧ b.getSize < qCtx.Q.UDPSize
  · obtain ⟨he, hpos, hlt⟩ := hch
    refine ⟨b.getSize, ?_, by omega, ?_, ?_⟩
    · simp [bufSize.Exec, he, hpos, hlt]
    · intro _ h1 h2
      have hg : b.getSize = b.size := by
        unfold bufSize.getSize
        rw [if_neg (by omega), if_neg (by omega)]
      rw [hg] at hlt ⊢
      omega
    · intro hor
      rcases hor with hs | hne
      · have hg : b.getSize = 0 := by
          unfold bufSize.getSize
          rw [if_pos hs]
        omega
      · rw [he] at hne
        cases hne
  · refine ⟨qCtx.Q.UDPSize, ?_, le_refl _, ?_, ?_⟩
    · have hq : (if lib.IsEdns0 qCtx.Q = true then
            if (decide (b.getSize > 0) && decide (qCtx.Q.UDPSize > b.getSize)) = true then
              { qCtx.Q with UDPSize := b.getSize }
            else qCtx.Q
          else qCtx.Q) = qCtx.Q := by
        split
        · rename_i he
          split
          · rename_i hcond
            simp only [Bool.and_eq_true, decide_eq_true_eq] at hcond
            exact absurd ⟨he, hcond.1, hcond.2⟩ hch
          · rfl
        · rfl
      unfold bufSize.Exec
      simp only [hq]
    · intro he h1 h2
      have hg : b.getSize = b.size := by
        unfold bufSize.getSize
        rw [if_neg (by omega), if_neg (by omega)]
      rw [hg] at hch
      have : ¬ b.size < qCtx.Q.UDPSize := fun hlt => hch ⟨he, by omega, hlt⟩
      omega
    · intro _
      rfl

theorem filterLoop_eq (test : EDNS0 → Bool) (ps edns0 : List EDNS0) :
    filterLoop test edns0 ps = edns0 ++ ps.filter test := by
  induction ps generalizing edns0 with
  | nil => simp [filterLoop]
  | cons rr ps ih =>
    cases h : test rr
    · simp [filterLoop, h, ih]
    · simp [filterLoop, h, ih]

theorem foldl_snoc (l acc : List Nat) :
    l.foldl (fun m option => m ++ [option]) acc = acc ++ l := by
  induction l generalizing acc with
  | nil => simp
  | cons a l ih => simp [ih]

theorem CodeSet_len_pos (ks : List Nat) (h : ks ≠ []) : 0 < CodeSet.len (some ks) := by
  cases ks with
  | nil => exact absurd rfl h
  | cons a l =>
    show 0 < (a :: l).dedup.length
    apply List.length_pos.mpr
    intro hnil
    have : a ∈ (a :: l).dedup := List.mem_dedup.mpr (List.mem_cons_self _ _)
    rw [hnil] at this
    cases this

/-- C20: in accept mode (`no_edns` false, a non-empty accept list) `applyFilter` leaves
an EDNS0 query with exactly those of its options whose code is in the accept list, in
their original order, and nothing else changed; a query without EDNS0 is unchanged. -/
theorem applyFilter_accept (lib : DnsLib) (args : edns0_filter.Args) (q : Msg)
    (hno : args.NoEDNS = false) (hkeep : args.Keep ≠ []) :
    (lib.IsEdns0 q = true →
      (NewFilter args).applyFilter lib q
        = { q with Pseudo := q.Pseudo.filter fun o => decide (RRToCode o ∈ args.Keep) }) ∧
    (lib.IsEdns0 q = false → (NewFilter args).applyFilter lib q = q) := by
  have hlen : (args.Keep.length == 0) = false := by
    cases hk : args.Keep with
    | nil => exact absurd hk hkeep
    | cons a l => rfl
  have hk : (NewFilter args).keep = some args.Keep := by
    simp [NewFilter, hlen, foldl_snoc]
  have hargs : (NewFilter args).args = args := rfl
  have hpos := CodeSet_len_pos args.Keep hkeep
  refine ⟨?_, ?_⟩
  · intro he
    simp only [Filter.applyFilter, hargs, hno, hk, hpos, he, filterLoop_eq, CodeSet.has]
    simp
  · intro he
    simp [Filter.applyFilter, hargs, hno, hk, hpos, he]

/-- Witness of C20: the preset `_edns0_filter_ecs_only` keeps the SUBNET option of a
query and drops its cookie and its PADDING option. -/
theorem applyFilter_accept_witness :
    (({ Keep := [CodeSUBNET] } : edns0_filter.Args).NoEDNS = false) ∧
    (({ Keep := [CodeSUBNET] } : edns0_filter.Args).Keep ≠ []) ∧
    (NewFilter { Keep := [CodeSUBNET] }).applyFilter refLib
        { exampleQuery with
          UDPSize := 1232
          Pseudo := [{ Code := 10, Data := [1, 2] }, { Code := CodeSUBNET, Data := [0, 1, 24] },
                     { Code := CodePADDING, Data := [0, 0] }] }
      = { exampleQuery with UDPSize := 1232
                            Pseudo := [{ Code := CodeSUBNET, Data := [0, 1, 24] }] } ∧
    (refLib.IsEdns0 exampleQuery = false →
      (NewFilter { Keep := [CodeSUBNET] }).applyFilter refLib exampleQuery = exampleQuery) :=
  ⟨rfl, by decide, rfl,
    (applyFilter_accept refLib { Keep := [CodeSUBNET] } exampleQuery rfl (by decide)).2⟩

/-- With an empty accept list `NewFilter` leaves `keep` nil and `discard` without a
key, whatever the discard list is. -/
theorem NewFilter_no_keep (args : edns0_filter.Args) (hkeep : args.Keep = []) :
    (NewFilter args).keep.len = 0 ∧ (NewFilter args).discard.len = 0 := by
  refine ⟨?_, ?_⟩
  · simp [NewFilter, hkeep, CodeSet.len]
  · simp only [NewFilter, hkeep]
    split <;> simp [CodeSet.len]

/-- In discard mode `applyFilter` takes the default branch: an EDNS0 query loses its
whole EDNS0 record. -/
theorem applyFilter_discard_mode (lib : DnsLib) (args : edns0_filter.Args) (q : Msg)
    (hno : args.NoEDNS = false) (hkeep : args.Keep = []) (he : lib.IsEdns0 q = true) :
    (NewFilter args).applyFilter lib q = RemoveEDNS0 q := by
  obtain ⟨h1, h2⟩ := NewFilter_no_keep args hkeep
  have hargs : (NewFilter args).args = args := rfl
  simp [Filter.applyFilter, hargs, hno, h1, h2, he]

/-- C21: in discard mode, with the discard list `[PADDING]`, an EDNS0 query with a
SUBNET and a PADDING option leaves `applyFilter` without any option and without
EDNS0: UDP size 0 and an empty pseudo section.  The map `discard` built by `NewFilter`
has no key. -/
theorem applyFilter_discard_removes_edns0 :
    (NewFilter { Discard := [CodePADDING] }).discard = some [] ∧
    (NewFilter { Discard := [CodePADDING] }).applyFilter refLib
        { exampleQuery with
          UDPSize := 1232
          Pseudo := [{ Code := CodeSUBNET, Data := [0, 1, 24] },
                     { Code := CodePADDING, Data := [0, 0] }] }
      = exampleQuery ∧
    refLib.IsEdns0 ((NewFilter { Discard := [CodePADDING] }).applyFilter refLib
        { exampleQuery with
          UDPSize := 1232
          Pseudo := [{ Code := CodeSUBNET, Data := [0, 1, 24] },
                     { Code := CodePADDING, Data := [0, 0] }] }) = false :=
  ⟨rfl, rfl, rfl⟩

/-! ## Claims on the response matchers -/

/-- C22, as stated, fails: a response with rcode `FormErr` (1) is matched by
`_valid_answer`. -/
theorem hasValidAnswer_matches_formerr :
    hasValidAnswer.Match { strict := false } { R := some { Rcode := RcodeFormatError } }
      = some (true, none) ∧
    RcodeFormatError ≠ RcodeSuccess ∧ RcodeFormatError ≠ RcodeNameError :=
  ⟨rfl, by decide, by decide⟩

/-- C22, amended: for every context, `Match` of `_valid_answer` returns without error,
and returns true iff `R` is non-null and its rcode is `NoError` (0), `FormErr` (1) or
`NXDomain` (3). -/
theorem hasValidAnswer_Match_rcode (e : hasValidAnswer) (qCtx : Context)
    (hs : e.strict = false) :
    ∃ b, e.Match qCtx = some (b, none) ∧
      (b = true ↔ ∃ r, qCtx.R = some r ∧
        (r.Rcode = RcodeSuccess ∨ r.Rcode = RcodeFormatError ∨ r.Rcode = RcodeNameError)) := by
  cases hr : qCtx.R with
  | none =>
    refine ⟨false, by simp [hasValidAnswer.Match, hasValidAnswer.match_, hr], ?_⟩
    simp
  | some r =>
    refine ⟨[0, 1, 3].contains r.Rcode,
      by simp [hasValidAnswer.Match, hasValidAnswer.match_, hr, hs], ?_⟩
    simp [RcodeSuccess, RcodeFormatError, RcodeNameError]

/-- Witness of C22 amended: an `NXDOMAIN` response is matched. -/
theorem hasValidAnswer_Match_rcode_witness :
    hasValidAnswer.strict { strict := false } = false ∧
    hasValidAnswer.Match { strict := false } { R := some { Rcode := RcodeNameError } }
      = some (true, none) ∧
    ∃ b, hasValidAnswer.Match { strict := false } { R := some { Rcode := RcodeNameError } }
        = some (b, none) ∧
      (b = true ↔ ∃ r, Context.R { R := some { Rcode := RcodeNameError } } = some r ∧
        (r.Rcode = RcodeSuccess ∨ r.Rcode = RcodeFormatError ∨ r.Rcode = RcodeNameError)) :=
  ⟨rfl, rfl, hasValidAnswer_Match_rcode { strict := false }
    { R := some { Rcode := RcodeNameError } } rfl⟩

theorem hasValidAnswer_answerLoop_iff (m : List (Nat × Nat)) (answer : List RR) :
    hasValidAnswer.answerLoop m answer = true ↔
      ∃ rr ∈ answer, (RRToType rr, rr.Hdr.Class) ∈ m := by
  induction answer with
  | nil => simp [hasValidAnswer.answerLoop]
  | cons rr rest ih =>
    by_cases h : (RRToType rr, rr.Hdr.Class) ∈ m
    · simp [hasValidAnswer.answerLoop, h]
    · simp [hasValidAnswer.answerLoop, h, ih]

/-- C23, as stated, fails: `_valid_ip_answer` matches a `SERVFAIL` response that
carries an A record for an A question, and does not match a `NoError` response that
carries an MX record for an MX question. -/
theorem hasValidAnswer_strict_ignores_rcode :
    hasValidAnswer.Match { strict := true }
        { Q := exampleQuery, R := some (exampleAResponse RcodeServerFailure) }
      = some (true, none) ∧
    hasValidAnswer.Match { strict := true }
        { Q := exampleMXQuery, R := some exampleMXResponse }
      = some (false, none) :=
  ⟨rfl, rfl⟩

/-- C23, amended: for every context whose query has a question, `Match` of
`_valid_ip_answer` returns without error, and returns true iff `R` is non-null, the
first question has type A or AAAA, and at least one record of `R.Answer` has the same
(type, class) as a question of the query; the rcode plays no part. -/
theorem hasValidAnswer_Match_strict (e : hasValidAnswer) (qCtx : Context) (q0 : RR)
    (rest : List RR) (hs : e.strict = true) (hq : qCtx.Q.Question = q0 :: rest) :
    ∃ b, e.Match qCtx = some (b, none) ∧
      (b = true ↔ ∃ r, qCtx.R = some r ∧
        (RRToType q0 = TypeA ∨ RRToType q0 = TypeAAAA) ∧
        ∃ rr ∈ r.Answer, ∃ quest ∈ qCtx.Q.Question,
          RRToType rr = RRToType quest ∧ rr.Hdr.Class = quest.Hdr.Class) := by
  cases hr : qCtx.R with
  | none =>
    refine ⟨false, by simp [hasValidAnswer.Match, hasValidAnswer.match_, hr], ?_⟩
    simp
  | some r =>
    by_cases ht : RRToType q0 = TypeA ∨ RRToType q0 = TypeAAAA
    · refine ⟨hasValidAnswer.answerLoop
          (qCtx.Q.Question.map fun quest => (RRToType quest, quest.Hdr.Class)) r.Answer, ?_, ?_⟩
      · have hc : (RRToType q0 == TypeA || RRToType q0 == TypeAAAA) = true := by
          simpa using ht
        simp [hasValidAnswer.Match, hasValidAnswer.match_, hr, hs, hq, hc]
      · rw [hasValidAnswer_answerLoop_iff]
        constructor
        · rintro ⟨rr, hrr, hm⟩
          obtain ⟨quest, hquest, heq⟩ := List.mem_map.mp hm
          simp only [Prod.mk.injEq] at heq
          exact ⟨r, rfl, ht, rr, hrr, quest, hquest, heq.1.symm, heq.2.symm⟩
        · rintro ⟨r1, hr1, _, rr, hrr, quest, hquest, h1, h2⟩
          cases hr1
          refine ⟨rr, hrr, List.mem_map.mpr ⟨quest, hquest, ?_⟩⟩
          rw [h1, h2]
    · refine ⟨false, ?_, ?_⟩
      · have hc : (RRToType q0 == TypeA || RRToType q0 == TypeAAAA) = false := by
          simpa using ht
        simp [hasValidAnswer.Match, hasValidAnswer.match_, hr, hs, hq, hc]
      · constructor
        · intro h
          cases h
        · rintro ⟨_, _, ht2, _⟩
          exact absurd ht2 ht

/-- Witness of C23 amended: the `SERVFAIL` response with an A record. -/
theorem hasValidAnswer_Match_strict_witness :
    hasValidAnswer.strict { strict := true } = true ∧
    exampleServfailContext.Q.Question = exampleQuestion :: [] ∧
    ∃ b, hasValidAnswer.Match { strict := true } exampleServfailContext = some (b, none) ∧
      (b = true ↔ ∃ r, exampleServfailContext.R = some r ∧
        (RRToType exampleQuestion = TypeA ∨
          RRToType exampleQuestion = TypeAAAA) ∧
        ∃ rr ∈ r.Answer, ∃ quest ∈ exampleServfailContext.Q.Question,
          RRToType rr = RRToType quest ∧ rr.Hdr.Class = quest.Hdr.Class) :=
  ⟨rfl, rfl, hasValidAnswer_Match_strict { strict := true } exampleServfailContext
    exampleQuestion [] rfl rfl⟩

theorem hasEmptyIPAnswer_answerLoop_iff (answer : List RR) :
    hasEmptyIPAnswer.answerLoop answer = true ↔
      ∀ rr ∈ answer, RRToType rr ≠ TypeA ∧ RRToType rr ≠ TypeAAAA := by
  induction answer with
  | nil => simp [hasEmptyIPAnswer.answerLoop]
  | cons rr rest ih =>
    by_cases h : RRToType rr = TypeA ∨ RRToType rr = TypeAAAA
    · have hc : (RRToType rr == TypeA || RRToType rr == TypeAAAA) = true := by simpa using h
      simp only [hasEmptyIPAnswer.answerLoop, hc, if_true, Bool.false_eq_true, false_iff]
      intro hall
      have := hall rr (List.mem_cons_self _ _)
      rcases h with h | h
      · exact this.1 h
      · exact this.2 h
    · have hc : (RRToType rr == TypeA || RRToType rr == TypeAAAA) = false := by simpa using h
      simp only [hasEmptyIPAnswer.answerLoop, hc, Bool.false_eq_true, if_false, ih,
        List.mem_cons, forall_eq_or_imp]
      constructor
      · intro hall
        exact ⟨⟨fun h1 => h (Or.inl h1), fun h2 => h (Or.inr h2)⟩, hall⟩
      · intro hall
        exact hall.2

/-- C24, as stated, fails: `_empty_ip_answer` matches a response to an MX question. -/
theorem hasEmptyIPAnswer_matches_other_types :
    hasEmptyIPAnswer.Match { Q := exampleMXQuery, R := some exampleMXResponse }
      = some (true, none) ∧
    RRToType { Hdr := { Name := "example.com." }, Rrtype := TypeMX } ≠ TypeA ∧
    RRToType { Hdr := { Name := "example.com." }, Rrtype := TypeMX } ≠ TypeAAAA :=
  ⟨rfl, by decide, by decide⟩

/-- C24, amended: for every context whose query has a question, `Match` of
`_empty_ip_answer` returns without error, and returns true iff `R` is non-null and
either the first question has a type other than A and AAAA, or no record of
`R.Answer` has type A or AAAA. -/
theorem hasEmptyIPAnswer_Match_spec (qCtx : Context) (q0 : RR) (rest : List RR)
    (hq : qCtx.Q.Question = q0 :: rest) :
    ∃ b, hasEmptyIPAnswer.Match qCtx = some (b, none) ∧
      (b = true ↔ ∃ r, qCtx.R = some r ∧
        ((RRToType q0 ≠ TypeA ∧ RRToType q0 ≠ TypeAAAA) ∨
          ∀ rr ∈ r.Answer, RRToType rr ≠ TypeA ∧ RRToType rr ≠ TypeAAAA)) := by
  cases hr : qCtx.R with
  | none =>
    refine ⟨false, by simp [hasEmptyIPAnswer.Match, hasEmptyIPAnswer.match_, hr], ?_⟩
    simp
  | some r =>
    by_cases ht : RRToType q0 = TypeA ∨ RRToType q0 = TypeAAAA
    · have hc : (RRToType q0 == TypeA || RRToType q0 == TypeAAAA) = true := by simpa using ht
      refine ⟨hasEmptyIPAnswer.answerLoop r.Answer,
        by simp [hasEmptyIPAnswer.Match, hasEmptyIPAnswer.match_, hr, hq, hc], ?_⟩
      rw [hasEmptyIPAnswer_answerLoop_iff]
      constructor
      · intro hall
        exact ⟨r, rfl, Or.inr hall⟩
      · rintro ⟨r1, hr1, hor⟩
        cases hr1
        rcases hor with hne | hall
        · rcases ht with ht | ht
          · exact absurd ht hne.1
          · exact absurd ht hne.2
        · exact hall
    · have hc : (RRToType q0 == TypeA || RRToType q0 == TypeAAAA) = false := by simpa using ht
      refine ⟨true, by simp [hasEmptyIPAnswer.Match, hasEmptyIPAnswer.match_, hr, hq, hc], ?_⟩
      simp only [true_iff]
      exact ⟨r, rfl, Or.inl ⟨fun h1 => ht (Or.inl h1), fun h2 => ht (Or.inr h2)⟩⟩

/-- Witness of C24 amended: an A question answered with a CNAME record only. -/
theorem hasEmptyIPAnswer_Match_spec_witness :
    exampleCnameOnlyContext.Q.Question = exampleQuestion :: [] ∧
    hasEmptyIPAnswer.Match exampleCnameOnlyContext = some (true, none) ∧
    ∃ b, hasEmptyIPAnswer.Match exampleCnameOnlyContext = some (b, none) ∧
      (b = true ↔ ∃ r, exampleCnameOnlyContext.R = some r ∧
        ((RRToType exampleQuestion ≠ TypeA ∧
            RRToType exampleQuestion ≠ TypeAAAA) ∨
          ∀ rr ∈ r.Answer, RRToType rr ≠ TypeA ∧ RRToType rr ≠ TypeAAAA)) :=
  ⟨rfl, rfl, hasEmptyIPAnswer_Match_spec exampleCnameOnlyContext
    exampleQuestion [] rfl⟩

/-! ## Claims on `DealResponse` and `WrapExecutable` -/

/-- C25, as stated, fails: a response with status 200 and the DNS content type is
accepted without a `Content-Length` header, and with one that is not a number. -/
theorem DealResponse_accepts_without_length :
    DealResponse { StatusCode := 200, Header := dohHeader "" } = none ∧
    DealResponse { StatusCode := 200, Header := dohHeader "chunked" } = none ∧
    DealResponse { StatusCode := 200, Header := dohHeader "0" }
      = some (.other "empty response") :=
  ⟨rfl, rfl, rfl⟩

/-- C25, amended: `DealResponse` accepts a response (returns a nil error) exactly when
its status code is 200, its `Content-Type` header equals `application/dns-message`,
and its `Content-Length` header is missing or is not a decimal zero; for every other
response it returns an error. -/
theorem DealResponse_accepts_iff (res : HttpResponse) :
    DealResponse res = none ↔
      res.StatusCode = 200 ∧ res.Header "Content-Type" = DnsContentType ∧
      (res.Header "Content-Length" = "" ∨ Atoi (res.Header "Content-Length") ≠ some 0) := by
  unfold DealResponse
  simp only
  by_cases hc : res.StatusCode = 200
  · by_cases ht : res.Header "Content-Type" = DnsContentType
    · by_cases hl : res.Header "Content-Length" = ""
      · simp [hc, ht, hl]
      · cases ha : Atoi (res.Header "Content-Length") with
        | none => simp [hc, ht, hl]
        | some n =>
          by_cases hn : n = 0
          · simp [hc, ht, hl, hn]
          · simp [hc, ht, hl, hn]
    · simp [hc, ht]
  · simp [hc]

theorem wrapper_isChainNode (addr : Nat) : (ExecValue.wrapper addr).isChainNode = true := rfl

/-- C26: for every heap and every executable `e`, wrapping the result of
`WrapExecutable(e)` again returns the same node and allocates nothing; an executable
that already is a chain node is returned as is, without allocation; any other
executable is put into a fresh wrapper whose `Next()` is nil and which, after
`LinkNext(n)`, returns `n` from `Next()`. -/
theorem WrapExecutable_idempotent (heap : Heap) (e : ExecValue) :
    WrapExecutable (WrapExecutable heap e).1 (WrapExecutable heap e).2
      = WrapExecutable heap e ∧
    (e.isChainNode = true → WrapExecutable heap e = (heap, e)) ∧
    (e.isChainNode = false →
      (WrapExecutable heap e).2 = .wrapper heap.length ∧
      (WrapExecutable heap e).1 = heap ++ [{ Executable := e, NodeLinker := { next := .nil } }] ∧
      (WrapExecutable heap e).1.Next heap.length = some .nil ∧
      ∀ n, ((WrapExecutable heap e).1.LinkNext heap.length n).Next heap.length = some n) := by
  cases hc : e.isChainNode with
  | true =>
    have hw : WrapExecutable heap e = (heap, e) := by simp [WrapExecutable, hc]
    refine ⟨?_, fun _ => hw, fun h => by cases h⟩
    rw [hw]
    exact hw
  | false =>
    have hw : WrapExecutable heap e
        = (heap ++ [{ Executable := e }], .wrapper heap.length) := by
      simp [WrapExecutable, hc]
    refine ⟨?_, fun h => (by cases h), fun _ => ?_⟩
    · rw [hw]
      simp [WrapExecutable, wrapper_isChainNode]
    · rw [hw]
      refine ⟨rfl, rfl, ?_, ?_⟩
      · simp [Heap.Next, NodeLinker.Next]
      · intro n
        simp [Heap.Next, Heap.LinkNext, NodeLinker.Next, NodeLinker.LinkNext]

/-- The wrapping of a plain executable on a heap that holds one wrapper, evaluated:
the new wrapper is at address 1, and wrapping it again changes nothing. -/
theorem WrapExecutable_example :
    WrapExecutable [{ Executable := .plain 0 }] (.plain 7)
      = ([{ Executable := .plain 0 }, { Executable := .plain 7 }], .wrapper 1) ∧
    WrapExecutable [{ Executable := .plain 0 }, { Executable := .plain 7 }] (.wrapper 1)
      = ([{ Executable := .plain 0 }, { Executable := .plain 7 }], .wrapper 1) ∧
    Heap.Next (Heap.LinkNext [{ Executable := .plain 0 }, { Executable := .plain 7 }] 1
      (.wrapper 0)) 1 = some (.wrapper 0) :=
  ⟨rfl, rfl, rfl⟩

/-! ## Claims on the TTL helpers -/

theorem foldl_minTTLStep (l : List RR) :
    ∀ st : Nat × Bool,
      (l.foldl minTTLStep st).2 = (st.2 || !l.isEmpty) ∧
      (∀ rr ∈ l, (l.foldl minTTLStep st).1 ≤ rr.Hdr.TTL) ∧
      (l.foldl minTTLStep st).1 ≤ st.1 ∧
      ((l.foldl minTTLStep st).1 = st.1 ∨ ∃ rr ∈ l, rr.Hdr.TTL = (l.foldl minTTLStep st).1) := by
  induction l with
  | nil =>
    intro st
    simp
  | cons a l ih =>
    intro st
    obtain ⟨h1, h2, h3, h4⟩ := ih (minTTLStep st a)
    have hstep1 : (minTTLStep st a).1 ≤ st.1 := by
      simp only [minTTLStep]
      split <;> omega
    have hstep2 : (minTTLStep st a).1 ≤ a.Hdr.TTL := by
      simp only [minTTLStep]
      split <;> omega
    have hstep3 : (minTTLStep st a).1 = st.1 ∨ (minTTLStep st a).1 = a.Hdr.TTL := by
      simp only [minTTLStep]
      split
      · exact Or.inr rfl
      · exact Or.inl rfl
    simp only [List.foldl_cons]
    refine ⟨?_, ?_, ?_, ?_⟩
    · rw [h1]
      simp [minTTLStep]
    · intro rr hrr
      rcases List.mem_cons.mp hrr with rfl | hrr
      · omega
      · exact h2 rr hrr
    · omega
    · rcases h4 with h4 | ⟨rr, hrr, h4⟩
      · rcases hstep3 with h5 | h5
        · exact Or.inl (by omega)
        · exact Or.inr ⟨a, List.mem_cons_self _ _, by omega⟩
      · exact Or.inr ⟨rr, List.mem_cons_of_mem _ hrr, h4⟩

theorem GetMinimalTTL_eq (m : Msg) :
    GetMinimalTTL m =
      if !((m.Answer ++ m.Ns ++ m.Extra).foldl minTTLStep (maxUint32, false)).2 then 0
      else ((m.Answer ++ m.Ns ++ m.Extra).foldl minTTLStep (maxUint32, false)).1 := by
  simp [GetMinimalTTL, List.foldl_append]

/-- C27: for a message whose TTLs are `uint32` values: with no record in its Answer,
Ns and Extra sections `GetMinimalTTL` returns 0; with at least one record it returns
the minimum of their TTLs: the TTL of one of the records, and no record has a smaller
one. -/
theorem GetMinimalTTL_min (m : Msg)
    (hu32 : ∀ rr ∈ m.Answer ++ m.Ns ++ m.Extra, rr.Hdr.TTL ≤ maxUint32) :
    (m.Answer ++ m.Ns ++ m.Extra = [] → GetMinimalTTL m = 0) ∧
    (m.Answer ++ m.Ns ++ m.Extra ≠ [] →
      (∃ rr ∈ m.Answer ++ m.Ns ++ m.Extra, rr.Hdr.TTL = GetMinimalTTL m) ∧
      ∀ rr ∈ m.Answer ++ m.Ns ++ m.Extra, GetMinimalTTL m ≤ rr.Hdr.TTL) := by
  obtain ⟨h1, h2, h3, h4⟩ := foldl_minTTLStep (m.Answer ++ m.Ns ++ m.Extra) (maxUint32, false)
  rw [GetMinimalTTL_eq]
  refine ⟨?_, ?_⟩
  · intro hnil
    rw [hnil]
    rfl
  · intro hne
    have hflag : ((m.Answer ++ m.Ns ++ m.Extra).foldl minTTLStep (maxUint32, false)).2 = true := by
      rw [h1]
      cases hl : m.Answer ++ m.Ns ++ m.Extra with
      | nil => exact absurd hl hne
      | cons a l => rfl
    simp only [hflag, Bool.not_true, Bool.false_eq_true, if_false]
    refine ⟨?_, h2⟩
    rcases h4 with h4 | h4
    · cases hl : m.Answer ++ m.Ns ++ m.Extra with
      | nil => exact absurd hl hne
      | cons a l =>
        have ha : a ∈ m.Answer ++ m.Ns ++ m.Extra := by
          rw [hl]
          exact List.mem_cons_self _ _
        have hle := h2 a ha
        have hup := hu32 a ha
        simp only at h4
        rw [← hl]
        exact ⟨a, ha, by omega⟩
    · exact h4

/-- Witness of C27: TTLs 300 and 60 in the answer, 5 in the additional section. -/
theorem GetMinimalTTL_min_witness :
    (∀ rr ∈ Msg.Answer { Answer := [{ Hdr := { TTL := 300 } }, { Hdr := { TTL := 60 } }]
                         Extra := [{ Hdr := { TTL := 5 } }] } ++
        Msg.Ns { Answer := [{ Hdr := { TTL := 300 } }, { Hdr := { TTL := 60 } }]
                 Extra := [{ Hdr := { TTL := 5 } }] } ++
        Msg.Extra { Answer := [{ Hdr := { TTL := 300 } }, { Hdr := { TTL := 60 } }]
                    Extra := [{ Hdr := { TTL := 5 } }] }, rr.Hdr.TTL ≤ maxUint32) ∧
    GetMinimalTTL { Answer := [{ Hdr := { TTL := 300 } }, { Hdr := { TTL := 60 } }]
                    Extra := [{ Hdr := { TTL := 5 } }] } = 5 ∧
    GetMinimalTTL {} = 0 ∧
    ∀ rr ∈ Msg.Answer { Answer := [{ Hdr := { TTL := 300 } }, { Hdr := { TTL := 60 } }]
                        Extra := [{ Hdr := { TTL := 5 } }] } ++
        Msg.Ns { Answer := [{ Hdr := { TTL := 300 } }, { Hdr := { TTL := 60 } }]
                 Extra := [{ Hdr := { TTL := 5 } }] } ++
        Msg.Extra { Answer := [{ Hdr := { TTL := 300 } }, { Hdr := { TTL := 60 } }]
                    Extra := [{ Hdr := { TTL := 5 } }] },
      GetMinimalTTL { Answer := [{ Hdr := { TTL := 300 } }, { Hdr := { TTL := 60 } }]
                      Extra := [{ Hdr := { TTL := 5 } }] } ≤ rr.Hdr.TTL :=
  ⟨by decide, rfl, rfl,
    ((GetMinimalTTL_min { Answer := [{ Hdr := { TTL := 300 } }, { Hdr := { TTL := 60 } }]
                          Extra := [{ Hdr := { TTL := 5 } }] } (by decide)).2 (by decide)).2⟩

/-- C29: for every message whose packed length is at least `minLen`, `PadToMinimum`
returns `(false, false)` and leaves the message as it is (sections, EDNS0 fields and
options), so that it still packs to the same length. -/
theorem PadToMinimum_noop (lib : DnsLib) (m : Msg) (minLen : Int) (l : Nat)
    (hpack : lib.Pack m = some l) (hge : minLen ≤ (l : Int)) :
    PadToMinimum lib m minLen = (m, false, false) ∧
    lib.Pack (PadToMinimum lib m minLen).1 = some l := by
  have h : PadToMinimum lib m minLen = (m, false, false) := by
    simp [PadToMinimum, hpack, hge]
  exact ⟨h, by rw [h]; exact hpack⟩

/-- Witness of C29: the 100-label query of `TestPadToMinimum` packs to 217 octets,
and still does after `PadToMinimum` with `minLen` 128. -/
theorem PadToMinimum_noop_witness :
    refLib.Pack exampleLongNameQuery = some 217 ∧ (128 : Int) ≤ ((217 : Nat) : Int) ∧
    PadToMinimum refLib exampleLongNameQuery 128 = (exampleLongNameQuery, false, false) ∧
    refLib.Pack (PadToMinimum refLib exampleLongNameQuery 128).1 = some 217 :=
  ⟨rfl, by decide, PadToMinimum_noop refLib exampleLongNameQuery 128 217 rfl (by decide)⟩

/-- A pseudo section in which no PADDING option is found holds none. -/
theorem filter_padding_of_find_none (ps : List EDNS0)
    (h : ps.find? (fun o => RRToCode o == CodePADDING) = none) :
    ps.filter (fun o => RRToCode o == CodePADDING) = [] := by
  induction ps with
  | nil => rfl
  | cons a ps ih =>
    by_cases ha : RRToCode a = CodePADDING
    · simp [List.find?_cons, ha] at h
    · have hb : (RRToCode a == CodePADDING) = false := by simpa using ha
      rw [List.find?_cons, hb] at h
      simp [List.filter_cons, hb, ih h]

theorem filter_padding_removeOption (ps : List EDNS0) (o : EDNS0)
    (h : ps.find? (fun o => RRToCode o == CodePADDING) = some o) :
    ((removeOption CodePADDING ps).filter (fun o => RRToCode o == CodePADDING)).length + 1
      = (ps.filter (fun o => RRToCode o == CodePADDING)).length := by
  obtain ⟨pre, post, hps, _, hcode, hrem⟩ := removeOption_of_find_some _ _ _ h
  have hb : (RRToCode o == CodePADDING) = true := by simpa using hcode
  rw [hrem, hps]
  simp only [List.filter_append, List.filter_cons, hb, if_true, List.length_append,
    List.length_cons]
  omega

/-- What `PadToMinimum` returns for a shorter message without EDNS0 when the padding
fits. -/
theorem PadToMinimum_upgrade (lib : DnsLib) (m : Msg) (minLen l : Nat)
    (hpack : lib.Pack m = some l) (he : lib.IsEdns0 m = false) (hfit : l + 15 ≤ minLen) :
    PadToMinimum lib m minLen
      = ({ m with Pseudo := m.Pseudo ++ [lib.MakePadding (minLen - l - 15)] }, true, true) := by
  have hnge : ¬ ((l : Int) ≥ (minLen : Int)) := by omega
  have hpos : ¬ ((minLen : Int) - (l : Int) - 15 < 0) := by omega
  have hn : ((minLen : Int) - (l : Int) - 15).toNat = minLen - l - 15 := by omega
  simp [PadToMinimum, hpack, hnge, he, hpos, hn]

/-- What `PadToMinimum` returns for a shorter EDNS0 message without PADDING option
when the padding fits. -/
theorem PadToMinimum_new_padding (lib : DnsLib) (m : Msg) (minLen l : Nat)
    (hpack : lib.Pack m = some l) (he : lib.IsEdns0 m = true)
    (hp : GetEDNS0Option m CodePADDING = none) (hfit : l + 4 ≤ minLen) :
    PadToMinimum lib m minLen
      = ({ m with Pseudo := m.Pseudo ++ [lib.MakePadding (minLen - l - 4)] }, false, true) := by
  have hnge : ¬ ((l : Int) ≥ (minLen : Int)) := by omega
  have hpos : ¬ ((minLen : Int) - (l : Int) - 4 < 0) := by omega
  have hn : ((minLen : Int) - (l : Int) - 4).toNat = minLen - l - 4 := by omega
  simp [PadToMinimum, hpack, hnge, he, hp, hpos, hn]

/-- What `PadToMinimum` returns for a shorter EDNS0 message with a PADDING option. -/
theorem PadToMinimum_replace (lib : DnsLib) (hl : lib.WireLaws) (m : Msg) (minLen l : Nat)
    (pad : EDNS0) (hpack : lib.Pack m = some l) (hlt : l < minLen)
    (he : lib.IsEdns0 m = true) (hp : GetEDNS0Option m CodePADDING = some pad) :
    PadToMinimum lib m minLen
      = ({ m with Pseudo := removeOption CodePADDING m.Pseudo ++
            [lib.MakePadding (minLen - (l - lib.OptLen pad + 4))] }, false, false) := by
  obtain ⟨h4, hle, _⟩ := hl.pack_replace m pad 0 l hpack he hp
  have hnge : ¬ ((l : Int) ≥ (minLen : Int)) := by omega
  have hpos : ¬ ((minLen : Int) - ((l : Int) - (lib.OptLen pad : Int) + 4) < 0) := by omega
  have hn : ((minLen : Int) - ((l : Int) - (lib.OptLen pad : Int) + 4)).toNat
      = minLen - (l - lib.OptLen pad + 4) := by omega
  simp [PadToMinimum, hpack, hnge, he, hp, hpos, hn, RemoveEDNS0Option]

/-- C30, as stated, fails: the query `. A` with EDNS0 and two PADDING options of 16
octets packs to 68 octets; after `PadToMinimum` with `minLen` 128 it packs to 128
octets and carries two PADDING options, of 16 and 76 octets. -/
theorem PadToMinimum_keeps_second_padding :
    refLib.Pack exampleTwicePaddedQuery = some 68 ∧
    GetEDNS0Option exampleTwicePaddedQuery CodePADDING = some (refMakePadding 16) ∧
    PadToMinimum refLib exampleTwicePaddedQuery 128
      = ({ exampleTwicePaddedQuery with Pseudo := [refMakePadding 16, refMakePadding 76] },
          false, false) ∧
    refLib.Pack (PadToMinimum refLib exampleTwicePaddedQuery 128).1 = some 128 ∧
    ((PadToMinimum refLib exampleTwicePaddedQuery 128).1.Pseudo.filter
      (fun o => RRToCode o == CodePADDING)).length = 2 :=
  ⟨rfl, rfl, rfl, rfl, rfl⟩

/-- C30, amended: let `m` pack to `l` octets, `l` below `minLen`.  If `m` has no EDNS0
(and no option) and `l + 15 ≤ minLen`, or `m` has EDNS0 without a PADDING option and
`l + 4 ≤ minLen`, or `m` has EDNS0 and exactly one PADDING option, then after
`PadToMinimum(m, minLen)` the message packs to exactly `minLen` octets and carries
exactly one PADDING option; `upgraded` is true in the first case only and `newPadding`
in the first two only. -/
theorem PadToMinimum_exact (lib : DnsLib) (hl : lib.WireLaws) (m : Msg) (minLen l : Nat)
    (hpack : lib.Pack m = some l) (hlt : l < minLen) :
    (lib.IsEdns0 m = false → GetEDNS0Option m CodePADDING = none → l + 15 ≤ minLen →
      lib.Pack (PadToMinimum lib m minLen).1 = some minLen ∧
      ((PadToMinimum lib m minLen).1.Pseudo.filter
        (fun o => RRToCode o == CodePADDING)).length = 1 ∧
      (PadToMinimum lib m minLen).2 = (true, true)) ∧
    (lib.IsEdns0 m = true → GetEDNS0Option m CodePADDING = none → l + 4 ≤ minLen →
      lib.Pack (PadToMinimum lib m minLen).1 = some minLen ∧
      ((PadToMinimum lib m minLen).1.Pseudo.filter
        (fun o => RRToCode o == CodePADDING)).length = 1 ∧
      (PadToMinimum lib m minLen).2 = (false, true)) ∧
    (lib.IsEdns0 m = true →
      (m.Pseudo.filter (fun o => RRToCode o == CodePADDING)).length = 1 →
      lib.Pack (PadToMinimum lib m minLen).1 = some minLen ∧
      ((PadToMinimum lib m minLen).1.Pseudo.filter
        (fun o => RRToCode o == CodePADDING)).length = 1 ∧
      (PadToMinimum lib m minLen).2 = (false, false)) := by
  have hcode : ∀ n, (RRToCode (lib.MakePadding n) == CodePADDING) = true := by
    intro n
    simpa using hl.makePadding_code n
  refine ⟨?_, ?_, ?_⟩
  · intro he hp hfit
    rw [PadToMinimum_upgrade lib m minLen l hpack he hfit]
    refine ⟨?_, ?_, rfl⟩
    · show lib.Pack { m with Pseudo := m.Pseudo ++ [lib.MakePadding (minLen - l - 15)] } = _
      rw [hl.pack_upgrade m _ l hpack he]
      congr 1
      omega
    · show ((m.Pseudo ++ [lib.MakePadding (minLen - l - 15)]).filter _).length = 1
      rw [List.filter_append, filter_padding_of_find_none m.Pseudo hp]
      simp [List.filter_cons, hcode]
  · intro he hp hfit
    rw [PadToMinimum_new_padding lib m minLen l hpack he hp hfit]
    refine ⟨?_, ?_, rfl⟩
    · show lib.Pack { m with Pseudo := m.Pseudo ++ [lib.MakePadding (minLen - l - 4)] } = _
      rw [hl.pack_append m _ l hpack he]
      congr 1
      omega
    · show ((m.Pseudo ++ [lib.MakePadding (minLen - l - 4)]).filter _).length = 1
      rw [List.filter_append, filter_padding_of_find_none m.Pseudo hp]
      simp [List.filter_cons, hcode]
  · intro he hone
    cases hp : GetEDNS0Option m CodePADDING with
    | none =>
      have := filter_padding_of_find_none m.Pseudo hp
      rw [this] at hone
      simp at hone
    | some pad =>
      obtain ⟨h4, hle, hrep⟩ := hl.pack_replace m pad (minLen - (l - lib.OptLen pad + 4)) l
        hpack he hp
      rw [PadToMinimum_replace lib hl m minLen l pad hpack hlt he hp]
      refine ⟨?_, ?_, rfl⟩
      · show lib.Pack { m with Pseudo := removeOption CodePADDING m.Pseudo ++
            [lib.MakePadding (minLen - (l - lib.OptLen pad + 4))] } = _
        rw [hrep]
        congr 1
        omega
      · show ((removeOption CodePADDING m.Pseudo ++
            [lib.MakePadding (minLen - (l - lib.OptLen pad + 4))]).filter _).length = 1
        have hcount := filter_padding_removeOption m.Pseudo pad hp
        rw [List.filter_append, List.length_append]
        simp only [List.filter_cons, hcode, if_true, List.filter_nil, List.length_cons,
          List.length_nil]
        omega

/-- Witness of C30 amended: the three messages of `TestPadToMinimum` that are padded
(`. A` plain, with EDNS0, and with EDNS0 and a PADDING option of 16 octets) all pack
to 128 octets afterwards, with the flags the test expects. -/
theorem PadToMinimum_exact_witness :
    refLib.WireLaws ∧ refLib.Pack exampleRootQuery = some 17 ∧ 17 < 128 ∧
    PadToMinimum refLib exampleRootQuery 128
      = ({ exampleRootQuery with Pseudo := [refMakePadding 96] }, true, true) ∧
    PadToMinimum refLib (UpgradeEDNS0 exampleRootQuery) 128
      = ({ UpgradeEDNS0 exampleRootQuery with Pseudo := [refMakePadding 96] }, false, true) ∧
    PadToMinimum refLib { UpgradeEDNS0 exampleRootQuery with Pseudo := [refMakePadding 16] } 128
      = ({ UpgradeEDNS0 exampleRootQuery with Pseudo := [refMakePadding 96] }, false, false) ∧
    (refLib.Pack (PadToMinimum refLib exampleRootQuery 128).1 = some 128 ∧
      ((PadToMinimum refLib exampleRootQuery 128).1.Pseudo.filter
        (fun o => RRToCode o == CodePADDING)).length = 1 ∧
      (PadToMinimum refLib exampleRootQuery 128).2 = (true, true)) :=
  ⟨refLib_wireLaws, rfl, by decide, rfl, rfl, rfl,
    (PadToMinimum_exact refLib refLib_wireLaws exampleRootQuery 128 17 rfl (by decide)).1
      rfl rfl (by decide)⟩

/-! ## Claims on the ECS helpers -/

theorem addECSLoop_none (ecs : EDNS0) (overwrite : Bool) (ps : List EDNS0) :
    addECSLoop ecs overwrite ps = none ↔
      ps.find? (fun opt => RRToCode opt == CodeSUBNET) = none := by
  induction ps with
  | nil => simp [addECSLoop]
  | cons a ps ih =>
    by_cases ha : RRToCode a = CodeSUBNET
    · cases overwrite <;> simp [addECSLoop, List.find?, ha]
    · have hb : (RRToCode a == CodeSUBNET) = false := by simpa using ha
      rw [List.find?_cons, hb]
      simp only [addECSLoop, hb, Bool.false_eq_true, if_false, Option.map_eq_none']
      exact ih

theorem addECSLoop_some (ecs : EDNS0) (overwrite : Bool) (o : EDNS0) (post : List EDNS0)
    (ho : RRToCode o = CodeSUBNET) :
    ∀ pre : List EDNS0, (∀ x ∈ pre, RRToCode x ≠ CodeSUBNET) →
      addECSLoop ecs overwrite (pre ++ o :: post)
        = some (pre ++ (if overwrite then ecs else o) :: post) := by
  intro pre
  induction pre with
  | nil =>
    intro _
    cases overwrite <;> simp [addECSLoop, ho]
  | cons a pre ih =>
    intro hpre
    have ha : RRToCode a ≠ CodeSUBNET := hpre a (List.mem_cons_self _ _)
    have hb : (RRToCode a == CodeSUBNET) = false := by simpa using ha
    have hrest := ih fun x hx => hpre x (List.mem_cons_of_mem _ hx)
    simp [addECSLoop, hb, hrest]

theorem find_subnet_split (ps : List EDNS0) (o : EDNS0)
    (h : ps.find? (fun opt => RRToCode opt == CodeSUBNET) = some o) :
    ∃ pre post, ps = pre ++ o :: post ∧ (∀ x ∈ pre, RRToCode x ≠ CodeSUBNET) ∧
      RRToCode o = CodeSUBNET := by
  obtain ⟨pre, post, hps, hpre, hcode, _⟩ := removeOption_of_find_some CodeSUBNET ps o h
  exact ⟨pre, post, hps, hpre, hcode⟩

theorem find_subnet_append (o : EDNS0) (post : List EDNS0) (ho : RRToCode o = CodeSUBNET) :
    ∀ pre : List EDNS0, (∀ x ∈ pre, RRToCode x ≠ CodeSUBNET) →
      (pre ++ o :: post).find? (fun opt => RRToCode opt == CodeSUBNET) = some o := by
  intro pre
  induction pre with
  | nil => intro _; simp [List.find?, ho]
  | cons a pre ih =>
    intro hpre
    have ha : RRToCode a ≠ CodeSUBNET := hpre a (List.mem_cons_self _ _)
    have hb : (RRToCode a == CodeSUBNET) = false := by simpa using ha
    rw [List.cons_append, List.find?_cons, hb]
    exact ih fun x hx => hpre x (List.mem_cons_of_mem _ hx)

theorem countP_subnet_pre (pre : List EDNS0) (h : ∀ x ∈ pre, RRToCode x ≠ CodeSUBNET) :
    pre.countP (fun opt => RRToCode opt == CodeSUBNET) = 0 := by
  rw [List.countP_eq_zero]
  intro x hx
  simpa using h x hx

theorem countP_subnet_of_find_none (ps : List EDNS0)
    (h : ps.find? (fun opt => RRToCode opt == CodeSUBNET) = none) :
    ps.countP (fun opt => RRToCode opt == CodeSUBNET) = 0 := by
  rw [List.countP_eq_zero]
  intro x hx
  simpa using List.find?_eq_none.mp h x hx

/-- C31: `AddECS(m, ecs, overwrite)` with a SUBNET record `ecs` returns true exactly
when `m` had no SUBNET option, and then `ecs` is appended after the existing options;
when `m` has a SUBNET option, the first one is replaced in place by `ecs` if
`overwrite` is set and `m` is left unchanged otherwise.  After `AddECS(m, ecs, true)`
`GetECS(m)` is `ecs`, and the number of SUBNET options never exceeds
`max(1, the number before)`. -/
theorem AddECS_spec (m : Msg) (ecs : EDNS0) (hecs : RRToCode ecs = CodeSUBNET) :
    (∀ overwrite, (AddECS m ecs overwrite).2 = true ↔ GetECS m = none) ∧
    (∀ overwrite, GetECS m = none →
      (AddECS m ecs overwrite).1 = { m with Pseudo := m.Pseudo ++ [ecs] }) ∧
    (∀ o, GetECS m = some o →
      ∃ pre post, m.Pseudo = pre ++ o :: post ∧ (∀ x ∈ pre, RRToCode x ≠ CodeSUBNET) ∧
        (AddECS m ecs true).1 = { m with Pseudo := pre ++ ecs :: post } ∧
        (AddECS m ecs false).1 = m) ∧
    GetECS (AddECS m ecs true).1 = some ecs ∧
    (∀ overwrite, subnetCount (AddECS m ecs overwrite).1 ≤ max 1 (subnetCount m)) := by
  have hnone : ∀ overwrite, GetECS m = none →
      AddECS m ecs overwrite = ({ m with Pseudo := m.Pseudo ++ [ecs] }, true) := by
    intro overwrite h
    have h1 := (addECSLoop_none ecs overwrite m.Pseudo).mpr h
    simp [AddECS, h1]
  have hsome : ∀ overwrite o, GetECS m = some o →
      ∃ pre post, m.Pseudo = pre ++ o :: post ∧ (∀ x ∈ pre, RRToCode x ≠ CodeSUBNET) ∧
        RRToCode o = CodeSUBNET ∧
        AddECS m ecs overwrite
          = ({ m with Pseudo := pre ++ (if overwrite then ecs else o) :: post }, false) := by
    intro overwrite o h
    obtain ⟨pre, post, hps, hpre, ho⟩ := find_subnet_split m.Pseudo o h
    refine ⟨pre, post, hps, hpre, ho, ?_⟩
    have h1 := addECSLoop_some ecs overwrite o post ho pre hpre
    rw [← hps] at h1
    simp [AddECS, h1]
  refine ⟨?_, ?_, ?_, ?_, ?_⟩
  · intro overwrite
    cases hg : GetECS m with
    | none => simp [hnone overwrite hg]
    | some o =>
      obtain ⟨pre, post, _, _, _, hadd⟩ := hsome overwrite o hg
      simp [hadd]
  · intro overwrite hg
    rw [hnone overwrite hg]
  · intro o hg
    obtain ⟨pre, post, hps, hpre, _, hadd⟩ := hsome true o hg
    obtain ⟨pre2, post2, hps2, _, _, hadd2⟩ := hsome false o hg
    refine ⟨pre, post, hps, hpre, by simp [hadd], ?_⟩
    rw [hadd2]
    simp [← hps2]
  · cases hg : GetECS m with
    | none =>
      rw [hnone true hg]
      simp only [GetECS]
      rw [List.find?_append]
      have hg2 : m.Pseudo.find? (fun opt => RRToCode opt == CodeSUBNET) = none := hg
      simp [hg2, List.find?, hecs]
    | some o =>
      obtain ⟨pre, post, _, hpre, _, hadd⟩ := hsome true o hg
      rw [hadd]
      simp only [GetECS, if_true]
      exact find_subnet_append ecs post hecs pre hpre
  · intro overwrite
    cases hg : GetECS m with
    | none =>
      rw [hnone overwrite hg]
      have hz := countP_subnet_of_find_none m.Pseudo hg
      simp [subnetCount, List.countP_append, hz, hecs]
    | some o =>
      obtain ⟨pre, post, hps, hpre, ho, hadd⟩ := hsome overwrite o hg
      rw [hadd]
      have hz := countP_subnet_pre pre hpre
      cases overwrite <;>
        simp [subnetCount, hps, List.countP_append, List.countP_cons, hz, ho, hecs]

/-- Witness of C31: a second SUBNET option is added with `overwrite` set to a query
that carries a cookie and a SUBNET option. -/
theorem AddECS_spec_witness :
    RRToCode exampleSubnet2 = CodeSUBNET ∧
    GetECS (AddECS exampleSubnetQuery exampleSubnet2 true).1 = some exampleSubnet2 ∧
    (AddECS exampleSubnetQuery exampleSubnet2 true).1.Pseudo = [exampleCookie, exampleSubnet2] :=
  ⟨rfl, (AddECS_spec exampleSubnetQuery exampleSubnet2 rfl).2.2.2.1, rfl⟩

/-- C32, as stated, fails: a message with two SUBNET options still carries one after
`RemoveECS`, only the first is removed. -/
theorem RemoveECS_keeps_second_subnet :
    GetECS (RemoveECS exampleTwoSubnetQuery) = some exampleSubnet2 ∧
    (RemoveECS exampleTwoSubnetQuery).Pseudo = [exampleCookie, exampleSubnet2] :=
  ⟨rfl, rfl⟩

/-- C32, amended: `RemoveECS` removes the first SUBNET record of `m`.  For every message
with at most one SUBNET option, `GetECS(m)` is nil after `RemoveECS(m)`, every
non-SUBNET option is still present in its original order, and nothing but the pseudo
section changes. -/
theorem RemoveECS_single (m : Msg) (h : subnetCount m ≤ 1) :
    GetECS (RemoveECS m) = none ∧
    (RemoveECS m).Pseudo = m.Pseudo.filter (fun opt => RRToCode opt != CodeSUBNET) ∧
    RemoveECS m = { m with Pseudo := (RemoveECS m).Pseudo } := by
  have hfilter : ∀ ps : List EDNS0, ps.countP (fun opt => RRToCode opt == CodeSUBNET) = 0 →
      ps.filter (fun opt => RRToCode opt != CodeSUBNET) = ps := by
    intro ps hz
    rw [List.filter_eq_self]
    intro x hx
    have := List.countP_eq_zero.mp hz x hx
    simpa using this
  have hfind : ∀ ps : List EDNS0, ps.countP (fun opt => RRToCode opt == CodeSUBNET) = 0 →
      ps.find? (fun opt => RRToCode opt == CodeSUBNET) = none := by
    intro ps hz
    rw [List.find?_eq_none]
    intro x hx
    exact List.countP_eq_zero.mp hz x hx
  cases hg : m.Pseudo.find? (fun opt => RRToCode opt == CodeSUBNET) with
  | none =>
    have hrem := removeOption_of_find_none CodeSUBNET m.Pseudo hg
    have hz := countP_subnet_of_find_none m.Pseudo hg
    refine ⟨?_, ?_, rfl⟩
    · simp only [GetECS, RemoveECS, hrem]
      exact hg
    · simp only [RemoveECS, hrem]
      exact (hfilter _ hz).symm
  | some o =>
    obtain ⟨pre, post, hps, hpre, ho, hrem⟩ := removeOption_of_find_some CodeSUBNET m.Pseudo o hg
    have hzpre := countP_subnet_pre pre hpre
    have hzpost : post.countP (fun opt => RRToCode opt == CodeSUBNET) = 0 := by
      have h2 : m.Pseudo.countP (fun opt => RRToCode opt == CodeSUBNET) ≤ 1 := h
      rw [hps] at h2
      simp [List.countP_append, List.countP_cons, hzpre, ho] at h2
      rw [List.countP_eq_zero]
      intro x hx
      simpa using h2 x hx
    have hzall : (pre ++ post).countP (fun opt => RRToCode opt == CodeSUBNET) = 0 := by
      simp [List.countP_append, hzpre, hzpost]
    refine ⟨?_, ?_, rfl⟩
    · simp only [GetECS, RemoveECS, hrem]
      exact hfind _ hzall
    · simp only [RemoveECS, hrem]
      rw [hps, List.filter_append, List.filter_cons]
      have hb : (RRToCode o != CodeSUBNET) = false := by simp [ho]
      rw [hb]
      simp only [Bool.false_eq_true, if_false]
      rw [← List.filter_append, hfilter _ hzall]

/-- Witness of C32 amended: the SUBNET option of a query with a cookie and one SUBNET
option is removed, the cookie stays. -/
theorem RemoveECS_single_witness :
    subnetCount exampleSubnetQuery ≤ 1 ∧
    GetECS (RemoveECS exampleSubnetQuery) = none ∧
    (RemoveECS exampleSubnetQuery).Pseudo = [exampleCookie] :=
  ⟨by decide, (RemoveECS_single exampleSubnetQuery (by decide)).1, rfl⟩

/-! ## More claims on the racer -/

/-- Once the drain loop has retained an error and only Cancelled errors follow, the
error it returns without a response is the retained one. -/
theorem drain_keeps_error (q : Msg) (upstreams : List Upstream) (e0 : GoError)
    (err : Option GoError) (addr : String) :
    ∀ (post : List Nat) (n : Nat),
      (∀ j ∈ post, ∀ uj, upstreams[j]? = some uj →
        ∀ ej, (uj.Exchange q.Copy).2 = some ej → ej.isCanceled = true) →
      drain q upstreams n (post.map Select.recv) (some e0) = .ret none err addr →
      err = some e0 := by
  intro post
  induction post with
  | nil =>
    intro n _ h
    cases n with
    | zero =>
      rw [drain_zero] at h
      simp only [Outcome.ret.injEq] at h
      exact h.2.1.symm
    | succ n => simp [drain] at h
  | cons j post ih =>
    intro n hpost h
    cases n with
    | zero =>
      rw [drain_zero] at h
      simp only [Outcome.ret.injEq] at h
      exact h.2.1.symm
    | succ n =>
      have hrest : ∀ j0 ∈ post, ∀ uj, upstreams[j0]? = some uj →
          ∀ ej, (uj.Exchange q.Copy).2 = some ej → ej.isCanceled = true :=
        fun j0 hj0 => hpost j0 (List.mem_cons_of_mem _ hj0)
      cases hu : upstreams[j]? with
      | none => simp [drain, hu] at h
      | some uj =>
        cases hex : uj.Exchange q.Copy with
        | mk mr me =>
          cases me with
          | some resErr =>
            have hc : resErr.isCanceled = true :=
              hpost j (List.mem_cons_self _ _) uj hu resErr (by rw [hex])
            simp only [List.map_cons, drain, hu, task, hex, hc, Bool.not_true,
              Bool.false_eq_true, if_false, Option.isNone_some] at h
            exact ih n hrest h
          | none =>
            cases mr with
            | none =>
              simp only [List.map_cons, drain, hu, task, hex] at h
              exact ih n hrest h
            | some r0 =>
              simp only [List.map_cons, drain, hu, task, hex] at h
              split at h
              · simp at h
              · exact ih n hrest h

/-- C33: when the drain loop of `ExchangeParallel` exhausts without a winner (records
only, at most one per upstream) and the record of `upstreams[i]` carries a
non-Cancelled error, after which only Cancelled errors arrive, then the error returned
is the error of that record: the last non-Cancelled error in arrival order. -/
theorem ExchangeParallel_last_error (qCtx : Context) (upstreams : List Upstream)
    (pre post : List Nat) (i : Nat) (u : Upstream) (ei : GoError)
    (err : Option GoError) (addr : String)
    (hlen : (pre ++ i :: post).length ≤ upstreams.length)
    (h : ExchangeParallel qCtx upstreams ((pre ++ i :: post).map Select.recv)
      = .ret none err addr)
    (hu : upstreams[i]? = some u)
    (hei : (u.Exchange qCtx.Q.Copy).2 = some ei) (hnc : ei.isCanceled = false)
    (hpost : ∀ j ∈ post, ∀ uj, upstreams[j]? = some uj →
      ∀ ej, (uj.Exchange qCtx.Q.Copy).2 = some ej → ej.isCanceled = true) :
    err = some ei := by
  have key : ∀ (pre : List Nat) (n : Nat) (err0 : Option GoError), pre.length < n →
      drain qCtx.Q upstreams n ((pre ++ i :: post).map Select.recv) err0
        = .ret none err addr → err = some ei := by
    intro pre
    induction pre with
    | nil =>
      intro n err0 hn h
      obtain ⟨m, rfl⟩ : ∃ m, n = m + 1 := ⟨n - 1, by simp at hn; omega⟩
      cases hex : u.Exchange qCtx.Q.Copy with
      | mk mr me =>
        rw [hex] at hei
        simp only at hei
        subst hei
        simp only [List.nil_append, List.map_cons, drain, hu, task, hex, hnc, Bool.not_false,
          if_true] at h
        exact drain_keeps_error qCtx.Q upstreams ei err addr post m hpost h
    | cons j pre ih =>
      intro n err0 hn h
      obtain ⟨m, rfl⟩ : ∃ m, n = m + 1 := ⟨n - 1, by simp at hn; omega⟩
      have hm : pre.length < m := by simp at hn; omega
      cases huj : upstreams[j]? with
      | none => simp [drain, huj] at h
      | some uj =>
        cases hex : uj.Exchange qCtx.Q.Copy with
        | mk mr me =>
          cases me with
          | some resErr =>
            simp only [List.cons_append, List.map_cons, drain, huj, task, hex] at h
            split at h
            · exact ih m _ hm h
            · split at h
              · exact ih m _ hm h
              · exact ih m _ hm h
          | none =>
            cases mr with
            | none =>
              simp only [List.cons_append, List.map_cons, drain, huj, task, hex] at h
              exact ih m _ hm h
            | some r0 =>
              simp only [List.cons_append, List.map_cons, drain, huj, task, hex] at h
              split at h
              · simp at h
              · exact ih m _ hm h
  refine key pre upstreams.length none ?_ h
  simp at hlen
  omega

/-- Witness of C33: a refused connection, a timeout, a Cancelled error and a rejected
response arrive in this order; the timeout is returned. -/
theorem ExchangeParallel_last_error_witness :
    ExchangeParallel {} exampleErrUpstreams ([0, 1, 2, 3].map Select.recv)
      = .ret none (some (.other "i/o timeout")) "" ∧
    (some (GoError.other "i/o timeout") : Option GoError) = some (.other "i/o timeout") :=
  ⟨rfl,
    ExchangeParallel_last_error {} exampleErrUpstreams [0] [2, 3] 1
      (failing "udp://8.8.8.8" false (.other "i/o timeout")) (.other "i/o timeout")
      (some (.other "i/o timeout")) "" (by decide) rfl rfl rfl rfl
      (by
        intro j hj uj huj ej hej
        simp only [List.mem_cons, List.mem_singleton, List.not_mem_nil, or_false] at hj
        rcases hj with rfl | rfl
        · simp only [exampleErrUpstreams, List.getElem?_cons_succ, List.getElem?_cons_zero,
            Option.some.injEq] at huj
          subst huj
          simp only [failing, Option.some.injEq] at hej
          subst hej
          rfl
        · simp only [exampleErrUpstreams, List.getElem?_cons_succ, List.getElem?_cons_zero,
            Option.some.injEq] at huj
          subst huj
          simp [answering] at hej)⟩

/-! ## Claims on the question index and on `sequence` -/

theorem getElem_zero_of_ne_nil (l : List RR) (h : l ≠ []) : ∃ q0, l[0]? = some q0 := by
  cases l with
  | nil => exact absurd rfl h
  | cons a l => exact ⟨a, by simp⟩

/-- Without a question and with a response, `_reject_any`, `_valid_ip_answer` and
`_empty_ip_answer` fail with the index error; `_valid_answer` does not read the
question. -/
theorem question_index_out_of_range (lib : DnsLib) (qCtx : Context) (r : Msg)
    (next : ExecChainNode) (hq : qCtx.Q.Question = []) (hr : qCtx.R = some r) :
    rejectAny.Exec lib qCtx next = none ∧
    hasValidAnswer.match_ { strict := true } qCtx = none ∧
    hasEmptyIPAnswer.match_ qCtx = none ∧
    (hasValidAnswer.match_ { strict := false } qCtx).isSome = true := by
  simp [rejectAny.Exec, hasValidAnswer.match_, hasEmptyIPAnswer.match_, hq, hr]

/-- C34: when `Q.Question` is non-empty, the access `Q.Question[0]` is in range:
`_reject_any` returns whenever `next` does, and the matchers `_valid_answer`,
`_valid_ip_answer` and `_empty_ip_answer` return a value.  For every query, with or
without question, `redirect` returns whenever `next` does, whichever question records
the response shares with the query, and `GenEmptyReply` returns a message. -/
theorem question_index_in_range (lib : DnsLib) (qCtx : Context) :
    (qCtx.Q.Question ≠ [] →
      (∃ q0, qCtx.Q.Question[0]? = some q0) ∧
      (∀ next, (ExecChain next qCtx).isSome = true →
        (rejectAny.Exec lib qCtx next).isSome = true) ∧
      (∀ e : hasValidAnswer, (e.match_ qCtx).isSome = true) ∧
      (hasEmptyIPAnswer.match_ qCtx).isSome = true) ∧
    (∀ (r : redirectPlugin) (sh : QuestionSharing) (next : ExecChainNode),
      (∀ c, (ExecChain next c).isSome = true) →
        (redirectPlugin.Exec r sh qCtx next).isSome = true) ∧
    (∀ rcode, (GenEmptyReply lib qCtx.Q rcode).isSome = true) := by
  refine ⟨?_, ?_, ?_⟩
  · intro hq
    obtain ⟨q0, h0⟩ := getElem_zero_of_ne_nil qCtx.Q.Question hq
    refine ⟨⟨q0, h0⟩, ?_, ?_, ?_⟩
    · intro next hnext
      simp only [rejectAny.Exec, h0]
      split
      · exact hnext
      · rfl
    · intro e
      simp only [hasValidAnswer.match_, h0]
      cases qCtx.R with
      | none => rfl
      | some r =>
        simp only
        split
        · rfl
        · split <;> rfl
    · simp only [hasEmptyIPAnswer.match_, h0]
      cases qCtx.R with
      | none => rfl
      | some r =>
        simp only
        split <;> rfl
  · intro r sh next hnext
    simp only [redirectPlugin.Exec]
    split
    · split
      · exact hnext _
      · split
        · exact hnext _
        · split
          · rename_i heq
            have hsome : ∀ (c : Context), ExecChain next c ≠ none := by
              intro c hc
              have := hnext c
              rw [hc] at this
              cases this
            exact absurd heq (hsome _)
          · split <;> rfl
    · exact hnext _
  · intro rcode
    simp only [GenEmptyReply]
    split
    · rename_i hlen
      cases hql : qCtx.Q.Question with
      | nil => simp [hql] at hlen
      | cons a l => simp
    · rfl

/-- Witness of C34: the query `example.com. A` passes `_reject_any` and the matchers;
a query without question passes `redirect` and `GenEmptyReply`. -/
theorem question_index_in_range_witness :
    (rejectAny.Exec refLib { Q := exampleQuery } [answerStage]).isSome = true ∧
    (redirectPlugin.Exec exampleRedirect replySharing { Q := { ID := 3 } } []).isSome = true ∧
    (GenEmptyReply refLib { ID := 3 } RcodeRefused).isSome = true :=
  ⟨(question_index_in_range refLib { Q := exampleQuery }).1 (by decide) |>.2.1 [answerStage] rfl,
    (question_index_in_range refLib { Q := { ID := 3 } }).2.1 exampleRedirect replySharing []
      (fun _ => rfl),
    (question_index_in_range refLib { Q := { ID := 3 } }).2.2 RcodeRefused⟩

/-- C35: `sequence.Exec` runs its inner chain and then its own `next`.  If the inner
chain returns an error, `Exec` returns that error on the context the inner chain left,
whatever `next` is: `next` is not invoked.  If the inner chain returns without error,
`Exec` is one run of `next` on the context the inner chain left, also when the inner
chain stopped at a `_return` stage. -/
theorem sequence_Exec_spec (s : sequence) (qCtx : Context) (next : ExecChainNode) :
    (∀ c err, ExecChain s.ecs qCtx = some (c, some err) →
      ∀ next1 : ExecChainNode, s.Exec qCtx next1 = some (c, some err)) ∧
    (∀ c, ExecChain s.ecs qCtx = some (c, none) → s.Exec qCtx next = ExecChain next c) ∧
    (∀ rest : ExecChainNode,
      ExecChain (returnStage :: rest) qCtx = some (qCtx, none) ∧
      sequence.Exec { ecs := returnStage :: rest } qCtx next = ExecChain next qCtx) ∧
    (ExecChain s.ecs qCtx = none → s.Exec qCtx next = none) := by
  refine ⟨?_, ?_, ?_, ?_⟩
  · intro c err h next1
    simp [sequence.Exec, h]
  · intro c h
    simp [sequence.Exec, h]
  · intro rest
    have h : ExecChain (returnStage :: rest) qCtx = some (qCtx, none) := rfl
    refine ⟨h, ?_⟩
    simp [sequence.Exec, h]
  · intro h
    simp [sequence.Exec, h]

/-- Witness of C35: an inner chain that fails keeps `next` from running; an inner
chain that stops at `_return` before a failing stage lets `next` run once. -/
theorem sequence_Exec_spec_witness :
    sequence.Exec { ecs := [markStage, failStage] } {} [markStage]
      = some ({ From := "+next" }, some (.other "stage failed")) ∧
    sequence.Exec { ecs := [returnStage, failStage] } {} [markStage]
      = some ({ From := "+next" }, none) :=
  ⟨(sequence_Exec_spec { ecs := [markStage, failStage] } {} []).1 { From := "+next" }
      (.other "stage failed") rfl [markStage],
    ((sequence_Exec_spec { ecs := [] } {} [markStage]).2.2.1 [failStage]).2⟩

/-! ## Claims on `ApplyTTL` and `GenEmptyReply` -/

theorem forall2_map_right (P : RR → RR → Prop) (f : RR → RR) (h : ∀ rr, P rr (f rr)) :
    ∀ l : List RR, List.Forall₂ P l (l.map f) := by
  intro l
  induction l with
  | nil => exact List.Forall₂.nil
  | cons a l ih => exact List.Forall₂.cons (h a) ih

theorem ApplyTTL_sectionsRel (P : RR → RR → Prop) (m : Msg) (max min : Nat)
    (h : ∀ rr, P rr (applyTTLRecord max min rr)) : SectionsRel P m (ApplyTTL m max min) :=
  ⟨forall2_map_right P _ h _, forall2_map_right P _ h _, forall2_map_right P _ h _, rfl⟩

theorem applyTTLRecord_idem (max min : Nat) (hmin : 0 < min) (hle : min ≤ max) (rr : RR) :
    applyTTLRecord max min (applyTTLRecord max min rr) = applyTTLRecord max min rr := by
  have hmax : 0 < max := by omega
  by_cases h1 : rr.Hdr.TTL > max
  · have h2 : ¬ max < min := by omega
    simp [applyTTLRecord, hmax, hmin, h1, h2]
  · by_cases h2 : rr.Hdr.TTL < min
    · have h3 : ¬ max < min := by omega
      simp [applyTTLRecord, hmax, hmin, h1, h2, h3]
    · simp [applyTTLRecord, hmax, hmin, h1, h2]

/-- C36: for bounds with `0 < min ≤ max`, `ApplyTTL(m, max, min)` changes only the TTLs
of the records of the answer, authority and additional sections; every new TTL lies in
`[min, max]`, a record whose TTL was in range is unchanged, and a second application
changes nothing.  With `max = 0` no TTL is lowered (the TTL becomes the larger of the
old one and `min`), with `min = 0` no TTL is raised, and with both 0 the message is
unchanged. -/
theorem ApplyTTL_spec (m : Msg) (max min : Nat) :
    (0 < min → min ≤ max →
      SectionsRel (fun old new => HasTTL new.Hdr.TTL old new ∧
        min ≤ new.Hdr.TTL ∧ new.Hdr.TTL ≤ max ∧
        (min ≤ old.Hdr.TTL → old.Hdr.TTL ≤ max → new = old)) m (ApplyTTL m max min) ∧
      ApplyTTL (ApplyTTL m max min) max min = ApplyTTL m max min) ∧
    (max = 0 →
      SectionsRel (fun old new => HasTTL (Nat.max old.Hdr.TTL min) old new)
        m (ApplyTTL m max min)) ∧
    (min = 0 →
      SectionsRel (fun old new =>
        HasTTL (if 0 < max then Nat.min old.Hdr.TTL max else old.Hdr.TTL) old new)
        m (ApplyTTL m max min)) ∧
    (max = 0 → min = 0 → ApplyTTL m max min = m) := by
  refine ⟨?_, ?_, ?_, ?_⟩
  · intro hmin hle
    have hmax : 0 < max := by omega
    refine ⟨ApplyTTL_sectionsRel _ m max min ?_, ?_⟩
    · intro rr
      by_cases h1 : rr.Hdr.TTL > max
      · refine ⟨?_, ?_, ?_, ?_⟩
        · simp [HasTTL, applyTTLRecord, hmax, h1]
        · simp [applyTTLRecord, hmax, h1, hle]
        · simp [applyTTLRecord, hmax, h1]
        · intro _ h3
          omega
      · by_cases h2 : rr.Hdr.TTL < min
        · refine ⟨?_, ?_, ?_, ?_⟩
          · simp [HasTTL, applyTTLRecord, hmax, hmin, h1, h2]
          · simp [applyTTLRecord, hmax, hmin, h1, h2]
          · simp [applyTTLRecord, hmax, hmin, h1, h2, hle]
          · intro h3 _
            omega
        · refine ⟨?_, ?_, ?_, ?_⟩
          · simp [HasTTL, applyTTLRecord, hmax, hmin, h1, h2]
          · simp only [applyTTLRecord, hmax, hmin, h1, h2]
            simp
            omega
          · simp only [applyTTLRecord, hmax, hmin, h1, h2]
            simp
            omega
          · intro _ _
            simp [applyTTLRecord, hmax, hmin, h1, h2]
    · simp only [ApplyTTL, List.map_map]
      have hfun : applyTTLRecord max min ∘ applyTTLRecord max min = applyTTLRecord max min :=
        funext fun rr => applyTTLRecord_idem max min hmin hle rr
      rw [hfun]
  · intro hmax
    subst hmax
    refine ApplyTTL_sectionsRel _ m 0 min ?_
    intro rr
    by_cases h2 : rr.Hdr.TTL < min
    · have hmin : 0 < min := by omega
      have hmx : Nat.max rr.Hdr.TTL min = min := Nat.max_eq_right (by omega)
      simp [HasTTL, applyTTLRecord, hmin, h2, hmx]
    · have hmx : Nat.max rr.Hdr.TTL min = rr.Hdr.TTL := Nat.max_eq_left (by omega)
      simp [HasTTL, applyTTLRecord, h2, hmx]
  · intro hmin
    subst hmin
    refine ApplyTTL_sectionsRel _ m max 0 ?_
    intro rr
    by_cases hmax : 0 < max
    · by_cases h1 : rr.Hdr.TTL > max
      · have hmn : Nat.min rr.Hdr.TTL max = max := Nat.min_eq_right (by omega)
        simp [HasTTL, applyTTLRecord, hmax, h1, hmn]
      · have hmn : Nat.min rr.Hdr.TTL max = rr.Hdr.TTL := Nat.min_eq_left (by omega)
        simp [HasTTL, applyTTLRecord, hmax, h1, hmn]
    · simp [HasTTL, applyTTLRecord, hmax]
  · intro hmax hmin
    subst hmax
    subst hmin
    have hid : applyTTLRecord 0 0 = id := funext fun rr => by simp [applyTTLRecord]
    simp [ApplyTTL, hid]

/-- Witness of C36: with the bounds `[10, 300]` the TTLs 5, 500, 50, 86400 and 0 become
10, 300, 50, 300 and 10, and a second application changes nothing. -/
theorem ApplyTTL_spec_witness :
    (0 : Nat) < 10 ∧ (10 : Nat) ≤ 300 ∧
    (ApplyTTL exampleTTLResponse 300 10).Answer.map (fun rr => rr.Hdr.TTL) = [10, 300, 50] ∧
    (ApplyTTL exampleTTLResponse 300 10).Ns.map (fun rr => rr.Hdr.TTL) = [300] ∧
    (ApplyTTL exampleTTLResponse 300 10).Extra.map (fun rr => rr.Hdr.TTL) = [10] ∧
    ApplyTTL (ApplyTTL exampleTTLResponse 300 10) 300 10 = ApplyTTL exampleTTLResponse 300 10 :=
  ⟨by decide, by decide, rfl, rfl, rfl,
    ((ApplyTTL_spec exampleTTLResponse 300 10).1 (by decide) (by decide)).2⟩

/-- C37: `GenEmptyReply(q, rcode)` returns the reply header the library sets for `q`,
with the rcode `rcode`, `RecursionAvailable` set, and an authority section of exactly
one record, the fake SOA (class IN, TTL 300).  Its owner name is the name of the first
question when `q` has more than one question and `.` otherwise, so `.` for a query with
exactly one question. -/
theorem GenEmptyReply_spec (lib : DnsLib) (q : Msg) (rcode : Nat) :
    ∃ r name, GenEmptyReply lib q rcode = some r ∧
      r = { lib.SetReply {} q with Rcode := rcode, RecursionAvailable := true,
                                   Ns := [FakeSOA name] } ∧
      r.Rcode = rcode ∧ r.RecursionAvailable = true ∧ r.Ns = [FakeSOA name] ∧
      (FakeSOA name).Hdr = { Name := name, TTL := 300, Class := ClassINET } ∧
      RRToType (FakeSOA name) = TypeSOA ∧
      (1 < q.Question.length → ∃ q0, q.Question[0]? = some q0 ∧ name = q0.Hdr.Name) ∧
      (q.Question.length ≤ 1 → name = ".") ∧
      (q.Question.length = 1 → name = ".") := by
  by_cases hlen : 1 < q.Question.length
  · cases hq : q.Question with
    | nil => simp [hq] at hlen
    | cons q0 rest =>
      have h0 : q.Question[0]? = some q0 := by simp [hq]
      have hl2 : 1 < (q0 :: rest).length := by rw [← hq]; exact hlen
      refine ⟨_, q0.Hdr.Name, ?_, rfl, rfl, rfl, rfl, rfl, rfl, ?_, ?_, ?_⟩
      · simp only [GenEmptyReply]
        rw [if_pos (by simpa [hq] using hl2), h0]
      · intro _
        exact ⟨q0, by simp, rfl⟩
      · intro h
        omega
      · intro h
        omega
  · refine ⟨_, ".", ?_, rfl, rfl, rfl, rfl, rfl, rfl, ?_, ?_, ?_⟩
    · simp only [GenEmptyReply]
      rw [if_neg (by simpa using hlen)]
    · intro h
      exact absurd h hlen
    · intro _
      rfl
    · intro _
      rfl

/-- Evaluation for C37 with the reference library: the reply to the one-question query
`example.com. A` names `.` in its fake SOA, the reply to a two-question query names its
first question. -/
theorem GenEmptyReply_examples :
    (GenEmptyReply refLib exampleQuery RcodeNameError).map
        (fun r => (r.ID, r.Response, r.Rcode, r.RecursionAvailable, r.Question, r.Ns))
      = some (7, true, RcodeNameError, true, exampleQuery.Question, [FakeSOA "."]) ∧
    (GenEmptyReply refLib exampleTwoQuestionQuery RcodeRefused).map (fun r => r.Ns)
      = some [FakeSOA "first.test."] ∧
    (GenEmptyReply refLib { ID := 3 } RcodeRefused).map (fun r => r.Ns)
      = some [FakeSOA "."] :=
  ⟨rfl, rfl, rfl⟩

/-! ## More claims on `redirect`, the racer and `edns0_filter` -/

/-- C38, as stated, fails: `foo.test.` is redirected to `bar.test.` and `next` answers
with an empty reply built from the query, whose question record is the question record
of the query.  After `Exec` the question of `Q` is named `foo.test.` again, as the
question of the response. -/
theorem redirectPlugin_Exec_restores_shared_question :
    exampleRedirect.m "foo.test." = some "bar.test." ∧
    (ExecChain [emptyReplyStage]
        (redirectPlugin.rename replySharing { Q := exampleFooQuery }
          { Hdr := { Name := "foo.test." }, Rrtype := TypeA } "bar.test.")).map
        (fun res => (res.1.Q.Question.map (fun rr => rr.Hdr.Name),
          res.1.R.map fun resp => resp.Question.map fun rr => rr.Hdr.Name))
      = some (["bar.test."], some ["bar.test."]) ∧
    (redirectPlugin.Exec exampleRedirect replySharing { Q := exampleFooQuery }
        [emptyReplyStage]).map
        (fun res => (res.2, res.1.Q.Question.map (fun rr => rr.Hdr.Name),
          res.1.R.map fun resp => resp.Question.map fun rr => rr.Hdr.Name))
      = some (none, ["foo.test."], some ["foo.test."]) :=
  ⟨rfl, rfl, rfl⟩

/-- C38, amended: when a redirect rule matches and `next` returns, with or without
error, `redirectPlugin.Exec` returns the error of `next`; an absent response leaves the
context as `next` left it; a response that is present gets the original name back in
its question section and the CNAME in front, also when `next` returned an error, and
besides the response only the question section of `Q` can change.  A question record
of `Q` is renamed to the original name exactly when it is a question record of the
response that carried the target name.  So when no question record of the response is
a record of `Q`, `Q` is the query `next` left and still names the redirect target when
`next` keeps the question section. -/
theorem redirectPlugin_Exec_keeps_target (r : redirectPlugin) (sh : QuestionSharing)
    (qCtx : Context) (next : ExecChainNode) (q0 : RR) (target : String)
    (hq : qCtx.Q.Question = [q0]) (hclass : q0.Hdr.Class = ClassINET)
    (hm : r.m q0.Hdr.Name = some target) :
    ∀ c1 err,
      ExecChain next (redirectPlugin.rename sh qCtx q0 target) = some (c1, err) →
      ∃ c, r.Exec sh qCtx next = some (c, err) ∧
        c = { c1 with Q := { c1.Q with Question := c.Q.Question }, R := c.R } ∧
        (c1.R = none → c = c1) ∧
        (∀ resp, c1.R = some resp →
          c.R = some { resp with
            Question := restoreQuestion q0.Hdr.Name target resp.Question
            Answer := redirectCNAME q0.Hdr.Name target :: resp.Answer } ∧
          c.Q.Question.length = c1.Q.Question.length ∧
          ∀ j rr, c1.Q.Question[j]? = some rr →
            ((∃ i ri, resp.Question[i]? = some ri ∧ ri.Hdr.Name = target ∧
                sh.afterNext i j = true) →
              c.Q.Question[j]? = some (setName q0.Hdr.Name rr)) ∧
            ((¬ ∃ i ri, resp.Question[i]? = some ri ∧ ri.Hdr.Name = target ∧
                sh.afterNext i j = true) →
              c.Q.Question[j]? = some rr)) ∧
        ((∀ i j, sh.afterNext i j = false) →
          c.Q = c1.Q ∧
          (KeepsQuestion next →
            c.Q.Question = [{ q0 with Hdr := { q0.Hdr with Name := target } }])) := by
  intro c1 err hnext
  have hexec := redirectPlugin_Exec_match r sh qCtx next q0 target hq hclass hm
  rw [hnext] at hexec
  have hquestion : KeepsQuestion next →
      c1.Q.Question = [{ q0 with Hdr := { q0.Hdr with Name := target } }] := by
    intro hkeep
    rw [hkeep _ _ _ hnext]
    rfl
  rcases Option.eq_none_or_eq_some c1.R with hr | ⟨resp, hr⟩
  · refine ⟨c1, ?_, rfl, fun _ => rfl, ?_, fun _ => ⟨rfl, hquestion⟩⟩
    · rw [hexec]
      simp only [hr]
    · intro resp h
      rw [hr] at h
      cases h
  · simp only [hr] at hexec
    refine ⟨_, hexec, rfl, ?_, ?_, ?_⟩
    · intro h
      rw [hr] at h
      cases h
    · intro resp1 h
      rw [hr] at h
      cases h
      refine ⟨rfl, ?_, ?_⟩
      · simp only [redirectPlugin.restoreShared]
        exact writeThrough_length _ _ _ _
      · intro j rr hj
        have hget : (redirectPlugin.restoreShared sh q0.Hdr.Name target c1.Q resp).Question[j]?
            = some (if restoresShared target (fun i => sh.afterNext i j) 0 resp.Question
                then setName q0.Hdr.Name rr else rr) := by
          simp only [redirectPlugin.restoreShared]
          rw [writeThrough_getElem, hj]
          simp
        have hiff := restoresShared_iff target (fun i => sh.afterNext i j) resp.Question 0
        simp only [Nat.zero_add] at hiff
        refine ⟨?_, ?_⟩
        · intro hex
          have hb := hiff.mpr hex
          simp only at hget ⊢
          rw [hget, hb]
          rfl
        · intro hnex
          have hb : restoresShared target (fun i => sh.afterNext i j) 0 resp.Question = false := by
            cases hc : restoresShared target (fun i => sh.afterNext i j) 0 resp.Question with
            | false => rfl
            | true => exact absurd (hiff.mp hc) hnex
          simp only at hget ⊢
          rw [hget, hb]
          rfl
    · intro hno
      have hsame := restoreShared_noSharing sh q0.Hdr.Name target c1.Q resp hno
      refine ⟨hsame, ?_⟩
      intro hkeep
      simp only
      rw [hsame]
      exact hquestion hkeep

/-- The chain made of the failing answer stage keeps the question section. -/
theorem failingBarStage_keepsQuestion : KeepsQuestion [failingBarStage] := by
  intro c0 c1 e1 h
  simp only [ExecChain, failingBarStage, Option.some.injEq, Prod.mk.injEq] at h
  rw [← h.1]

/-- Witness of C38 amended: `foo.test.` is redirected to `bar.test.`, `next` sets a
response with records of its own and fails; the error is returned, `Q` asks for
`bar.test.`, and the response asks for `foo.test.` and starts with the CNAME. -/
theorem redirectPlugin_Exec_keeps_target_witness :
    ∃ c, redirectPlugin.Exec exampleRedirect noSharing { Q := exampleFooQuery }
          [failingBarStage]
        = some (c, some (.other "i/o timeout")) ∧
      c.Q.Question = [{ Hdr := { Name := "bar.test." }, Rrtype := TypeA }] ∧
      c.R.map (fun resp => resp.Question.map (fun rr => rr.Hdr.Name)) = some ["foo.test."] ∧
      c.R.map (fun resp => resp.Answer.head?)
        = some (some (redirectCNAME "foo.test." "bar.test.")) := by
  obtain ⟨c, hc, _, _, hR, hQ⟩ :=
    redirectPlugin_Exec_keeps_target exampleRedirect noSharing { Q := exampleFooQuery }
      [failingBarStage] { Hdr := { Name := "foo.test." }, Rrtype := TypeA } "bar.test."
      rfl rfl rfl
      { Q := { Question := [{ Hdr := { Name := "bar.test." }, Rrtype := TypeA }] }
        R := some exampleBarResponse } (some (.other "i/o timeout")) rfl
  refine ⟨c, hc, ?_, ?_, ?_⟩
  · exact (hQ (fun _ _ => rfl)).2 failingBarStage_keepsQuestion
  · rw [(hR exampleBarResponse rfl).1]
    rfl
  · rw [(hR exampleBarResponse rfl).1]
    rfl

/-- C39: the drain loop reads a field of a nil record.  When the result channel is
closed before the loop has taken one record per upstream, the receive `res := <-c`
yields nil and `res.err` is dereferenced: with one upstream whose task returned
without publishing, and after one record of two upstreams, the call panics. -/
theorem ExchangeParallel_nil_record :
    ExchangeParallel { Q := exampleQuery } [answering "udp://1.1.1.1" true RcodeSuccess]
      [.closed] = .nilDeref ∧
    ExchangeParallel { Q := exampleQuery }
      [failing "udp://1.1.1.1" true .deadlineExceeded,
       answering "udp://8.8.8.8" true RcodeSuccess]
      [.recv 0, .closed] = .nilDeref ∧
    (∀ (qCtx : Context) (u : Upstream) (upstreams : List Upstream) (rest : List Select),
      ExchangeParallel qCtx (u :: upstreams) (.closed :: rest) = .nilDeref) :=
  ⟨rfl, rfl, fun _ _ _ _ => rfl⟩

/-- C40: in default mode (`no_edns` false, `accept` and `discard` empty) `applyFilter`
turns a query that has EDNS0 into the message `no_edns` mode yields, the query with
its EDNS0 record removed (UDP size 0, flags cleared, no pseudo records); a query
without EDNS0 is left unchanged. -/
theorem applyFilter_default_mode (lib : DnsLib) (args : edns0_filter.Args) (q : Msg)
    (hno : args.NoEDNS = false) (hkeep : args.Keep = []) (_hdiscard : args.Discard = []) :
    (lib.IsEdns0 q = true →
      (∀ args1 : edns0_filter.Args, args1.NoEDNS = true →
        (NewFilter args).applyFilter lib q = (NewFilter args1).applyFilter lib q) ∧
      (NewFilter args).applyFilter lib q = RemoveEDNS0 q ∧
      (NewFilter args).applyFilter lib q
        = { q with UDPSize := 0, Security := false, CompactAnswers := false,
                   Delegation := false, Pseudo := [] }) ∧
    (lib.IsEdns0 q = false → (NewFilter args).applyFilter lib q = q) := by
  obtain ⟨h1, h2⟩ := NewFilter_no_keep args hkeep
  have hargs : (NewFilter args).args = args := rfl
  refine ⟨?_, ?_⟩
  · intro he
    have hdef : (NewFilter args).applyFilter lib q = RemoveEDNS0 q := by
      simp [Filter.applyFilter, hargs, hno, h1, h2, he]
    refine ⟨?_, hdef, ?_⟩
    · intro args1 hno1
      have hargs1 : (NewFilter args1).args = args1 := rfl
      rw [hdef]
      simp [Filter.applyFilter, hargs1, hno1]
    · rw [hdef]
      rfl
  · intro he
    simp [Filter.applyFilter, hargs, hno, h1, h2, he]

/-- Witness of C40: the default filter and the `no_edns` filter both turn the padded
query `example.com. A` into the query without EDNS0, and the default filter leaves the
query without EDNS0 alone. -/
theorem applyFilter_default_mode_witness :
    (NewFilter {}).applyFilter refLib examplePaddedQuery
      = (NewFilter { NoEDNS := true }).applyFilter refLib examplePaddedQuery ∧
    (NewFilter {}).applyFilter refLib examplePaddedQuery = exampleQuery ∧
    (NewFilter {}).applyFilter refLib exampleQuery = exampleQuery :=
  ⟨((applyFilter_default_mode refLib {} examplePaddedQuery rfl rfl rfl).1 rfl).1
      { NoEDNS := true } rfl,
    rfl,
    (applyFilter_default_mode refLib {} exampleQuery rfl rfl rfl).2 rfl⟩

end Mosdns
